import Mathlib

set_option maxRecDepth 100000

/-!
Verification of the workspace indexing and diagnostics pipeline of the
codezen.diy repository, as a shallow embedding in Lean 4.

Each definition translates one function of the TypeScript source
(`app/lib/stores/diagnostics.ts`, `app/lib/services/WorkspaceIndexService.ts`,
`app/lib/diagnostics/DiagnosticService.ts`,
`app/lib/diagnostics/DiagnosticNavigationService.ts`,
`app/lib/diagnostics/languageProviders/TypeScriptDiagnosticProvider.ts`).
JavaScript objects are modelled as insertion-ordered association lists,
JavaScript arrays as lists, 32-bit integer wraparound as explicit arithmetic
on `Int`, and `parseInt` returning `NaN` as an `Option Int` with value
`none`.
-/

namespace CodeZen

/-! ## Association lists: JavaScript objects / Maps as key-insertion-ordered lists -/

/-- Property read `m[k]` on a JavaScript object modelled as an association
list with pairwise-distinct keys in insertion order. -/
def aget {α : Type} (m : List (String × α)) (k : String) : Option α :=
  match m with
  | [] => none
  | (k', v) :: rest => if k' == k then some v else aget rest k

/-- Property write `m[k] = v` on a JavaScript object: an existing key is
updated in place (insertion order preserved), a new key is appended. -/
def aset {α : Type} (m : List (String × α)) (k : String) (v : α) : List (String × α) :=
  match m with
  | [] => [(k, v)]
  | (k', v') :: rest => if k' == k then (k, v) :: rest else (k', v') :: aset rest k v

/-- Property deletion `delete m[k]` on a JavaScript object. -/
def adel {α : Type} (m : List (String × α)) (k : String) : List (String × α) :=
  match m with
  | [] => []
  | (k', v') :: rest => if k' == k then rest else (k', v') :: adel rest k

/-- Membership test `k in m` on a JavaScript object. -/
def ahas {α : Type} (m : List (String × α)) (k : String) : Bool :=
  (aget m k).isSome

/-- JavaScript `Array.prototype.findIndex`, with `none` in place of `-1`. -/
def findIdxO {α : Type} (p : α → Bool) : List α → Option Nat
  | [] => none
  | a :: l => if p a then some 0 else (findIdxO p l).map (· + 1)

theorem aget_aset {α : Type} (m : List (String × α)) (k k' : String) (v : α) :
    aget (aset m k v) k' = if k = k' then some v else aget m k' := by
  induction m with
  | nil =>
    by_cases h : k = k' <;> simp [aset, aget, h]
  | cons hd tl ih =>
    obtain ⟨k₀, v₀⟩ := hd
    by_cases h0 : k₀ = k
    · subst h0
      by_cases h1 : k₀ = k' <;> simp [aset, aget, h1]
    · by_cases h1 : k₀ = k'
      · subst h1
        have hk : ¬ k = k₀ := fun h => h0 h.symm
        simp [aset, aget, h0, hk]
      · simp [aset, aget, h0, h1, ih]

theorem findIdxO_eq_none {α : Type} {p : α → Bool} {l : List α}
    (h : findIdxO p l = none) : ∀ a ∈ l, p a = false := by
  induction l with
  | nil => intro a ha; cases ha
  | cons hd tl ih =>
    intro a ha
    simp only [findIdxO] at h
    by_cases hp : p hd
    · simp [hp] at h
    · rw [List.mem_cons] at ha
      rcases ha with rfl | ha
      · simpa using hp
      · exact ih (by simpa [hp] using h) a ha

theorem findIdxO_of_not_mem {α : Type} {p : α → Bool} {l : List α}
    (h : ∀ a ∈ l, p a = false) : findIdxO p l = none := by
  induction l with
  | nil => rfl
  | cons hd tl ih =>
    have h0 : p hd = false := h hd (List.mem_cons_self hd tl)
    simp [findIdxO, h0, ih (fun a ha => h a (List.mem_cons_of_mem hd ha))]

theorem findIdxO_some {α : Type} {p : α → Bool} {l : List α} {i : Nat}
    (h : findIdxO p l = some i) : ∃ h' : i < l.length, p (l.get ⟨i, h'⟩) = true := by
  induction l generalizing i with
  | nil => cases h
  | cons hd tl ih =>
    simp only [findIdxO] at h
    by_cases hp : p hd
    · simp only [hp, if_true] at h
      cases h
      exact ⟨Nat.succ_pos _, hp⟩
    · simp only [hp, Bool.false_eq_true, if_false, Option.map_eq_some'] at h
      obtain ⟨j, hj, rfl⟩ := h
      obtain ⟨hlt, hget⟩ := ih hj
      exact ⟨Nat.succ_lt_succ hlt, hget⟩

/-! ## Diagnostic data model (`DiagnosticsPanel.tsx` / `diagnostics/types.ts`) -/

/-- DiagnosticItem of `DiagnosticsPanel.tsx`: the record stored in the
Diagnostics Store. `severity` is the string form
(error / warning / info / hint). -/
structure DiagnosticItem where
  id : String
  filePath : String
  line : Nat
  column : Nat
  message : String
  severity : String
  source : Option String
  code : Option String
deriving DecidableEq, Repr

/-- Diagnostics Store state (`stores/diagnostics.ts`): observable map from
file path to ordered diagnostic list. -/
abbrev DiagnosticsStoreState := List (String × List DiagnosticItem)

/-- Body of DiagnosticsStore.addDiagnostic on one path's list: findIndex by
id, then replace in place (`fileDiagnostics[existingIndex] = diagnostic`) or
push. -/
def upsertById (l : List DiagnosticItem) (d : DiagnosticItem) : List DiagnosticItem :=
  match findIdxO (fun x => x.id == d.id) l with
  | some i => l.set i d
  | none => l ++ [d]

/-- DiagnosticsStore.addDiagnostic: upsert by id within the path's list
(same id replaces in place, otherwise appended), then `setKey`. -/
def addDiagnostic (s : DiagnosticsStoreState) (d : DiagnosticItem) : DiagnosticsStoreState :=
  aset s d.filePath (upsertById ((aget s d.filePath).getD []) d)

/-- DiagnosticsStore.removeDiagnostic. -/
def removeDiagnostic (s : DiagnosticsStoreState) (filePath diagnosticId : String) :
    DiagnosticsStoreState :=
  aset s filePath (((aget s filePath).getD []).filter (fun d => !(d.id == diagnosticId)))

/-- DiagnosticsStore.clearDiagnostics: clears one path (sets its list to
empty) or, with no argument, the whole map. -/
def clearDiagnostics (s : DiagnosticsStoreState) (filePath : Option String) :
    DiagnosticsStoreState :=
  match filePath with
  | some p => aset s p []
  | none => []

/-- DiagnosticsStore.getDiagnostics: one path's list, or all lists
flattened in key-insertion order. -/
def getDiagnostics (s : DiagnosticsStoreState) (filePath : Option String) :
    List DiagnosticItem :=
  match filePath with
  | some p => (aget s p).getD []
  | none => (s.map (·.2)).flatten

/-- Operations of the Diagnostics Store, for quantifying over every
sequence of store operations. -/
inductive StoreOp where
  | add (d : DiagnosticItem)
  | remove (filePath diagnosticId : String)
  | clearPath (filePath : String)
  | clearAll
deriving Repr

/-- Interpreter for one store operation. -/
def runStoreOp (s : DiagnosticsStoreState) : StoreOp → DiagnosticsStoreState
  | .add d => addDiagnostic s d
  | .remove p i => removeDiagnostic s p i
  | .clearPath p => clearDiagnostics s (some p)
  | .clearAll => clearDiagnostics s none

/-- Interpreter for a sequence of store operations, starting from a store. -/
def runStoreOps (ops : List StoreOp) (s : DiagnosticsStoreState) : DiagnosticsStoreState :=
  ops.foldl runStoreOp s

/-- Ids of a diagnostic list, in order. -/
def idsOf (l : List DiagnosticItem) : List String := l.map (·.id)

/-- Store invariant: within every path's list, diagnostic ids are pairwise
distinct. -/
def StoreInv (s : DiagnosticsStoreState) : Prop :=
  ∀ p : String, (idsOf ((aget s p).getD [])).Nodup

theorem aget_aset_self {α : Type} (m : List (String × α)) (k : String) (v : α) :
    aget (aset m k v) k = some v := by
  simp [aget_aset]

theorem upsertById_cons_of_eq (hd : DiagnosticItem) (tl : List DiagnosticItem)
    (d : DiagnosticItem) (heq : hd.id = d.id) :
    upsertById (hd :: tl) d = d :: tl := by
  simp [upsertById, findIdxO, heq, List.set]

theorem upsertById_cons_of_ne (hd : DiagnosticItem) (tl : List DiagnosticItem)
    (d : DiagnosticItem) (hne : ¬ hd.id = d.id) :
    upsertById (hd :: tl) d = hd :: upsertById tl d := by
  simp only [upsertById, findIdxO, beq_iff_eq, hne, if_false]
  cases hfi : findIdxO (fun x => x.id == d.id) tl <;> simp [hfi, List.set]

theorem upsertById_append_of_not_mem (l : List DiagnosticItem) (d : DiagnosticItem)
    (h : ¬ d.id ∈ idsOf l) : upsertById l d = l ++ [d] := by
  have hall : ∀ x ∈ l, (fun x : DiagnosticItem => x.id == d.id) x = false := by
    intro x hx
    simp only [beq_eq_false_iff_ne, ne_eq]
    intro hcontra
    exact h (hcontra ▸ List.mem_map_of_mem (·.id) hx)
  simp [upsertById, findIdxO_of_not_mem hall]

theorem mem_idsOf {l : List DiagnosticItem} {i : String} :
    i ∈ idsOf l ↔ ∃ x ∈ l, x.id = i := by
  simp [idsOf, List.mem_map]

theorem upsertById_of_none (l : List DiagnosticItem) (d : DiagnosticItem)
    (hfi : findIdxO (fun x => x.id == d.id) l = none) :
    upsertById l d = l ++ [d] := by
  unfold upsertById
  rw [hfi]

theorem upsertById_of_some (l : List DiagnosticItem) (d : DiagnosticItem) (i : Nat)
    (hfi : findIdxO (fun x => x.id == d.id) l = some i) :
    upsertById l d = l.set i d := by
  unfold upsertById
  rw [hfi]

theorem idsOf_upsert_nodup (l : List DiagnosticItem) (d : DiagnosticItem)
    (h : (idsOf l).Nodup) : (idsOf (upsertById l d)).Nodup := by
  induction l with
  | nil => simp [upsertById, findIdxO, idsOf]
  | cons hd tl ih =>
    have hnd : (idsOf tl).Nodup := (List.nodup_cons.mp h).2
    have hmem : ¬ hd.id ∈ idsOf tl := (List.nodup_cons.mp h).1
    by_cases hp : hd.id = d.id
    · rw [upsertById_cons_of_eq hd tl d hp]
      have hdm : ¬ d.id ∈ idsOf tl := hp ▸ hmem
      exact List.nodup_cons.mpr ⟨hdm, hnd⟩
    · rw [upsertById_cons_of_ne hd tl d hp]
      refine List.nodup_cons.mpr ⟨?_, ih hnd⟩
      intro hcontra
      rcases mem_idsOf.mp hcontra with ⟨x, hx, hxid⟩
      rcases hfi : findIdxO (fun x => x.id == d.id) tl with _ | i
      · rw [upsertById_of_none tl d hfi] at hx
        rcases List.mem_append.mp hx with hx | hx
        · exact hmem (mem_idsOf.mpr ⟨x, hx, hxid⟩)
        · rcases List.mem_singleton.mp hx with rfl
          exact hp hxid.symm
      · rw [upsertById_of_some tl d i hfi] at hx
        rcases List.mem_or_eq_of_mem_set hx with hx | rfl
        · exact hmem (mem_idsOf.mpr ⟨x, hx, hxid⟩)
        · exact hp hxid.symm

theorem filter_eq_nil_of_id_not_mem (l : List DiagnosticItem) (i : String)
    (h : ¬ i ∈ idsOf l) : l.filter (fun x => x.id == i) = [] := by
  rw [List.filter_eq_nil_iff]
  intro x hx
  simp only [beq_iff_eq, ne_eq]
  intro hcontra
  exact h (mem_idsOf.mpr ⟨x, hx, hcontra⟩)

theorem upsert_filter_eq (l : List DiagnosticItem) (d : DiagnosticItem)
    (h : (idsOf l).Nodup) :
    (upsertById l d).filter (fun x => x.id == d.id) = [d] := by
  induction l with
  | nil => simp [upsertById, findIdxO]
  | cons hd tl ih =>
    have hnd : (idsOf tl).Nodup := (List.nodup_cons.mp h).2
    have hmem : ¬ hd.id ∈ idsOf tl := (List.nodup_cons.mp h).1
    by_cases hp : hd.id = d.id
    · rw [upsertById_cons_of_eq hd tl d hp]
      have hdm : ¬ d.id ∈ idsOf tl := hp ▸ hmem
      rw [List.filter_cons]
      simp [filter_eq_nil_of_id_not_mem tl d.id hdm]
    · rw [upsertById_cons_of_ne hd tl d hp]
      rw [List.filter_cons]
      have hpf : (hd.id == d.id) = false := by simp [hp]
      simp only [hpf, Bool.false_eq_true, if_false]
      exact ih hnd

theorem storeInv_empty : StoreInv [] := by
  intro p
  simp [aget, idsOf]

theorem storeInv_runStoreOp (s : DiagnosticsStoreState) (op : StoreOp)
    (h : StoreInv s) : StoreInv (runStoreOp s op) := by
  cases op with
  | add d =>
    intro p
    simp only [runStoreOp, addDiagnostic, aget_aset]
    by_cases hp : d.filePath = p
    · simpa [hp] using idsOf_upsert_nodup _ d (h d.filePath)
    · simpa [hp] using h p
  | remove fp did =>
    intro p
    simp only [runStoreOp, removeDiagnostic, aget_aset]
    by_cases hp : fp = p
    · simp only [hp, if_true, Option.getD_some]
      have hsub : (idsOf (List.filter (fun d => !(d.id == did)) ((aget s p).getD []))).Sublist
          (idsOf ((aget s p).getD [])) :=
        List.Sublist.map (fun x : DiagnosticItem => x.id) (List.filter_sublist _)
      exact (h p).sublist hsub
    · simpa [hp] using h p
  | clearPath fp =>
    intro p
    simp only [runStoreOp, clearDiagnostics, aget_aset]
    by_cases hp : fp = p
    · simp [hp, idsOf]
    · simpa [hp] using h p
  | clearAll =>
    intro p
    simp [runStoreOp, clearDiagnostics, aget, idsOf]

theorem storeInv_runStoreOps (ops : List StoreOp) (s : DiagnosticsStoreState)
    (h : StoreInv s) : StoreInv (runStoreOps ops s) := by
  induction ops generalizing s with
  | nil => exact h
  | cons op ops ih => exact ih _ (storeInv_runStoreOp s op h)

/-- Reading the updated path of an addDiagnostic result gives the upserted
list. -/
theorem getDiagnostics_addDiagnostic_self (s : DiagnosticsStoreState) (d : DiagnosticItem) :
    getDiagnostics (addDiagnostic s d) (some d.filePath)
      = upsertById (getDiagnostics s (some d.filePath)) d := by
  simp [getDiagnostics, addDiagnostic, aget_aset_self]

/-- C6 (Diagnostics Store upsert invariant): in every store reachable by a
sequence of operations from the empty store, every path's list has pairwise
distinct diagnostic ids; adding twice with the same id on the same path
leaves exactly one diagnostic with that id, equal to (hence bearing the
message of) the latest call; and a diagnostic with a fresh id is appended. -/
theorem C6_store_upsert_invariant :
    (∀ (ops : List StoreOp) (p : String),
      (idsOf (getDiagnostics (runStoreOps ops []) (some p))).Nodup)
    ∧ (∀ (ops : List StoreOp) (d₁ d₂ : DiagnosticItem),
        d₁.filePath = d₂.filePath → d₁.id = d₂.id →
        (getDiagnostics (addDiagnostic (addDiagnostic (runStoreOps ops []) d₁) d₂)
            (some d₂.filePath)).filter (fun x => x.id == d₂.id) = [d₂])
    ∧ (∀ (ops : List StoreOp) (d : DiagnosticItem),
        ¬ d.id ∈ idsOf (getDiagnostics (runStoreOps ops []) (some d.filePath)) →
        getDiagnostics (addDiagnostic (runStoreOps ops []) d) (some d.filePath)
          = getDiagnostics (runStoreOps ops []) (some d.filePath) ++ [d]) := by
  have hinv : ∀ ops : List StoreOp, StoreInv (runStoreOps ops []) := fun ops =>
    storeInv_runStoreOps ops [] storeInv_empty
  refine ⟨fun ops p => hinv ops p, fun ops d₁ d₂ hpath _hid => ?_, fun ops d hfresh => ?_⟩
  · have h1 := getDiagnostics_addDiagnostic_self (runStoreOps ops []) d₁
    have hnodup : (idsOf (getDiagnostics (addDiagnostic (runStoreOps ops []) d₁)
        (some d₂.filePath))).Nodup := by
      rw [← hpath, h1]
      exact idsOf_upsert_nodup _ d₁ (hinv ops d₁.filePath)
    calc (getDiagnostics (addDiagnostic (addDiagnostic (runStoreOps ops []) d₁) d₂)
            (some d₂.filePath)).filter (fun x => x.id == d₂.id)
        = (upsertById (getDiagnostics (addDiagnostic (runStoreOps ops []) d₁)
            (some d₂.filePath)) d₂).filter (fun x => x.id == d₂.id) := by
          rw [getDiagnostics_addDiagnostic_self]
      _ = [d₂] := upsert_filter_eq _ d₂ hnodup
  · rw [getDiagnostics_addDiagnostic_self, upsertById_append_of_not_mem _ d hfresh]

/-- Witness for C6 at a concrete operation sequence and diagnostics. -/
theorem C6_store_upsert_invariant_witness :
    (getDiagnostics (addDiagnostic (addDiagnostic (runStoreOps [] [])
        ⟨"d1", "a.ts", 1, 1, "first", "error", none, none⟩)
        ⟨"d1", "a.ts", 1, 1, "second", "warning", none, none⟩)
      (some "a.ts")).filter (fun x => x.id == "d1")
      = [⟨"d1", "a.ts", 1, 1, "second", "warning", none, none⟩] :=
  C6_store_upsert_invariant.2.1 [] ⟨"d1", "a.ts", 1, 1, "first", "error", none, none⟩
    ⟨"d1", "a.ts", 1, 1, "second", "warning", none, none⟩ rfl rfl

/-! ## Diagnostic navigation service (`DiagnosticNavigationService.ts`) -/

/-- Cursor coordinate for diagnostic navigation. -/
structure DiagnosticPosition where
  filePath : String
  line : Nat
  column : Nat
deriving DecidableEq, Repr

/-- DiagnosticNavigationService._isSamePosition. -/
def isSamePosition (d : DiagnosticItem) (p : DiagnosticPosition) : Bool :=
  d.filePath == p.filePath && d.line == p.line && d.column == p.column

/-- JavaScript string comparison, code-unit lexicographic less-than on the
underlying character lists; models the string `>` operator (flipped) and
the sign of `localeCompare`. -/
def jsStrLtChars : List Char → List Char → Bool
  | [], [] => false
  | [], _ :: _ => true
  | _ :: _, [] => false
  | a :: as, b :: bs =>
    if a.toNat < b.toNat then true
    else if b.toNat < a.toNat then false
    else jsStrLtChars as bs

/-- JavaScript string less-than on Lean strings. -/
def jsStrLt (a b : String) : Bool :=
  jsStrLtChars a.data b.data

theorem char_eq_of_toNat_eq {a b : Char} (h : a.toNat = b.toNat) : a = b := by
  calc a = Char.ofNat a.toNat := (Char.ofNat_toNat a).symm
    _ = Char.ofNat b.toNat := by rw [h]
    _ = b := Char.ofNat_toNat b

theorem jsStrLtChars_irrefl (l : List Char) : jsStrLtChars l l = false := by
  induction l with
  | nil => rfl
  | cons a as ih => simp [jsStrLtChars, ih]

theorem jsStrLtChars_asymm : ∀ {a b : List Char},
    jsStrLtChars a b = true → jsStrLtChars b a = false := by
  intro a
  induction a with
  | nil =>
    intro b h
    cases b with
    | nil => cases h
    | cons x xs => rfl
  | cons x xs ih =>
    intro b h
    cases b with
    | nil => cases h
    | cons y ys =>
      simp only [jsStrLtChars] at h ⊢
      by_cases h1 : x.toNat < y.toNat
      · have h2 : ¬ y.toNat < x.toNat := by omega
        simp [h1, h2]
      · by_cases h2 : y.toNat < x.toNat
        · simp [h1, h2] at h
        · simp only [h1, h2, if_false] at h ⊢
          exact ih h

theorem jsStrLtChars_trans : ∀ {a b c : List Char},
    jsStrLtChars a b = true → jsStrLtChars b c = true → jsStrLtChars a c = true := by
  intro a
  induction a with
  | nil =>
    intro b c h1 h2
    cases b with
    | nil => cases h1
    | cons y ys =>
      cases c with
      | nil => cases h2
      | cons z zs => rfl
  | cons x xs ih =>
    intro b c h1 h2
    cases b with
    | nil => cases h1
    | cons y ys =>
      cases c with
      | nil => cases h2
      | cons z zs =>
        simp only [jsStrLtChars] at h1 h2 ⊢
        by_cases hxy : x.toNat < y.toNat
        · by_cases hyz : y.toNat < z.toNat
          · have : x.toNat < z.toNat := by omega
            simp [this]
          · by_cases hzy : z.toNat < y.toNat
            · simp [hyz, hzy] at h2
            · have heq : y.toNat = z.toNat := by omega
              have : x.toNat < z.toNat := by omega
              simp [this]
        · by_cases hyx : y.toNat < x.toNat
          · simp [hxy, hyx] at h1
          · have hxyeq : x.toNat = y.toNat := by omega
            simp only [hxy, hyx, if_false] at h1
            by_cases hyz : y.toNat < z.toNat
            · have : x.toNat < z.toNat := by omega
              simp [this]
            · by_cases hzy : z.toNat < y.toNat
              · simp [hyz, hzy] at h2
              · simp only [hyz, hzy, if_false] at h2
                have hnlt1 : ¬ x.toNat < z.toNat := by omega
                have hnlt2 : ¬ z.toNat < x.toNat := by omega
                simp only [hnlt1, hnlt2, if_false]
                exact ih h1 h2

theorem jsStrLtChars_eq_of_not_lt : ∀ {a b : List Char},
    jsStrLtChars a b = false → jsStrLtChars b a = false → a = b := by
  intro a
  induction a with
  | nil =>
    intro b h1 _h2
    cases b with
    | nil => rfl
    | cons y ys => cases h1
  | cons x xs ih =>
    intro b h1 h2
    cases b with
    | nil => cases h2
    | cons y ys =>
      simp only [jsStrLtChars] at h1 h2
      by_cases hxy : x.toNat < y.toNat
      · simp [hxy] at h1
      · by_cases hyx : y.toNat < x.toNat
        · simp [hxy, hyx] at h2
        · simp only [hxy, hyx, if_false] at h1 h2
          have hx : x = y := char_eq_of_toNat_eq (by omega)
          rw [hx, ih h1 h2]

theorem jsStrLt_asymm {a b : String} (h : jsStrLt a b = true) : jsStrLt b a = false :=
  jsStrLtChars_asymm h

theorem jsStrLt_trans {a b c : String} (h1 : jsStrLt a b = true) (h2 : jsStrLt b c = true) :
    jsStrLt a c = true :=
  jsStrLtChars_trans h1 h2

theorem jsStrLt_eq_of_not_lt {a b : String} (h1 : jsStrLt a b = false)
    (h2 : jsStrLt b a = false) : a = b := by
  cases a with
  | mk da =>
    cases b with
    | mk db =>
      have : da = db := jsStrLtChars_eq_of_not_lt h1 h2
      rw [this]

theorem jsStrLt_irrefl (a : String) : jsStrLt a a = false :=
  jsStrLtChars_irrefl a.data

/-- Total position key (filePath, line, column) shared between diagnostics
and cursor positions. -/
abbrev PosKey := String × Nat × Nat

/-- Strict comparison of position keys: filePath (JavaScript string
order), then line, then column. -/
def posKeyLt : PosKey → PosKey → Bool
  | (s1, l1, c1), (s2, l2, c2) =>
    if !(s1 == s2) then jsStrLt s1 s2
    else if !(l1 == l2) then decide (l1 < l2)
    else decide (c1 < c2)

/-- Key of a stored diagnostic. -/
def dkey (d : DiagnosticItem) : PosKey := (d.filePath, d.line, d.column)

/-- Key of a cursor position. -/
def pkey (p : DiagnosticPosition) : PosKey := (p.filePath, p.line, p.column)

theorem posKeyLt_str_ne {s1 s2 : String} (h : ¬ s1 = s2) (l1 c1 l2 c2 : Nat) :
    posKeyLt (s1, l1, c1) (s2, l2, c2) = jsStrLt s1 s2 := by
  simp [posKeyLt, h]

theorem posKeyLt_line_ne {s1 s2 : String} {l1 l2 : Nat} (hs : s1 = s2) (h : ¬ l1 = l2)
    (c1 c2 : Nat) : posKeyLt (s1, l1, c1) (s2, l2, c2) = decide (l1 < l2) := by
  simp [posKeyLt, hs, h]

theorem posKeyLt_col {s1 s2 : String} {l1 l2 : Nat} (hs : s1 = s2) (hl : l1 = l2)
    (c1 c2 : Nat) : posKeyLt (s1, l1, c1) (s2, l2, c2) = decide (c1 < c2) := by
  simp [posKeyLt, hs, hl]

theorem posKeyLt_irrefl (a : PosKey) : posKeyLt a a = false := by
  obtain ⟨s, l, c⟩ := a
  rw [posKeyLt_col rfl rfl]
  simp

theorem posKeyLt_asymm {a b : PosKey} (h : posKeyLt a b = true) : posKeyLt b a = false := by
  obtain ⟨s1, l1, c1⟩ := a
  obtain ⟨s2, l2, c2⟩ := b
  by_cases hs : s1 = s2
  · by_cases hl : l1 = l2
    · rw [posKeyLt_col hs hl] at h
      rw [posKeyLt_col hs.symm hl.symm]
      simp only [decide_eq_true_eq] at h
      simp only [decide_eq_false_iff_not]
      omega
    · rw [posKeyLt_line_ne hs hl] at h
      rw [posKeyLt_line_ne hs.symm (fun hc => hl hc.symm)]
      simp only [decide_eq_true_eq] at h
      simp only [decide_eq_false_iff_not]
      omega
  · rw [posKeyLt_str_ne hs] at h
    rw [posKeyLt_str_ne (fun hc => hs hc.symm)]
    exact jsStrLt_asymm h

theorem posKeyLt_trans {a b c : PosKey} (h1 : posKeyLt a b = true)
    (h2 : posKeyLt b c = true) : posKeyLt a c = true := by
  obtain ⟨s1, l1, c1⟩ := a
  obtain ⟨s2, l2, c2⟩ := b
  obtain ⟨s3, l3, c3⟩ := c
  by_cases hs12 : s1 = s2
  · by_cases hs23 : s2 = s3
    · have hs13 : s1 = s3 := hs12.trans hs23
      by_cases hl12 : l1 = l2
      · by_cases hl23 : l2 = l3
        · rw [posKeyLt_col hs12 hl12] at h1
          rw [posKeyLt_col hs23 hl23] at h2
          rw [posKeyLt_col hs13 (hl12.trans hl23)]
          simp only [decide_eq_true_eq] at h1 h2 ⊢
          omega
        · rw [posKeyLt_line_ne hs23 hl23] at h2
          rw [posKeyLt_line_ne hs13 (hl12 ▸ hl23), hl12]
          exact h2
      · by_cases hl23 : l2 = l3
        · rw [posKeyLt_line_ne hs12 hl12] at h1
          rw [posKeyLt_line_ne hs13 (hl23 ▸ hl12), ← hl23]
          exact h1
        · rw [posKeyLt_line_ne hs12 hl12] at h1
          rw [posKeyLt_line_ne hs23 hl23] at h2
          simp only [decide_eq_true_eq] at h1 h2
          have hl13 : ¬ l1 = l3 := by omega
          rw [posKeyLt_line_ne hs13 hl13]
          simp only [decide_eq_true_eq]
          omega
    · rw [posKeyLt_str_ne hs23] at h2
      by_cases hs13 : s1 = s3
      · exact absurd (hs12.symm.trans hs13) hs23
      · rw [posKeyLt_str_ne hs13]
        rw [hs12]
        exact h2
  · rw [posKeyLt_str_ne hs12] at h1
    by_cases hs23 : s2 = s3
    · by_cases hs13 : s1 = s3
      · exact absurd (hs13.trans hs23.symm) hs12
      · rw [posKeyLt_str_ne hs13, ← hs23]
        exact h1
    · rw [posKeyLt_str_ne hs23] at h2
      have hlt : jsStrLt s1 s3 = true := jsStrLt_trans h1 h2
      by_cases hs13 : s1 = s3
      · rw [hs13, jsStrLt_irrefl] at hlt
        cases hlt
      · rw [posKeyLt_str_ne hs13]
        exact hlt

theorem posKeyLt_eq_of_not_lt {a b : PosKey} (h1 : posKeyLt a b = false)
    (h2 : posKeyLt b a = false) : a = b := by
  obtain ⟨s1, l1, c1⟩ := a
  obtain ⟨s2, l2, c2⟩ := b
  by_cases hs : s1 = s2
  · by_cases hl : l1 = l2
    · rw [posKeyLt_col hs hl] at h1
      rw [posKeyLt_col hs.symm hl.symm] at h2
      simp only [decide_eq_false_iff_not] at h1 h2
      have : c1 = c2 := by omega
      rw [hs, hl, this]
    · rw [posKeyLt_line_ne hs hl] at h1
      rw [posKeyLt_line_ne hs.symm (fun hc => hl hc.symm)] at h2
      simp only [decide_eq_false_iff_not] at h1 h2
      omega
  · rw [posKeyLt_str_ne hs] at h1
    rw [posKeyLt_str_ne (fun hc => hs hc.symm)] at h2
    exact absurd (jsStrLt_eq_of_not_lt h1 h2) hs

theorem posKeyLt_lt_or_lt {a b c : PosKey} (h : posKeyLt a c = true) :
    posKeyLt a b = true ∨ posKeyLt b c = true := by
  by_cases hab : posKeyLt a b = true
  · exact Or.inl hab
  · by_cases hba : posKeyLt b a = true
    · exact Or.inr (posKeyLt_trans hba h)
    · have hab' : posKeyLt a b = false := by
        cases hx : posKeyLt a b
        · rfl
        · exact absurd hx hab
      have hba' : posKeyLt b a = false := by
        cases hx : posKeyLt b a
        · rfl
        · exact absurd hx hba
      have : a = b := posKeyLt_eq_of_not_lt hab' hba'
      rw [← this]
      exact Or.inr h

/-- DiagnosticNavigationService._isAfterPosition: the diagnostic lies
strictly after the cursor position in (filePath, line, column) order;
`diagnostic.filePath > position.filePath` is JavaScript string comparison,
modelled by jsStrLt with the arguments flipped. -/
def isAfterPosition (d : DiagnosticItem) (p : DiagnosticPosition) : Bool :=
  if !(d.filePath == p.filePath) then jsStrLt p.filePath d.filePath
  else if !(d.line == p.line) then decide (p.line < d.line)
  else decide (p.column < d.column)

theorem isAfterPosition_eq (d : DiagnosticItem) (p : DiagnosticPosition) :
    isAfterPosition d p = posKeyLt (pkey p) (dkey d) := by
  unfold pkey dkey
  by_cases hf : d.filePath = p.filePath
  · by_cases hl : d.line = p.line
    · rw [posKeyLt_col hf.symm hl.symm]
      simp [isAfterPosition, hf, hl]
    · rw [posKeyLt_line_ne hf.symm (fun hc => hl hc.symm)]
      simp [isAfterPosition, hf, hl]
  · rw [posKeyLt_str_ne (fun hc => hf hc.symm)]
    simp [isAfterPosition, hf]

/-- Comparator of _getSortedDiagnostics as an integer, with the sign of
`localeCompare` modelled by the code-unit string order. -/
def diagCompare (a b : DiagnosticItem) : Int :=
  if !(a.filePath == b.filePath) then (if jsStrLt a.filePath b.filePath then -1 else 1)
  else if !(a.line == b.line) then (a.line : Int) - (b.line : Int)
  else (a.column : Int) - (b.column : Int)

/-- The total preorder the comparator sorts by: comparator value at most
zero. -/
def diagLE (a b : DiagnosticItem) : Prop :=
  diagCompare a b ≤ 0

instance : DecidableRel diagLE := fun a b =>
  inferInstanceAs (Decidable (diagCompare a b ≤ 0))

theorem diagCompare_path_ne {a b : DiagnosticItem} (h : ¬ a.filePath = b.filePath) :
    diagCompare a b = (if jsStrLt a.filePath b.filePath then (-1 : Int) else 1) := by
  simp [diagCompare, h]

theorem diagCompare_line_ne {a b : DiagnosticItem} (hp : a.filePath = b.filePath)
    (h : ¬ a.line = b.line) : diagCompare a b = (a.line : Int) - (b.line : Int) := by
  simp [diagCompare, hp, h]

theorem diagCompare_col {a b : DiagnosticItem} (hp : a.filePath = b.filePath)
    (hl : a.line = b.line) : diagCompare a b = (a.column : Int) - (b.column : Int) := by
  simp [diagCompare, hp, hl]

theorem diagLE_iff (a b : DiagnosticItem) :
    diagLE a b ↔ posKeyLt (dkey b) (dkey a) = false := by
  unfold diagLE dkey
  by_cases hf : a.filePath = b.filePath
  · by_cases hl : a.line = b.line
    · rw [diagCompare_col hf hl, posKeyLt_col hf.symm hl.symm]
      simp only [decide_eq_false_iff_not]
      omega
    · rw [diagCompare_line_ne hf hl, posKeyLt_line_ne hf.symm (fun hc => hl hc.symm)]
      simp only [decide_eq_false_iff_not]
      omega
  · rw [diagCompare_path_ne hf, posKeyLt_str_ne (fun hc => hf hc.symm)]
    by_cases hlt : jsStrLt a.filePath b.filePath = true
    · rw [hlt, jsStrLt_asymm hlt]
      simp
    · have hlt' : jsStrLt a.filePath b.filePath = false := by
        cases hx : jsStrLt a.filePath b.filePath
        · rfl
        · exact absurd hx hlt
      have hba : jsStrLt b.filePath a.filePath = true := by
        cases hx : jsStrLt b.filePath a.filePath
        · exact absurd (jsStrLt_eq_of_not_lt hlt' hx) hf
        · rfl
      rw [hlt', hba]
      simp only [Bool.false_eq_true, if_false]
      constructor
      · intro hc
        omega
      · intro hc
        cases hc

theorem diagLE_refl (a : DiagnosticItem) : diagLE a a :=
  (diagLE_iff a a).mpr (posKeyLt_irrefl (dkey a))

instance : IsRefl DiagnosticItem diagLE := ⟨diagLE_refl⟩

instance : IsTotal DiagnosticItem diagLE := by
  refine ⟨fun a b => ?_⟩
  by_cases h : posKeyLt (dkey b) (dkey a) = true
  · exact Or.inr ((diagLE_iff b a).mpr (posKeyLt_asymm h))
  · refine Or.inl ((diagLE_iff a b).mpr ?_)
    cases hx : posKeyLt (dkey b) (dkey a)
    · rfl
    · exact absurd hx h

instance : IsTrans DiagnosticItem diagLE := by
  refine ⟨fun a b c hab hbc => ?_⟩
  rw [diagLE_iff] at hab hbc ⊢
  cases hx : posKeyLt (dkey c) (dkey a) with
  | false => rfl
  | true =>
    rcases @posKeyLt_lt_or_lt (dkey c) (dkey b) (dkey a) hx with h | h
    · rw [h] at hbc
      cases hbc
    · rw [h] at hab
      cases hab

/-- DiagnosticNavigationService._getSortedDiagnostics: all stored
diagnostics, optionally filtered by (string-form) severity, sorted by
(filePath, line, column) ascending. `Array.prototype.sort` with the
source's comparator yields a list sorted by diagLE; it is modelled by
insertion sort with the same total preorder. -/
def getSortedDiagnostics (s : DiagnosticsStoreState) (severityFilter : Option String) :
    List DiagnosticItem :=
  let diagnostics := getDiagnostics s none
  let diagnostics := match severityFilter with
    | some sev => diagnostics.filter (fun d => d.severity == sev)
    | none => diagnostics
  List.insertionSort diagLE diagnostics

/-- DiagnosticNavigationService.findNextDiagnostic. -/
def findNextDiagnostic (s : DiagnosticsStoreState) (position : DiagnosticPosition)
    (severityFilter : Option String) : Option DiagnosticItem :=
  let allDiagnostics := getSortedDiagnostics s severityFilter
  if allDiagnostics.isEmpty then none
  else
    match allDiagnostics.find? (fun d => isAfterPosition d position && !(isSamePosition d position)) with
    | some d => some d
    | none => allDiagnostics.head?

/-- DiagnosticNavigationService.findPreviousDiagnostic. -/
def findPreviousDiagnostic (s : DiagnosticsStoreState) (position : DiagnosticPosition)
    (severityFilter : Option String) : Option DiagnosticItem :=
  let allDiagnostics := getSortedDiagnostics s severityFilter
  if allDiagnostics.isEmpty then none
  else
    match findIdxO (fun d => isAfterPosition d position || isSamePosition d position) allDiagnostics with
    | some 0 => allDiagnostics.getLast?
    | some (i + 1) => allDiagnostics[i]?
    | none => allDiagnostics.getLast?

theorem sorted_mem_le_getLast {l : List DiagnosticItem} (hs : l.Sorted diagLE)
    {a b : DiagnosticItem} (ha : a ∈ l) (hb : l.getLast? = some b) : diagLE a b := by
  induction l with
  | nil => cases ha
  | cons hd tl ih =>
    cases tl with
    | nil =>
      rcases List.mem_singleton.mp ha with rfl
      cases hb
      exact diagLE_refl a
    | cons hd2 tl2 =>
      have hb' : (hd2 :: tl2).getLast? = some b := by
        simpa [List.getLast?] using hb
      have hs' : (hd2 :: tl2).Sorted diagLE := hs.tail
      rw [List.mem_cons] at ha
      rcases ha with rfl | ha
      · have hbmem : b ∈ hd2 :: tl2 := by
          have := List.getLast?_eq_getLast (hd2 :: tl2) (by simp)
          rw [this] at hb'
          cases hb'
          exact List.getLast_mem _
        exact (List.sorted_cons.mp hs).1 b hbmem
      · exact ih hs' ha hb'

/-- C7 (circular diagnostic navigation): with no diagnostics both lookups
return none; with the cursor at or after the last sorted diagnostic,
findNextDiagnostic wraps around to the first; with the cursor at or before
the first sorted diagnostic, findPreviousDiagnostic wraps around to the
last. -/
theorem C7_circular_navigation :
    (∀ (s : DiagnosticsStoreState) (pos : DiagnosticPosition),
      getDiagnostics s none = [] →
      findNextDiagnostic s pos none = none ∧ findPreviousDiagnostic s pos none = none)
    ∧ (∀ (s : DiagnosticsStoreState) (pos : DiagnosticPosition) (dlast : DiagnosticItem),
      (getSortedDiagnostics s none).getLast? = some dlast →
      isAfterPosition dlast pos = false →
      findNextDiagnostic s pos none = (getSortedDiagnostics s none).head?)
    ∧ (∀ (s : DiagnosticsStoreState) (pos : DiagnosticPosition) (dfirst : DiagnosticItem),
      (getSortedDiagnostics s none).head? = some dfirst →
      (isAfterPosition dfirst pos || isSamePosition dfirst pos) = true →
      findPreviousDiagnostic s pos none = (getSortedDiagnostics s none).getLast?) := by
  refine ⟨fun s pos hempty => ?_, fun s pos dlast hlast hnotafter => ?_,
    fun s pos dfirst hfirst hsat => ?_⟩
  · have hsorted : getSortedDiagnostics s none = [] := by
      simp [getSortedDiagnostics, hempty]
    constructor
    · simp [findNextDiagnostic, hsorted]
    · simp [findPreviousDiagnostic, hsorted]
  · have hsorted : (getSortedDiagnostics s none).Sorted diagLE :=
      List.sorted_insertionSort diagLE _
    have hnone : (getSortedDiagnostics s none).find?
        (fun d => isAfterPosition d pos && !(isSamePosition d pos)) = none := by
      rw [List.find?_eq_none]
      intro d hd
      have hle : diagLE d dlast := sorted_mem_le_getLast hsorted hd hlast
      have hafter : isAfterPosition d pos = false := by
        by_contra hc
        have hc' : isAfterPosition d pos = true := by
          cases h : isAfterPosition d pos
          · exact absurd h hc
          · rfl
        rw [isAfterPosition_eq] at hc'
        have hnl : posKeyLt (dkey dlast) (dkey d) = false := (diagLE_iff d dlast).mp hle
        rcases @posKeyLt_lt_or_lt (pkey pos) (dkey dlast) (dkey d) hc' with h | h
        · rw [← isAfterPosition_eq] at h
          rw [h] at hnotafter
          cases hnotafter
        · rw [h] at hnl
          cases hnl
      simp [hafter]
    have hne : (getSortedDiagnostics s none).isEmpty = false := by
      cases hx : getSortedDiagnostics s none with
      | nil => rw [hx] at hlast; cases hlast
      | cons a tl => simp
    unfold findNextDiagnostic
    simp only [hne, Bool.false_eq_true, if_false, hnone]
  · have hcons : ∃ tl, getSortedDiagnostics s none = dfirst :: tl := by
      cases hl : getSortedDiagnostics s none with
      | nil => rw [hl] at hfirst; cases hfirst
      | cons a tl =>
        rw [hl] at hfirst
        cases hfirst
        exact ⟨tl, rfl⟩
    obtain ⟨tl, htl⟩ := hcons
    have hidx : findIdxO (fun d => isAfterPosition d pos || isSamePosition d pos)
        (getSortedDiagnostics s none) = some 0 := by
      rw [htl]
      simp [findIdxO, hsat]
    have hne : (getSortedDiagnostics s none).isEmpty = false := by
      rw [htl]
      simp
    unfold findPreviousDiagnostic
    simp only [hne, Bool.false_eq_true, if_false, hidx]

/-- Witness for C7 at a concrete store: two diagnostics in two files, with
the cursor past the last one (next wraps to first) and before the first one
(previous wraps to last), plus the empty store. -/
theorem C7_circular_navigation_witness :
    (findNextDiagnostic [] ⟨"a.ts", 1, 1⟩ none = none
      ∧ findPreviousDiagnostic [] ⟨"a.ts", 1, 1⟩ none = none)
    ∧ findNextDiagnostic
        [("a.ts", [⟨"x", "a.ts", 1, 1, "m1", "error", none, none⟩]),
         ("b.ts", [⟨"y", "b.ts", 2, 3, "m2", "warning", none, none⟩])]
        ⟨"b.ts", 9, 9⟩ none
      = some ⟨"x", "a.ts", 1, 1, "m1", "error", none, none⟩
    ∧ findPreviousDiagnostic
        [("a.ts", [⟨"x", "a.ts", 1, 1, "m1", "error", none, none⟩]),
         ("b.ts", [⟨"y", "b.ts", 2, 3, "m2", "warning", none, none⟩])]
        ⟨"a.ts", 1, 1⟩ none
      = some ⟨"y", "b.ts", 2, 3, "m2", "warning", none, none⟩ := by
  refine ⟨C7_circular_navigation.1 [] ⟨"a.ts", 1, 1⟩ rfl, ?_, ?_⟩
  · have h := C7_circular_navigation.2.1
      [("a.ts", [⟨"x", "a.ts", 1, 1, "m1", "error", none, none⟩]),
       ("b.ts", [⟨"y", "b.ts", 2, 3, "m2", "warning", none, none⟩])]
      ⟨"b.ts", 9, 9⟩ ⟨"y", "b.ts", 2, 3, "m2", "warning", none, none⟩ (by decide) (by decide)
    rw [h]
    decide
  · have h := C7_circular_navigation.2.2
      [("a.ts", [⟨"x", "a.ts", 1, 1, "m1", "error", none, none⟩]),
       ("b.ts", [⟨"y", "b.ts", 2, 3, "m2", "warning", none, none⟩])]
      ⟨"a.ts", 1, 1⟩ ⟨"x", "a.ts", 1, 1, "m1", "error", none, none⟩ (by decide) (by decide)
    rw [h]
    decide

/-! ## Diagnostic service change analysis (`DiagnosticService.ts`) -/

/-- JavaScript regex word character class backslash-w: [A-Za-z0-9_]. -/
def jsIsWordChar (c : Char) : Bool :=
  (97 ≤ c.toNat && c.toNat ≤ 122) || (65 ≤ c.toNat && c.toNat ≤ 90)
    || (48 ≤ c.toNat && c.toNat ≤ 57) || c == '_'

/-- Start class of the token regex of _extractTokens: [a-zA-Z_$]. -/
def jsIsIdentStart (c : Char) : Bool :=
  (97 ≤ c.toNat && c.toNat ≤ 122) || (65 ≤ c.toNat && c.toNat ≤ 90)
    || c == '_' || c == '$'

/-- Continuation class of the token regex: [backslash-w $]. -/
def jsIsIdentPart (c : Char) : Bool :=
  jsIsWordChar c || c == '$'

/-- JavaScript regex whitespace class (the common cases: space, tab,
newline, carriage return, vertical tab, form feed). -/
def jsIsSpace (c : Char) : Bool :=
  c == ' ' || c == '\t' || c == '\n' || c == '\r' || c.toNat == 11 || c.toNat == 12

/-- Longest prefix of a candidate identifier run (given reversed) whose
final character satisfies the trailing word-boundary of the token regex;
`after` is the character following the run in the input. -/
def longestTokenPrefixRev (after : Option Char) : List Char → Option (List Char)
  | [] => none
  | c :: rest =>
    let boundaryOk := match after with
      | none => jsIsWordChar c
      | some fc => !(jsIsWordChar c == jsIsWordChar fc)
    if boundaryOk then some ((c :: rest).reverse) else longestTokenPrefixRev (some c) rest

/-- Scanner for the identifier-token regex of
DiagnosticService._extractTokens (word-boundary, [a-zA-Z_$], [w$]*,
word-boundary), global flag semantics: leftmost matches, resume after each
match. Fueled recursion; the wrapper supplies sufficient fuel. -/
def extractTokensAux : Nat → Option Char → List Char → List (List Char)
  | 0, _, _ => []
  | _ + 1, _, [] => []
  | fuel + 1, prev, c :: rest =>
    let startBoundary := match prev with
      | none => jsIsWordChar c
      | some p => !(jsIsWordChar p == jsIsWordChar c)
    if jsIsIdentStart c && startBoundary then
      let run := List.takeWhile jsIsIdentPart (c :: rest)
      let after := (List.dropWhile jsIsIdentPart (c :: rest)).head?
      match longestTokenPrefixRev after run.reverse with
      | some tok => tok :: extractTokensAux fuel tok.getLast? (List.drop tok.length (c :: rest))
      | none => extractTokensAux fuel (some c) rest
    else
      extractTokensAux fuel (some c) rest

/-- JavaScript Set insertion-order de-duplication. -/
def dedupAux (seen : List String) : List String → List String
  | [] => []
  | s :: rest => if seen.contains s then dedupAux seen rest else s :: dedupAux (s :: seen) rest

/-- DiagnosticService._extractTokens: identifier tokens of a text as a Set
in insertion order. -/
def extractTokens (content : String) : List String :=
  dedupAux [] ((extractTokensAux (content.data.length + 1) none content.data).map
    (fun l => String.mk l))

/-- Characters equal at the same index in two token strings. -/
def matchesAtSameIndex : List Char → List Char → Nat
  | a :: as, b :: bs => (if a == b then 1 else 0) + matchesAtSameIndex as bs
  | _, _ => 0

/-- DiagnosticService._tokenSimilarity: 1.0 for identical tokens, 0.0 when
the length difference exceeds half the longer length, otherwise the number
of positions with equal characters divided by the longer length.
JavaScript float arithmetic is modelled exactly in the rationals. -/
def tokenSimilarity (token1 token2 : String) : ℚ :=
  if token1 == token2 then 1
  else
    let len1 := token1.length
    let len2 := token2.length
    if ((((len1 : Int) - (len2 : Int)).natAbs : ℚ) / (max len1 len2 : ℚ)) > 1 / 2 then 0
    else (matchesAtSameIndex token1.data token2.data : ℚ) / (max len1 len2 : ℚ)

/-- DiagnosticService._findRenamedTokens: tokens present only in the
original paired positionally with tokens present only in the current
content; a pair enters the rename record iff its similarity is strictly
greater than 0.5. The JavaScript object accumulating the pairs is modelled
by aset over an association list. -/
def findRenamedTokens (originalTokens currentTokens : List String) :
    List (String × String) :=
  let origArray := originalTokens
  let currArray := currentTokens
  let removedTokens := origArray.filter (fun t => !(currentTokens.contains t))
  let addedTokens := currArray.filter (fun t => !(originalTokens.contains t))
  if 0 < removedTokens.length ∧ removedTokens.length = addedTokens.length then
    (List.zip removedTokens addedTokens).foldl
      (fun acc p => if tokenSimilarity p.1 p.2 > 1 / 2 then aset acc p.1 p.2 else acc) []
  else []

/-- Modelled from the spec (§4.1 similarity score), for comparison with the
code's _tokenSimilarity: 1.0 if identical; 0.0 if the length difference
exceeds 50 percent of the longer length; otherwise the number of characters
equal at the same index divided by the length of the longer token. -/
def specTokenScore (token1 token2 : String) : ℚ :=
  if token1 = token2 then 1
  else if ((((token1.length : Int) - (token2.length : Int)).natAbs : ℚ)
      / (max token1.length token2.length : ℚ)) > 1 / 2 then 0
  else (matchesAtSameIndex token1.data token2.data : ℚ) / (max token1.length token2.length : ℚ)

theorem tokenSimilarity_eq_specTokenScore (t1 t2 : String) :
    tokenSimilarity t1 t2 = specTokenScore t1 t2 := by
  by_cases h : t1 = t2 <;> simp [tokenSimilarity, specTokenScore, h]

theorem aset_of_aget_none {α : Type} {m : List (String × α)} {k : String} (v : α)
    (h : aget m k = none) : aset m k v = m ++ [(k, v)] := by
  induction m with
  | nil => rfl
  | cons hd tl ih =>
    obtain ⟨k0, v0⟩ := hd
    simp only [aget] at h
    by_cases hk : k0 = k
    · simp [hk] at h
    · have hk' : (k0 == k) = false := by simp [hk]
      simp only [aset, hk', Bool.false_eq_true, if_false, List.cons_append]
      rw [ih (by simpa [hk'] using h)]

theorem aget_append_none {α : Type} {m : List (String × α)} {k : String} (e : String × α)
    (h : aget m k = none) : aget (m ++ [e]) k = aget [e] k := by
  induction m with
  | nil => simp
  | cons hd tl ih =>
    obtain ⟨k0, v0⟩ := hd
    simp only [aget] at h ⊢
    by_cases hk : k0 = k
    · simp [hk] at h
    · have hk' : (k0 == k) = false := by simp [hk]
      simp only [hk', Bool.false_eq_true, if_false] at h ⊢
      exact ih h

theorem foldl_aset_filter (q : String × String → Bool) :
    ∀ (pairs : List (String × String)) (acc : List (String × String)),
      (∀ p ∈ pairs, aget acc p.1 = none) → (pairs.map Prod.fst).Nodup →
      List.foldl (fun acc p => if q p then aset acc p.1 p.2 else acc) acc pairs
        = acc ++ pairs.filter q := by
  intro pairs
  induction pairs with
  | nil => intro acc _ _; simp
  | cons p ps ih =>
    intro acc hnone hnd
    have hda : aget acc p.1 = none := hnone p (List.mem_cons_self p ps)
    have hnd' : (ps.map Prod.fst).Nodup := (List.nodup_cons.mp hnd).2
    have hheadfresh : ∀ x ∈ ps, ¬ x.1 = p.1 := by
      intro x hx hcontra
      exact (List.nodup_cons.mp hnd).1 (hcontra ▸ List.mem_map_of_mem Prod.fst hx)
    simp only [List.foldl_cons]
    by_cases hq : q p
    · rw [if_pos hq]
      have hupd : aset acc p.1 p.2 = acc ++ [p] := by
        rw [aset_of_aget_none p.2 hda]
      rw [hupd]
      have hnone' : ∀ x ∈ ps, aget (acc ++ [p]) x.1 = none := by
        intro x hx
        rw [aget_append_none p (hnone x (List.mem_cons_of_mem p hx))]
        simp only [aget]
        have : (p.1 == x.1) = false := by
          simp only [beq_eq_false_iff_ne, ne_eq]
          intro hc
          exact hheadfresh x hx hc.symm
        simp [this]
      rw [ih (acc ++ [p]) hnone' hnd']
      simp [List.filter_cons, hq]
    · have hqf : q p = false := by
        cases hx : q p
        · rfl
        · exact absurd hx hq
      rw [if_neg (by simp [hqf])]
      rw [ih acc (fun x hx => hnone x (List.mem_cons_of_mem p hx)) hnd']
      simp [List.filter_cons, hqf]

/-- C8 amended (rename heuristic threshold): when the removed-token and
added-token lists have the same non-zero length, a positionally paired
(removed, added) token pair is reported as a rename exactly when the
spec's similarity score is strictly greater than 0.5 (the claim said at
least 0.5); the code's _tokenSimilarity agrees everywhere with the spec's
score formula. -/
theorem C8_rename_threshold_amended :
    (∀ t1 t2 : String, tokenSimilarity t1 t2 = specTokenScore t1 t2)
    ∧ (∀ originalTokens currentTokens : List String,
        originalTokens.Nodup →
        0 < (originalTokens.filter (fun t => !(currentTokens.contains t))).length →
        (originalTokens.filter (fun t => !(currentTokens.contains t))).length
          = (currentTokens.filter (fun t => !(originalTokens.contains t))).length →
        ∀ pr ∈ List.zip (originalTokens.filter (fun t => !(currentTokens.contains t)))
            (currentTokens.filter (fun t => !(originalTokens.contains t))),
          (pr ∈ findRenamedTokens originalTokens currentTokens
            ↔ specTokenScore pr.1 pr.2 > 1 / 2)) := by
  refine ⟨tokenSimilarity_eq_specTokenScore, ?_⟩
  intro orig curr hnd hpos hlen pr hmem
  set removed := orig.filter (fun t => !(curr.contains t)) with hremoved
  set added := curr.filter (fun t => !(orig.contains t)) with hadded
  have hcond : 0 < removed.length ∧ removed.length = added.length := ⟨hpos, hlen⟩
  have hzipfst : (List.zip removed added).map Prod.fst = removed := by
    apply List.map_fst_zip
    omega
  have hndrem : removed.Nodup := hnd.filter _
  have hndzip : ((List.zip removed added).map Prod.fst).Nodup := by
    rw [hzipfst]; exact hndrem
  have hfold : findRenamedTokens orig curr
      = (List.zip removed added).filter (fun p => tokenSimilarity p.1 p.2 > 1 / 2) := by
    have hf := foldl_aset_filter (fun p => decide (tokenSimilarity p.1 p.2 > 1 / 2))
      (List.zip removed added) [] (by intro p _; rfl) hndzip
    simp only [findRenamedTokens]
    rw [← hremoved, ← hadded, if_pos hcond]
    simpa using hf
  rw [hfold]
  constructor
  · intro hin
    have := List.of_mem_filter hin
    simp only [decide_eq_true_eq] at this
    rwa [tokenSimilarity_eq_specTokenScore] at this
  · intro hscore
    refine List.mem_filter.mpr ⟨hmem, ?_⟩
    simp only [decide_eq_true_eq]
    rwa [← tokenSimilarity_eq_specTokenScore] at hscore

/-- Counterexample to C8 as stated: with original content ab and current
content ac, the single positional pair (ab, ac) has similarity score
exactly 0.5 — at least 0.5, so the claim says it is reported as a rename —
but the code's strict comparison (greater than 0.5) rejects it and the
rename record is empty. -/
theorem C8_rename_threshold_counterexample :
    extractTokens "ab" = ["ab"]
    ∧ extractTokens "ac" = ["ac"]
    ∧ specTokenScore "ab" "ac" ≥ 1 / 2
    ∧ findRenamedTokens ["ab"] ["ac"] = [] := by
  have hscore : specTokenScore "ab" "ac" = 1 / 2 := by
    unfold specTokenScore
    rw [if_neg (by decide : ¬ ("ab" : String) = "ac")]
    rw [(by decide : (("ab".length : Int) - ("ac".length : Int)).natAbs = 0)]
    rw [(by decide : matchesAtSameIndex "ab".data "ac".data = 1)]
    rw [(by decide : ("ab" : String).length = 2), (by decide : ("ac" : String).length = 2)]
    norm_num
  refine ⟨by decide, by decide, by rw [hscore], ?_⟩
  have hsim : ¬ (tokenSimilarity "ab" "ac" > 1 / 2) := by
    rw [tokenSimilarity_eq_specTokenScore, hscore]
    norm_num
  have hrem : (["ab"].filter (fun t => !(List.contains ["ac"] t))) = ["ab"] := by decide
  have hadd : (["ac"].filter (fun t => !(List.contains ["ab"] t))) = ["ac"] := by decide
  simp only [findRenamedTokens]
  rw [hrem, hadd, if_pos (by decide : 0 < (["ab"] : List String).length
    ∧ (["ab"] : List String).length = (["ac"] : List String).length)]
  rw [(by decide : List.zip ["ab"] ["ac"] = [("ab", "ac")])]
  simp only [List.foldl_cons, List.foldl_nil]
  rw [if_neg hsim]

/-- Witness for the amended C8 at concrete token lists: abc renamed to abd
(score 2 out of 3) is reported. -/
theorem C8_rename_threshold_amended_witness :
    tokenSimilarity "ab" "ab" = specTokenScore "ab" "ab"
    ∧ (("abc", "abd") ∈ findRenamedTokens ["abc"] ["abd"]
        ↔ specTokenScore "abc" "abd" > 1 / 2) := by
  constructor
  · exact C8_rename_threshold_amended.1 "ab" "ab"
  · exact C8_rename_threshold_amended.2 ["abc"] ["abd"] (by decide) (by decide) (by decide)
      ("abc", "abd") (by decide)

/-! ## Problem matchers and external-output extraction (`DiagnosticService.ts`) -/

/-- Decimal digit test for parseInt. -/
def jsIsDigit (c : Char) : Bool :=
  48 ≤ c.toNat && c.toNat ≤ 57

/-- Value of a non-empty digit list. -/
def digitsToNat (l : List Char) : Nat :=
  l.foldl (fun acc c => acc * 10 + (c.toNat - 48)) 0

/-- JavaScript `parseInt(s, 10)`: skip leading whitespace, optional sign,
then a maximal digit run; `NaN` (no digits) is modelled as `none`. -/
def parseIntJS (s : String) : Option Int :=
  let l := s.data.dropWhile jsIsSpace
  match l with
  | '-' :: rest =>
    if (rest.takeWhile jsIsDigit).isEmpty then none
    else some (-(digitsToNat (rest.takeWhile jsIsDigit) : Int))
  | '+' :: rest =>
    if (rest.takeWhile jsIsDigit).isEmpty then none
    else some (digitsToNat (rest.takeWhile jsIsDigit) : Int)
  | _ =>
    if (l.takeWhile jsIsDigit).isEmpty then none
    else some (digitsToNat (l.takeWhile jsIsDigit) : Int)

/-- ProblemPattern (`diagnostics/types.ts`): capture-group indices of a
registered problem matcher (the regex itself is supplied externally as a
per-line match function). -/
structure ProblemPattern where
  file : Option Nat
  line : Option Nat
  column : Option Nat
  severity : Option Nat
  code : Option Nat
  message : Option Nat
deriving DecidableEq, Repr

/-- The eslint problem matcher registered by
ESLintDiagnosticProvider._registerProblemMatchers: groups 1 file, 2 line,
3 column, 4 severity, 5 message, 6 code. -/
def eslintProblemPattern : ProblemPattern :=
  ⟨some 1, some 2, some 3, some 4, some 6, some 5⟩

/-- A regex match result: index 0 the whole match, index i the i-th capture
group (`none` for an unmatched group). -/
abbrev JsMatch := List (Option String)

/-- Group access `match[i]` (undefined out of bounds). -/
def matchGroup (m : JsMatch) (i : Nat) : Option String :=
  (m.get? i).getD none

/-- JavaScript truthiness of a capture value: present and non-empty. -/
def truthyStr : Option String → Bool
  | some s => !(s == "")
  | none => false

/-- Output diagnostic of extractDiagnosticsFromOutput. Line and column hold
parseInt results, where `none` models `NaN`; severity is already converted
to its string form. -/
structure ExtractedDiagnostic where
  id : String
  filePath : String
  line : Option Int
  column : Option Int
  message : String
  severity : String
  source : String
  code : Option String
deriving DecidableEq, Repr

/-- Rendering of a JavaScript number (possibly NaN) inside a template
string. -/
def jsNumToString : Option Int → String
  | none => "NaN"
  | some i => toString i

/-- Severity-index computation of extractDiagnosticsFromOutput: the parsed
capture when present and truthy, else DiagnosticSeverity.Error (8). -/
def severityIndexOf (pat : ProblemPattern) (m : JsMatch) : Option Int :=
  match pat.severity with
  | some si => if truthyStr (matchGroup m si) then parseIntJS ((matchGroup m si).getD "") else some 8
  | none => some 8

/-- Severity-string computation of extractDiagnosticsFromOutput: strict
numeric equality against DiagnosticSeverity.Error (8) then Warning (4),
falling through to info; a NaN index (`none`) compares unequal to both. -/
def severityFromIndex (severityIndex : Option Int) : String :=
  if severityIndex == some 8 then "error"
  else if severityIndex == some 4 then "warning"
  else "info"

/-- Per-matched-line body of extractDiagnosticsFromOutput; returns none for
the `continue` on an empty file path. `gid` models generateId(). -/
def extractFromMatch (pat : ProblemPattern) (source : String) (basePath : Option String)
    (line : String) (m : JsMatch) (gid : String) : Option ExtractedDiagnostic :=
  let filePath := match pat.file with
    | some fi =>
      if truthyStr (matchGroup m fi) then
        match basePath with
        | some bp => bp ++ "/" ++ ((matchGroup m fi).getD "")
        | none => (matchGroup m fi).getD ""
      else ""
    | none => ""
  if filePath == "" then none
  else
    let lineNumber := match pat.line with
      | some li => if truthyStr (matchGroup m li) then parseIntJS ((matchGroup m li).getD "") else some 1
      | none => some 1
    let column := match pat.column with
      | some ci => if truthyStr (matchGroup m ci) then parseIntJS ((matchGroup m ci).getD "") else some 1
      | none => some 1
    let message := match pat.message with
      | some mi => if truthyStr (matchGroup m mi) then (matchGroup m mi).getD "" else line
      | none => line
    let severity := severityFromIndex (severityIndexOf pat m)
    let code := match pat.code with
      | some ci => if truthyStr (matchGroup m ci) then matchGroup m ci else none
      | none => none
    some ⟨source ++ "-" ++ filePath ++ "-" ++ jsNumToString lineNumber ++ "-"
        ++ jsNumToString column ++ "-" ++ gid,
      filePath, lineNumber, column, message, severity, source, code⟩

/-- Splitting a character list on a separator character. -/
def splitOnChar (sep : Char) : List Char → List (List Char)
  | [] => [[]]
  | c :: rest =>
    let r := splitOnChar sep rest
    if c == sep then [] :: r
    else match r with
      | h :: t => (c :: h) :: t
      | [] => [[c]]

/-- JavaScript `output.split(newline)`. -/
def jsSplitLines (s : String) : List String :=
  (splitOnChar '\n' s.data).map (fun l => String.mk l)

/-- DiagnosticService.extractDiagnosticsFromOutput: split the output into
lines, run the matcher's regex on each line independently (`exec` is the
compiled regex as a match function), extract fields by the pattern's group
indices, silently skipping unmatched lines. generateId() is modelled by the
line index. -/
def extractDiagnosticsFromOutput (exec : String → Option JsMatch) (pat : ProblemPattern)
    (output : String) (source : String) (basePath : Option String) :
    List ExtractedDiagnostic :=
  ((jsSplitLines output).enum).filterMap (fun li =>
    match exec li.2 with
    | none => none
    | some m => extractFromMatch pat source basePath li.2 m (toString li.1))

theorem extractFromMatch_severity {pat : ProblemPattern} {source : String}
    {basePath : Option String} {line : String} {m : JsMatch} {gid : String}
    {d : ExtractedDiagnostic}
    (h : extractFromMatch pat source basePath line m gid = some d) :
    d.severity = severityFromIndex (severityIndexOf pat m) := by
  simp only [extractFromMatch] at h
  split at h
  · cases h
  · cases h
    rfl

theorem parseIntJS_error : parseIntJS "error" = none := by decide

theorem parseIntJS_warning : parseIntJS "warning" = none := by decide

theorem parseIntJS_info : parseIntJS "info" = none := by decide

/-- C9 (eslint matcher severity is always info): for every output line
matched by the pre-registered eslint problem matcher — whose severity
capture group is the text error, warning or info — the extracted
diagnostic has severity info, because the textual capture parses to NaN
and compares unequal to the numeric Error and Warning enum values. -/
theorem C9_eslint_severity_always_info
    (exec : String → Option JsMatch) (output : String) (basePath : Option String)
    (hsev : ∀ l mr, exec l = some mr →
      ∃ s, matchGroup mr 4 = some s ∧ (s = "error" ∨ s = "warning" ∨ s = "info")) :
    ∀ d ∈ extractDiagnosticsFromOutput exec eslintProblemPattern output "eslint" basePath,
      d.severity = "info" := by
  intro d hd
  unfold extractDiagnosticsFromOutput at hd
  rcases List.mem_filterMap.mp hd with ⟨li, _hmem, heq⟩
  rcases hexec : exec li.2 with _ | mr
  · rw [hexec] at heq
    cases heq
  · rw [hexec] at heq
    have hsevd := extractFromMatch_severity heq
    rcases hsev li.2 mr hexec with ⟨s, hs, hcases⟩
    have hidx : severityIndexOf eslintProblemPattern mr = none := by
      unfold severityIndexOf eslintProblemPattern
      simp only [hs]
      have htruthy : truthyStr (some s) = true := by
        rcases hcases with rfl | rfl | rfl <;> decide
      rw [if_pos (by simpa [hs] using htruthy)]
      simp only [hs, Option.getD_some]
      rcases hcases with rfl | rfl | rfl
      · exact parseIntJS_error
      · exact parseIntJS_warning
      · exact parseIntJS_info
    rw [hsevd, hidx]
    rfl

/-- Concrete match function standing for the eslint regex on one sample
line of lint output. -/
def eslintExecSample : String → Option JsMatch := fun l =>
  if l == "src/a.js:1:2: error Unexpected var [no-var]" then
    some [some l, some "src/a.js", some "1", some "2", some "error",
      some "Unexpected var", some "[no-var]"]
  else none

/-- Witness for C9: on the sample line whose severity text is error, the
extraction yields (exactly one) diagnostic and every extracted severity is
info. -/
theorem C9_eslint_severity_always_info_witness :
    (extractDiagnosticsFromOutput eslintExecSample eslintProblemPattern
        "src/a.js:1:2: error Unexpected var [no-var]" "eslint" none).all
      (fun d => d.severity == "info") = true
    ∧ extractDiagnosticsFromOutput eslintExecSample eslintProblemPattern
        "src/a.js:1:2: error Unexpected var [no-var]" "eslint" none ≠ [] := by
  have hsev : ∀ l mr, eslintExecSample l = some mr →
      ∃ s, matchGroup mr 4 = some s ∧ (s = "error" ∨ s = "warning" ∨ s = "info") := by
    intro l mr hm
    unfold eslintExecSample at hm
    by_cases hl : l == "src/a.js:1:2: error Unexpected var [no-var]"
    · rw [if_pos hl] at hm
      cases hm
      have hleq : l = "src/a.js:1:2: error Unexpected var [no-var]" := eq_of_beq hl
      subst hleq
      exact ⟨"error", by decide, Or.inl rfl⟩
    · rw [if_neg hl] at hm
      cases hm
  constructor
  · apply List.all_eq_true.mpr
    intro d hd
    exact beq_iff_eq.mpr
      (C9_eslint_severity_always_info eslintExecSample
        "src/a.js:1:2: error Unexpected var [no-var]" none hsev d hd)
  · decide

/-! ## Workspace index service: data model, hashing and queueing
(`WorkspaceIndexService.ts`) -/

/-- Source range of a detected symbol. -/
structure SymbolRange where
  startLine : Nat
  startColumn : Nat
  endLine : Nat
  endColumn : Nat
deriving DecidableEq, Repr

/-- SymbolNode of the workspace graph. -/
structure SymbolNode where
  id : String
  name : String
  kind : String
  filePath : String
  range : SymbolRange
  exportStatus : String
deriving DecidableEq, Repr

/-- DependencyEdge of the workspace graph. -/
structure DependencyEdge where
  source : String
  target : String
  kind : String
  weight : Nat
deriving DecidableEq, Repr

/-- FileNode of the workspace graph. -/
structure FileNode where
  id : String
  path : String
  lastModified : Nat
  symbols : List String
deriving DecidableEq, Repr

/-- WorkspaceGraph: the single mutable graph owned by the service. -/
structure WorkspaceGraph where
  files : List (String × FileNode)
  symbols : List (String × SymbolNode)
  dependencies : List DependencyEdge
deriving DecidableEq, Repr

/-- The empty graph (service construction / reindexAll reset). -/
def emptyGraph : WorkspaceGraph := ⟨[], [], []⟩

/-- Entry of the external file map (`FilesStore`): a file with content, or
a folder. `isBinary` is ignored by the service and omitted. -/
inductive Dirent where
  | file (content : String)
  | folder
deriving DecidableEq, Repr

/-- The external observable file map. -/
abbrev FileMap := List (String × Dirent)

/-- Mutable core of the WorkspaceIndexService: graph, content-hash cache,
indexing queue, the Diagnostics Store it writes into, and a logical clock
modelling Date.now() (advanced once per indexing pass). -/
structure IndexCore where
  graph : WorkspaceGraph
  fileHashes : List (String × String)
  indexingQueue : List String
  diagnostics : DiagnosticsStoreState
  now : Nat
deriving DecidableEq, Repr

/-- Full WorkspaceIndexService state: the core plus the drain-control
fields _isIndexing and _indexVersion. -/
structure IndexServiceState where
  core : IndexCore
  isIndexing : Bool
  indexVersion : Nat
deriving DecidableEq, Repr

/-- JavaScript `s.endsWith(suffix)`. -/
def strEndsWith (s sfx : String) : Bool :=
  List.isSuffixOf sfx.data s.data

/-- JavaScript `s.startsWith(p)`. -/
def strStartsWith (s p : String) : Bool :=
  List.isPrefixOf p.data s.data

/-- Contiguous-occurrence search in a character list. -/
def listHasInfix (sub : List Char) : List Char → Bool
  | [] => sub.isEmpty
  | c :: rest => List.isPrefixOf sub (c :: rest) || listHasInfix sub rest

/-- JavaScript `s.includes(sub)`. -/
def strIncludes (s sub : String) : Bool :=
  listHasInfix sub.data s.data

/-- Index of the first contiguous occurrence of a sublist (JavaScript
`indexOf` on strings, `none` in place of `-1`). -/
def listIndexOfSub (sub : List Char) : List Char → Option Nat
  | [] => if sub.isEmpty then some 0 else none
  | c :: rest =>
    if List.isPrefixOf sub (c :: rest) then some 0
    else (listIndexOfSub sub rest).map (· + 1)

/-- JavaScript `s.indexOf(sub)` with `none` in place of `-1`. -/
def strIndexOf (s sub : String) : Option Nat :=
  listIndexOfSub sub.data s.data

/-- Wrap an integer to a signed 32-bit value (JavaScript `|` family /
`x & x` coercion). -/
def toInt32 (n : Int) : Int :=
  ((n + 2 ^ 31) % 2 ^ 32) - 2 ^ 31

/-- Loop body of _simpleHash: `hash = (hash << 5) - hash + char` followed
by `hash = hash & hash`, on 32-bit wrapped integers; `charCodeAt` is the
character code. -/
def simpleHashInt (content : List Char) : Int :=
  content.foldl (fun hash c => toInt32 (toInt32 (hash * 32) - hash + (c.toNat : Int))) 0

/-- JavaScript `Number.prototype.toString(16)` for 32-bit integers. -/
def jsIntToHexString (i : Int) : String :=
  if i < 0 then "-" ++ String.mk (Nat.toDigits 16 i.natAbs)
  else String.mk (Nat.toDigits 16 i.natAbs)

/-- WorkspaceIndexService._simpleHash. -/
def simpleHash (content : String) : String :=
  jsIntToHexString (simpleHashInt content.data)

/-- WorkspaceIndexService._shouldIndexFile: indexable extensions. -/
def shouldIndexFile (filePath : String) : Bool :=
  [".js", ".jsx", ".ts", ".tsx", ".json", ".css", ".scss", ".less", ".html", ".vue"].any
    (fun ext => strEndsWith filePath ext)

/-- Final block of queueFileForIndexing: append to the queue when not
already present. The `_processIndexQueue()` call sitting in the same block
is the drain trigger, modelled by the drain steps of the execution models
below. -/
def enqueueIfAbsent (core : IndexCore) (filePath : String) : IndexCore :=
  if core.indexingQueue.contains filePath then core
  else { core with indexingQueue := core.indexingQueue ++ [filePath] }

/-- WorkspaceIndexService.queueFileForIndexing: skip non-indexable paths;
when content is supplied and truthy (non-empty), hash it and return
unchanged if the recorded hash matches, else record the hash; finally
enqueue the path if absent. -/
def queueFileForIndexing (core : IndexCore) (filePath : String) (content : Option String) :
    IndexCore :=
  if !shouldIndexFile filePath then core
  else
    match content with
    | some c =>
      if c == "" then enqueueIfAbsent core filePath
      else
        let contentHash := simpleHash c
        if aget core.fileHashes filePath == some contentHash then core
        else enqueueIfAbsent
          { core with fileHashes := aset core.fileHashes filePath contentHash } filePath
    | none => enqueueIfAbsent core filePath

/-- C10 (empty content bypasses the hash gate): calling
queueFileForIndexing on an indexable path with the empty string as content
skips the content-hash block entirely — no hash is computed or recorded —
and the path is enqueued exactly when it is not already in the queue,
whatever the previously recorded hashes say. -/
theorem C10_empty_content_bypasses_hash_gate (core : IndexCore) (filePath : String)
    (h : shouldIndexFile filePath = true) :
    queueFileForIndexing core filePath (some "")
      = (if core.indexingQueue.contains filePath then core
        else { core with indexingQueue := core.indexingQueue ++ [filePath] })
    ∧ (queueFileForIndexing core filePath (some "")).fileHashes = core.fileHashes := by
  have hq : queueFileForIndexing core filePath (some "") = enqueueIfAbsent core filePath := by
    simp [queueFileForIndexing, h]
  constructor
  · rw [hq]
    unfold enqueueIfAbsent
    rfl
  · rw [hq]
    unfold enqueueIfAbsent
    split <;> rfl

/-- Witness for C10: a fresh path with empty content is enqueued even
though no hash is recorded. -/
theorem C10_empty_content_bypasses_hash_gate_witness :
    queueFileForIndexing ⟨emptyGraph, [], ["b.ts"], [], 0⟩ "a.ts" (some "")
      = (if (["b.ts"] : List String).contains "a.ts" then ⟨emptyGraph, [], ["b.ts"], [], 0⟩
        else { (⟨emptyGraph, [], ["b.ts"], [], 0⟩ : IndexCore) with
          indexingQueue := ["b.ts"] ++ ["a.ts"] })
    ∧ (queueFileForIndexing ⟨emptyGraph, [], ["b.ts"], [], 0⟩ "a.ts" (some "")).fileHashes
      = ([] : List (String × String)) :=
  C10_empty_content_bypasses_hash_gate ⟨emptyGraph, [], ["b.ts"], [], 0⟩ "a.ts" (by decide)

/-- C2 amended (idempotent re-queue for non-empty unchanged content): once
the recorded hash for a path equals the hash of the supplied non-empty
content, queueFileForIndexing is a strict no-op — the queue, hash cache,
graph and diagnostics are all left untouched, so the file is not
re-indexed and diagnostic detection is not re-run. -/
theorem C2_unchanged_content_noop_amended (core : IndexCore) (filePath content : String)
    (hne : ¬ content = "")
    (hrec : aget core.fileHashes filePath = some (simpleHash content)) :
    queueFileForIndexing core filePath (some content) = core := by
  by_cases hidx : shouldIndexFile filePath
  · have hc : (content == "") = false := by simp [hne]
    simp [queueFileForIndexing, hidx, hc, hrec]
  · simp [queueFileForIndexing, hidx]

/-- Witness for the amended C2 at a concrete state whose hash cache already
holds the content's hash. -/
theorem C2_unchanged_content_noop_amended_witness :
    queueFileForIndexing ⟨emptyGraph, [("a.ts", simpleHash "const x = 1;")], [], [], 3⟩
        "a.ts" (some "const x = 1;")
      = ⟨emptyGraph, [("a.ts", simpleHash "const x = 1;")], [], [], 3⟩ :=
  C2_unchanged_content_noop_amended _ "a.ts" "const x = 1;" (by decide) (by rw [aget]; simp)

/-! ## Regex scanners for the indexing pipeline

Each JavaScript regex used by the service is embedded as a matcher on
character lists (trying the pattern at one position) plus a global scan
that retries at successive positions and resumes after each match, which
is the `exec` loop semantics of a `/g` regex. Matchers return the payload
and the match length. -/

/-- Literal prefix: consume an exact character sequence. -/
def stripLit (lit : List Char) (l : List Char) : Option (List Char) :=
  if List.isPrefixOf lit l then some (List.drop lit.length l) else none

/-- Whitespace-plus: consume at least one regex whitespace character. -/
def skipWs1 : List Char → Option (List Char)
  | [] => none
  | c :: rest => if jsIsSpace c then some (rest.dropWhile jsIsSpace) else none

/-- Whitespace-star. -/
def skipWsStar (l : List Char) : List Char :=
  l.dropWhile jsIsSpace

/-- Word-plus: consume a maximal non-empty word-character run. -/
def takeWord1 (l : List Char) : Option (List Char × List Char) :=
  let w := l.takeWhile jsIsWordChar
  if w.isEmpty then none else some (w, l.dropWhile jsIsWordChar)

/-- Word boundary before a match that starts with a word character: start
of input or a non-word previous character. -/
def boundaryBeforeWord : Option Char → Bool
  | none => true
  | some p => !(jsIsWordChar p)

/-- Global regex scan: try the matcher (which may inspect the previous
character for word boundaries) at each position left to right, resuming
after each match. Fueled; wrappers pass content length + 1, sufficient
because every step consumes at least one character. -/
def jsScanB {α : Type} (f : Option Char → List Char → Option (α × Nat)) :
    Nat → Option Char → Nat → List Char → List (α × Nat)
  | 0, _, _, _ => []
  | _ + 1, _, _, [] => []
  | fuel + 1, prev, i, c :: rest =>
    match f prev (c :: rest) with
    | some (a, len) =>
      (a, i) :: jsScanB f fuel ((List.take len (c :: rest)).getLast?) (i + len)
        (List.drop len (c :: rest))
    | none => jsScanB f fuel (some c) (i + 1) rest

/-- Scan a whole content with a boundary-aware matcher. -/
def jsScanAll {α : Type} (f : Option Char → List Char → Option (α × Nat))
    (content : List Char) : List (α × Nat) :=
  jsScanB f (content.length + 1) none 0 content

/-- Maximal word-character runs with their indices (the matches of a
word-boundary-delimited word regex). -/
def wordRunsAux : Nat → Nat → List Char → List (List Char × Nat)
  | 0, _, _ => []
  | _ + 1, _, [] => []
  | fuel + 1, i, c :: rest =>
    if jsIsWordChar c then
      let run := (c :: rest).takeWhile jsIsWordChar
      (run, i) :: wordRunsAux fuel (i + run.length) ((c :: rest).dropWhile jsIsWordChar)
    else wordRunsAux fuel (i + 1) rest

/-- All maximal word runs of a text. -/
def wordRuns (l : List Char) : List (List Char × Nat) :=
  wordRunsAux (l.length + 1) 0 l

/-- JavaScript `String.prototype.trim`. -/
def jsTrim (l : List Char) : List Char :=
  ((l.dropWhile jsIsSpace).reverse.dropWhile jsIsSpace).reverse

/-- Splitting on a multi-character separator (JavaScript `split`). -/
def splitOnSubFuel (sep : List Char) : Nat → List Char → List (List Char)
  | _, [] => [[]]
  | 0, l => [l]
  | fuel + 1, c :: rest =>
    if !sep.isEmpty && List.isPrefixOf sep (c :: rest) then
      [] :: splitOnSubFuel sep fuel (List.drop sep.length (c :: rest))
    else
      match splitOnSubFuel sep fuel rest with
      | h :: t => (c :: h) :: t
      | [] => [[c]]

/-- JavaScript `split` on a separator string. -/
def splitOnSub (sep l : List Char) : List (List Char) :=
  splitOnSubFuel sep l.length l

/-- Last index of a character (JavaScript `lastIndexOf`, `none` for -1). -/
def listLastIndexOf (ch : Char) (l : List Char) : Option Nat :=
  ((l.enum.filter (fun p => p.2 == ch)).getLast?).map (·.1)

/-- WorkspaceIndexService._getPositionFromMatch: line/column of a match
index, with the simplified end column ten characters later. -/
def getPositionFromMatch (content : List Char) (matchIndex : Nat) : SymbolRange :=
  let lines := splitOnChar '\n' (content.take matchIndex)
  let startLine := lines.length
  let startColumn := ((lines.getLast?).getD []).length + 1
  ⟨startLine, startColumn, startLine, startColumn + 10⟩

/-- Zero-based line index of a match index (the
`content.substring(0, match.index).split('\n').length - 1` idiom). -/
def lineIndexOfMatch (content : List Char) (matchIndex : Nat) : Nat :=
  (splitOnChar '\n' (content.take matchIndex)).length - 1

/-- Optional extends group of the class regex: whitespace, `extends`,
whitespace, a captured name. -/
def matchExtendsTail (r3 : List Char) : Option (List Char × List Char) :=
  match skipWs1 r3 with
  | none => none
  | some r4 =>
    match stripLit "extends".data r4 with
    | none => none
    | some r5 =>
      match skipWs1 r5 with
      | none => none
      | some r6 =>
        match takeWord1 r6 with
        | none => none
        | some (ename, r7) => some (ename, r7)

/-- Combined class or interface matcher: a keyword, whitespace, a
captured name, and the optional extends group. -/
def matchClassLike (keyword : List Char) (_prev : Option Char) (l : List Char) :
    Option ((List Char × Option (List Char)) × Nat) :=
  match stripLit keyword l with
  | none => none
  | some r1 =>
    match skipWs1 r1 with
    | none => none
    | some r2 =>
      match takeWord1 r2 with
      | none => none
      | some (name, r3) =>
        match matchExtendsTail r3 with
        | some (ename, r7) => some ((name, some ename), l.length - r7.length)
        | none => some ((name, none), l.length - r3.length)

/-- Matcher for the function regex: `function`, whitespace, captured name. -/
def matchFunctionDecl (_prev : Option Char) (l : List Char) :
    Option (List Char × Nat) :=
  match stripLit "function".data l with
  | none => none
  | some r1 =>
    match skipWs1 r1 with
    | none => none
    | some r2 =>
      match takeWord1 r2 with
      | none => none
      | some (name, r3) => some (name, l.length - r3.length)

/-- Matcher for the useState destructuring regex: `const`, whitespace,
bracketed state/setter pair, equals, `useState`. -/
def matchUseState (_prev : Option Char) (l : List Char) :
    Option ((List Char × List Char) × Nat) :=
  match stripLit "const".data l with
  | none => none
  | some r1 =>
    match skipWs1 r1 with
    | none => none
    | some r2 =>
      match stripLit ['['] r2 with
      | none => none
      | some r3 =>
        match takeWord1 r3 with
        | none => none
        | some (stateName, r4) =>
          match stripLit [','] r4 with
          | none => none
          | some r5 =>
            match stripLit "set".data (skipWsStar r5) with
            | none => none
            | some r6 =>
              match takeWord1 r6 with
              | none => none
              | some (setterName, r7) =>
                match stripLit [']'] r7 with
                | none => none
                | some r8 =>
                  match stripLit ['='] (skipWsStar r8) with
                  | none => none
                  | some r9 =>
                    match stripLit "useState".data (skipWsStar r9) with
                    | none => none
                    | some r10 => some ((stateName, setterName), l.length - r10.length)

/-- WorkspaceIndexService._addDependencyEdge: look up the first symbol
whose name matches, then either bump the weight of the existing edge with
the same source, target and kind or append a fresh edge of weight 1. -/
def addDependencyEdge (g : WorkspaceGraph) (sourceId targetName kind : String) :
    WorkspaceGraph :=
  match g.symbols.find? (fun kv => kv.2.name == targetName) with
  | none => g
  | some kv =>
    let targetId := kv.1
    match findIdxO (fun d => d.source == sourceId && d.target == targetId && d.kind == kind)
        g.dependencies with
    | some i =>
      match g.dependencies.get? i with
      | some e => { g with dependencies := g.dependencies.set i { e with weight := e.weight + 1 } }
      | none => g
    | none => { g with dependencies := g.dependencies ++ [⟨sourceId, targetId, kind, 1⟩] }

/-- JavaScript `toUpperCase` on one character (ASCII). -/
def jsToUpperChar (c : Char) : Char :=
  if 97 ≤ c.toNat && c.toNat ≤ 122 then Char.ofNat (c.toNat - 32) else c

/-- Matcher for the function-component regex of _detectSymbols:
`function`, whitespace, a captured name starting with an ASCII capital
and continuing with at least one word character, optional whitespace, and
an opening parenthesis. -/
def matchFuncComponent (_prev : Option Char) (l : List Char) :
    Option (List Char × Nat) :=
  match stripLit "function".data l with
  | none => none
  | some r1 =>
    match skipWs1 r1 with
    | none => none
    | some r2 =>
      match r2 with
      | c :: r3 =>
        if 65 ≤ c.toNat && c.toNat ≤ 90 then
          match takeWord1 r3 with
          | none => none
          | some (w, r4) =>
            match stripLit ['('] (skipWsStar r4) with
            | none => none
            | some r5 => some (c :: w, l.length - r5.length)
        else none
      | [] => none

/-- Matcher for the arrow-component regex of _detectSymbols: `const`,
whitespace, a captured capitalized name, equals, then either an opening
parenthesis or a word, then an arrow. The parenthesis alternative is
tried first, and a parenthesis can never satisfy the word alternative. -/
def matchArrowComponent (_prev : Option Char) (l : List Char) :
    Option (List Char × Nat) :=
  match stripLit "const".data l with
  | none => none
  | some r1 =>
    match skipWs1 r1 with
    | none => none
    | some r2 =>
      match r2 with
      | c :: r3 =>
        if 65 ≤ c.toNat && c.toNat ≤ 90 then
          match takeWord1 r3 with
          | none => none
          | some (w, r4) =>
            match stripLit ['='] (skipWsStar r4) with
            | none => none
            | some r5 =>
              match skipWsStar r5 with
              | '(' :: r6 =>
                match stripLit "=>".data (skipWsStar r6) with
                | none => none
                | some r7 => some (c :: w, l.length - r7.length)
              | r6 =>
                match takeWord1 r6 with
                | none => none
                | some (_, r7) =>
                  match stripLit "=>".data (skipWsStar r7) with
                  | none => none
                  | some r8 => some (c :: w, l.length - r8.length)
        else none
      | [] => none

/-- Fold step of the function-component scan: insert the SymbolNode (kind
function; exported when an `export default name` or `export function
name` occurrence exists) and record the id. -/
def funcComponentStep (filePath content : String) (acc : IndexCore × List String)
    (m : List Char × Nat) : IndexCore × List String :=
  let componentName := String.mk m.1
  let symbolId := "symbol:" ++ filePath ++ ":" ++ componentName
  let node : SymbolNode := ⟨symbolId, componentName, "function", filePath,
    getPositionFromMatch content.data m.2,
    if strIncludes content ("export default " ++ componentName)
        || strIncludes content ("export function " ++ componentName)
      then "exported" else "private"⟩
  let core := { acc.1 with graph :=
    { acc.1.graph with symbols := aset acc.1.graph.symbols symbolId node } }
  (core, acc.2 ++ [symbolId])

/-- Fold step of the arrow-component scan: insert the SymbolNode (kind
function; default-exported, exported, or private following the two
`includes` probes) and record the id. -/
def arrowComponentStep (filePath content : String) (acc : IndexCore × List String)
    (m : List Char × Nat) : IndexCore × List String :=
  let componentName := String.mk m.1
  let symbolId := "symbol:" ++ filePath ++ ":" ++ componentName
  let node : SymbolNode := ⟨symbolId, componentName, "function", filePath,
    getPositionFromMatch content.data m.2,
    if strIncludes content ("export default " ++ componentName) then "default-exported"
    else if strIncludes content ("export const " ++ componentName) then "exported"
    else "private"⟩
  let core := { acc.1 with graph :=
    { acc.1.graph with symbols := aset acc.1.graph.symbols symbolId node } }
  (core, acc.2 ++ [symbolId])

/-- React function/arrow component detection of _detectSymbols, run by the
source for .jsx/.tsx paths: the function-component scan followed by the
arrow-component scan, each writing a SymbolNode keyed `symbol:path:name`. -/
def detectJsxComponentSymbols (filePath : String) (content : String)
    (core : IndexCore) (detected : List String) : IndexCore × List String :=
  let step1 := (jsScanAll matchFuncComponent content.data).foldl
    (funcComponentStep filePath content) (core, detected)
  (jsScanAll matchArrowComponent content.data).foldl
    (arrowComponentStep filePath content) step1

/-- Fold step of the class scan of _detectSymbols: insert the SymbolNode
keyed `symbol:path:name`, add the optional extends edge, record the id. -/
def classPassStep (filePath content : String) (acc : IndexCore × List String)
    (m : (List Char × Option (List Char)) × Nat) : IndexCore × List String :=
  let className := String.mk m.1.1
  let symbolId := "symbol:" ++ filePath ++ ":" ++ className
  let node : SymbolNode := ⟨symbolId, className, "class", filePath,
    getPositionFromMatch content.data m.2,
    if strIncludes content ("export class " ++ className)
        || strIncludes content ("export default class " ++ className)
      then "exported" else "private"⟩
  let core := { acc.1 with graph :=
    { acc.1.graph with symbols := aset acc.1.graph.symbols symbolId node } }
  let core := match m.1.2 with
    | some ext =>
      { core with graph := addDependencyEdge core.graph symbolId (String.mk ext) "extends" }
    | none => core
  (core, acc.2 ++ [symbolId])

/-- Fold step of the interface scan of _detectSymbols. -/
def interfacePassStep (filePath content : String) (acc : IndexCore × List String)
    (m : (List Char × Option (List Char)) × Nat) : IndexCore × List String :=
  let interfaceName := String.mk m.1.1
  let symbolId := "symbol:" ++ filePath ++ ":" ++ interfaceName
  let node : SymbolNode := ⟨symbolId, interfaceName, "interface", filePath,
    getPositionFromMatch content.data m.2,
    if strIncludes content ("export interface " ++ interfaceName)
      then "exported" else "private"⟩
  let core := { acc.1 with graph :=
    { acc.1.graph with symbols := aset acc.1.graph.symbols symbolId node } }
  (core, acc.2 ++ [symbolId])

/-- Fold step of the function scan of _detectSymbols (capitalized names
are skipped in .jsx/.tsx files, the React-component heuristic). -/
def functionPassStep (filePath content : String) (acc : IndexCore × List String)
    (m : List Char × Nat) : IndexCore × List String :=
  let functionName := String.mk m.1
  let isCapitalized := match m.1.head? with
    | some c => jsToUpperChar c == c
    | none => true
  if isCapitalized && (strEndsWith filePath ".jsx" || strEndsWith filePath ".tsx") then acc
  else
    let symbolId := "symbol:" ++ filePath ++ ":" ++ functionName
    let node : SymbolNode := ⟨symbolId, functionName, "function", filePath,
      getPositionFromMatch content.data m.2,
      if strIncludes content ("export function " ++ functionName)
        then "exported" else "private"⟩
    let core := { acc.1 with graph :=
      { acc.1.graph with symbols := aset acc.1.graph.symbols symbolId node } }
    (core, acc.2 ++ [symbolId])

/-- Fold step of the useState scan of _detectSymbols. -/
def useStatePassStep (filePath content : String) (acc : IndexCore × List String)
    (m : (List Char × List Char) × Nat) : IndexCore × List String :=
  let stateName := String.mk m.1.1
  let symbolId := "symbol:" ++ filePath ++ ":" ++ stateName
  let node : SymbolNode := ⟨symbolId, stateName, "variable", filePath,
    getPositionFromMatch content.data m.2, "private"⟩
  let core := { acc.1 with graph :=
    { acc.1.graph with symbols := aset acc.1.graph.symbols symbolId node } }
  (core, acc.2 ++ [symbolId])

/-- WorkspaceIndexService._detectSymbols: the ordered battery of symbol
scans (React components for .jsx/.tsx, classes with optional extends
edges, interfaces, functions excluding capitalized names in .jsx/.tsx,
useState variables), each writing a SymbolNode keyed
`symbol:path:name`, then the file node's symbol list is set. -/
def detectSymbols (filePath : String) (content : String) (core : IndexCore) : IndexCore :=
  let fileId := "file:" ++ filePath
  let cdata := content.data
  let start : IndexCore × List String := (core, [])
  let start :=
    if strEndsWith filePath ".jsx" || strEndsWith filePath ".tsx" then
      detectJsxComponentSymbols filePath content start.1 start.2
    else start
  let step1 := (jsScanAll (matchClassLike "class".data) cdata).foldl
    (classPassStep filePath content) start
  let step2 := (jsScanAll (matchClassLike "interface".data) cdata).foldl
    (interfacePassStep filePath content) step1
  let step3 := (jsScanAll matchFunctionDecl cdata).foldl
    (functionPassStep filePath content) step2
  let step4 := (jsScanAll matchUseState cdata).foldl
    (useStatePassStep filePath content) step3
  let core := step4.1
  match aget core.graph.files fileId with
  | some fn =>
    { core with graph :=
      { core.graph with files := aset core.graph.files fileId { fn with symbols := step4.2 } } }
  | none => core

/-! ## Diagnostic detection passes of the indexing pipeline -/

/-- WorkspaceIndexService._shouldAnalyzeForDiagnostics: the extension is
the substring from the last dot (the whole path when there is no dot,
matching JavaScript `substring(-1)`). -/
def shouldAnalyzeForDiagnostics (filePath : String) : Bool :=
  let extension := match listLastIndexOf '.' filePath.data with
    | some i => String.mk (filePath.data.drop i)
    | none => filePath
  [".js", ".jsx", ".ts", ".tsx", ".vue", ".svelte", ".astro"].contains extension

/-- Per-character step of _detectUnbalancedBrackets: push openers, match
closers against the stack top (report an unmatched closer without popping
on mismatch). The stack is an array: push appends, top is the last. -/
def bracketCharStep (filePath : String) (lineIdx : Nat)
    (acc : List (Char × Nat × Nat) × DiagnosticsStoreState) (ci : Nat × Char) :
    List (Char × Nat × Nat) × DiagnosticsStoreState :=
  let stack := acc.1
  let store := acc.2
  let colIdx := ci.1
  let char := ci.2
  if ['(', '[', '{'].contains char then
    (stack ++ [(char, lineIdx + 1, colIdx + 1)], store)
  else if [')', ']', '}'].contains char then
    let bracketIdx := (findIdxO (fun c => c == char) [')', ']', '}']).getD 0
    let matchingOpening := (['(', '[', '{'].get? bracketIdx).getD '('
    let mismatch := match stack.getLast? with
      | some top => !(top.1 == matchingOpening)
      | none => true
    if mismatch then
      (stack, addDiagnostic store
        ⟨"unbalanced-bracket-" ++ filePath ++ "-" ++ toString lineIdx ++ "-" ++ toString colIdx,
          filePath, lineIdx + 1, colIdx + 1,
          "Colchete de fechamento \x27" ++ String.mk [char]
            ++ "\x27 não tem abertura correspondente",
          "error", some "workspace-index", none⟩)
    else (stack.dropLast, store)
  else acc

/-- WorkspaceIndexService._detectUnbalancedBrackets. -/
def detectUnbalancedBrackets (filePath : String) (content : String)
    (store : DiagnosticsStoreState) : DiagnosticsStoreState :=
  let lines := splitOnChar '\n' content.data
  let res := lines.enum.foldl
    (fun acc li => li.2.enum.foldl (bracketCharStep filePath li.1) acc) ([], store)
  res.1.foldl (fun store bracket =>
    addDiagnostic store
      ⟨"unbalanced-bracket-open-" ++ filePath ++ "-" ++ toString bracket.2.1 ++ "-"
          ++ toString bracket.2.2,
        filePath, bracket.2.1, bracket.2.2,
        "Colchete de abertura \x27" ++ String.mk [bracket.1]
          ++ "\x27 não tem fechamento correspondente",
        "error", some "workspace-index", none⟩) res.2

/-- Matcher for the unused-import collection regex: `import`, whitespace,
a braced non-empty name list, whitespace, `from`. -/
def matchImportBracesFrom (_prev : Option Char) (l : List Char) :
    Option (List Char × Nat) :=
  match stripLit "import".data l with
  | none => none
  | some r1 =>
    match skipWs1 r1 with
    | none => none
    | some r2 =>
      match stripLit ['{'] r2 with
      | none => none
      | some r3 =>
        let inner := r3.takeWhile (fun c => !(c == '}'))
        if inner.isEmpty then none
        else
          match stripLit ['}'] (r3.dropWhile (fun c => !(c == '}'))) with
          | none => none
          | some r4 =>
            match skipWs1 r4 with
            | none => none
            | some r5 =>
              match stripLit "from".data r5 with
              | none => none
              | some r6 => some (inner, l.length - r6.length)

/-- Consume a `from`-whitespace-quoted-specifier tail (the end of the
import-statement removal regex); the lazy dot segment between the quotes
stops at the first quote of either kind and cannot cross a line break. -/
def matchFromQuotePart (l : List Char) : Option Nat :=
  match stripLit "from".data l with
  | none => none
  | some r1 =>
    match skipWs1 r1 with
    | none => none
    | some r2 =>
      match r2 with
      | q :: rest =>
        if q == '\x27' || q == '"' then
          let seg := rest.takeWhile (fun c => !(c == '\x27') && !(c == '"') && !(c == '\n') && !(c == '\r'))
          match rest.drop seg.length with
          | q2 :: _ =>
            if q2 == '\x27' || q2 == '"' then some (l.length - rest.length + seg.length + 1)
            else none
          | [] => none
        else none
      | [] => none

/-- Lazy search of the import-statement removal regex: find the earliest
offset at which the from-quote tail matches, crossing only
non-line-break characters. -/
def importTailSearch : Nat → List Char → Option Nat
  | 0, _ => none
  | _ + 1, [] => none
  | fuel + 1, c :: rest =>
    match matchFromQuotePart (c :: rest) with
    | some consumed => some consumed
    | none =>
      if c == '\n' || c == '\r' then none
      else (importTailSearch fuel rest).map (· + 1)

/-- Matcher of the whole-import-statement removal regex
(`import`, whitespace, lazy dots, `from`, whitespace, quoted specifier). -/
def matchImportStmtRemoval (l : List Char) : Option Nat :=
  match stripLit "import".data l with
  | none => none
  | some r1 =>
    match skipWs1 r1 with
    | none => none
    | some r2 =>
      match importTailSearch (r2.length + 1) r2 with
      | some k => some (l.length - r2.length + k)
      | none => none

/-- JavaScript global `replace` with the empty string: delete every
(non-overlapping, leftmost) match. -/
def removeAllMatches (f : List Char → Option Nat) : Nat → List Char → List Char
  | 0, l => l
  | _ + 1, [] => []
  | fuel + 1, c :: rest =>
    match f (c :: rest) with
    | some len => removeAllMatches f fuel (List.drop len (c :: rest))
    | none => c :: removeAllMatches f fuel rest

/-- WorkspaceIndexService._detectUnusedImports: collect braced import
names with their positions, delete all import statements from the text,
then report every collected name with no residual word-run occurrence. -/
def detectUnusedImports (filePath : String) (content : String)
    (store : DiagnosticsStoreState) : DiagnosticsStoreState :=
  let cdata := content.data
  let lines := splitOnChar '\n' cdata
  let imports := (jsScanAll matchImportBracesFrom cdata).foldl
    (fun (imports : List (String × Nat × Nat)) m =>
      let importNames := (splitOnSub [','] m.1).map
        (fun n => jsTrim ((splitOnSub " as ".data (jsTrim n)).headD []))
      let lineNumber := (splitOnChar '\n' (cdata.take m.2)).length
      importNames.foldl (fun imports name =>
        let line := (lines.get? (lineNumber - 1)).getD []
        let columnPosition := ((listIndexOfSub name line).map (· + 1)).getD 0
        aset imports (String.mk name) (lineNumber, columnPosition)) imports) []
  let contentAfterImports := removeAllMatches matchImportStmtRemoval (cdata.length + 1) cdata
  let usedNames := (wordRuns contentAfterImports).map (fun r => String.mk r.1)
  imports.foldl (fun store nm =>
    if usedNames.contains nm.1 then store
    else addDiagnostic store
      ⟨"unused-import-" ++ filePath ++ "-" ++ nm.1, filePath, nm.2.1, nm.2.2,
        "Importação não utilizada: " ++ nm.1, "warning", some "workspace-index", none⟩) store

/-- Matcher for the variable-declaration regex: word boundary,
const / let / var, whitespace, captured name. -/
def matchVarDeclaration (prev : Option Char) (l : List Char) :
    Option (List Char × Nat) :=
  if !(boundaryBeforeWord prev) then none
  else
    let kw := match stripLit "const".data l with
      | some r => some r
      | none => match stripLit "let".data l with
        | some r => some r
        | none => stripLit "var".data l
    match kw with
    | none => none
    | some r1 =>
      match skipWs1 r1 with
      | none => none
      | some r2 =>
        match takeWord1 r2 with
        | none => none
        | some (name, r3) => some (name, l.length - r3.length)

/-- Matcher for the function-parameter regex: word boundary, `function`,
whitespace, a name, optional whitespace, a parenthesized parameter list. -/
def matchFuncParams (prev : Option Char) (l : List Char) :
    Option (List Char × Nat) :=
  if !(boundaryBeforeWord prev) then none
  else
    match stripLit "function".data l with
    | none => none
    | some r1 =>
      match skipWs1 r1 with
      | none => none
      | some r2 =>
        match takeWord1 r2 with
        | none => none
        | some (_, r3) =>
          match stripLit ['('] (skipWsStar r3) with
          | none => none
          | some r4 =>
            let params := r4.takeWhile (fun c => !(c == ')'))
            match stripLit [')'] (r4.drop params.length) with
            | none => none
            | some r5 => some (params, l.length - r5.length)

/-- Matcher for the single-parameter arrow regex: word boundary, a
captured name, optional whitespace, arrow, optional whitespace, brace. -/
def matchArrowParam (prev : Option Char) (l : List Char) :
    Option (List Char × Nat) :=
  if !(boundaryBeforeWord prev) then none
  else
    match takeWord1 l with
    | none => none
    | some (name, r1) =>
      match stripLit "=>".data (skipWsStar r1) with
      | none => none
      | some r2 =>
        match stripLit ['{'] (skipWsStar r2) with
        | none => none
        | some r3 => some (name, l.length - r3.length)

/-- Matcher for the multi-parameter arrow regex: a parenthesized list,
optional whitespace, arrow, optional whitespace, brace or bracket. -/
def matchMultiParamArrow (_prev : Option Char) (l : List Char) :
    Option (List Char × Nat) :=
  match stripLit ['('] l with
  | none => none
  | some r1 =>
    let params := r1.takeWhile (fun c => !(c == ')'))
    match stripLit [')'] (r1.drop params.length) with
    | none => none
    | some r2 =>
      match stripLit "=>".data (skipWsStar r2) with
      | none => none
      | some r3 =>
        match skipWsStar r3 with
        | c :: r4 => if c == '{' || c == '[' then some (params, l.length - r4.length) else none
        | [] => none

/-- Matcher for the braced-import collection regex of
_detectUndefinedVariables (no `from` requirement). -/
def matchImportBraces (_prev : Option Char) (l : List Char) :
    Option (List Char × Nat) :=
  match stripLit "import".data l with
  | none => none
  | some r1 =>
    match skipWs1 r1 with
    | none => none
    | some r2 =>
      match stripLit ['{'] r2 with
      | none => none
      | some r3 =>
        let inner := r3.takeWhile (fun c => !(c == '}'))
        if inner.isEmpty then none
        else
          match stripLit ['}'] (r3.dropWhile (fun c => !(c == '}'))) with
          | none => none
          | some r4 => some (inner, l.length - r4.length)

/-- Parameter-name extraction of _detectUndefinedVariables: trim, cut at
the first colon, cut at the first equals, trim. -/
def parseParamName (p : List Char) : List Char :=
  jsTrim ((splitOnChar '=' ((splitOnChar ':' (jsTrim p)).headD [])).headD [])

/-- WorkspaceIndexService._getCommonGlobals. -/
def commonGlobals : List String :=
  ["window", "document", "console", "setTimeout", "setInterval", "fetch", "Promise",
    "Map", "Set", "Array", "Object", "String", "Number", "Boolean", "Math", "Date",
    "JSON", "localStorage", "sessionStorage", "navigator", "location", "history",
    "Error", "React", "useState", "useEffect", "useContext", "useRef", "useReducer",
    "useCallback", "useMemo", "useLayoutEffect"]

/-- Keyword list of the skip regex in _detectUndefinedVariables. -/
def jsKeywordList : List String :=
  ["if", "else", "for", "while", "function", "return", "const", "let", "var",
    "import", "export", "from", "as", "class", "interface", "type", "enum", "true",
    "false", "null", "undefined", "this", "super", "new", "try", "catch", "finally",
    "throw", "break", "continue", "default", "case", "switch", "in", "of",
    "instanceof", "typeof"]

/-- Strip a line comment: delete from the first `//` to the end of the
line (the `replace(two-slashes-to-end, empty)` step). -/
def stripLineComment (l : List Char) : List Char :=
  match listIndexOfSub ['/', '/'] l with
  | some i => l.take i
  | none => l

/-- Matcher for one block comment (lazy up to the first closer). -/
def matchBlockComment (l : List Char) : Option Nat :=
  match stripLit ['/', '*'] l with
  | none => none
  | some r1 =>
    match listIndexOfSub ['*', '/'] r1 with
    | some i => some (2 + i + 2)
    | none => none

/-- The `codeLine` computation of _detectUndefinedVariables: strip the
line comment, then delete all block comments. -/
def toCodeLine (l : List Char) : List Char :=
  let l1 := stripLineComment l
  removeAllMatches matchBlockComment (l1.length + 1) l1

/-- All-digits test (the skip regex for pure numbers). -/
def isAllDigits (l : List Char) : Bool :=
  !l.isEmpty && l.all jsIsDigit

/-- WorkspaceIndexService._detectUndefinedVariables: collect declared
names, parameters, imports and common globals, then flag each word run
not in that set, at most once per unique name per file. -/
def detectUndefinedVariables (filePath : String) (content : String)
    (store : DiagnosticsStoreState) : DiagnosticsStoreState :=
  let cdata := content.data
  let varDefinitions :=
    ((jsScanAll matchVarDeclaration cdata).map (fun m => String.mk m.1))
    ++ ((jsScanAll matchFuncParams cdata).flatMap (fun m =>
        ((splitOnChar ',' m.1).map (fun p => String.mk (parseParamName p))).filter
          (fun p => !(p == ""))))
    ++ ((jsScanAll matchArrowParam cdata).map (fun m => String.mk m.1))
    ++ ((jsScanAll matchMultiParamArrow cdata).flatMap (fun m =>
        ((splitOnChar ',' m.1).map (fun p => String.mk (parseParamName p))).filter
          (fun p => !(p == ""))))
    ++ ((jsScanAll matchImportBraces cdata).flatMap (fun m =>
        ((splitOnSub [','] m.1).map (fun n =>
          String.mk (jsTrim ((splitOnSub " as ".data (jsTrim n)).headD [])))).filter
          (fun n => !(n == ""))))
    ++ commonGlobals
  let lines := splitOnChar '\n' cdata
  let res := lines.enum.foldl (fun (acc : List String × DiagnosticsStoreState) li =>
    let codeLine := toCodeLine li.2
    (wordRuns codeLine).foldl (fun (acc : List String × DiagnosticsStoreState) run =>
      let varName := String.mk run.1
      if varName.length ≤ 1 || isAllDigits run.1 || jsKeywordList.contains varName
          || acc.1.contains varName then acc
      else
        let checked := varName :: acc.1
        if !(varDefinitions.contains varName) && !(commonGlobals.contains varName) then
          (checked, addDiagnostic acc.2
            ⟨"undefined-var-" ++ filePath ++ "-" ++ varName ++ "-" ++ toString li.1,
              filePath, li.1 + 1, ((listIndexOfSub run.1 codeLine).map (· + 1)).getD 0,
              "Variável possivelmente não definida: " ++ varName,
              "warning", some "workspace-index", none⟩)
        else (checked, acc.2)) acc) ([], store)
  res.2

/-- Matcher for the unsafe-assertion regex: `as`, whitespace, `any`. -/
def matchAsAny (_prev : Option Char) (l : List Char) : Option (Unit × Nat) :=
  match stripLit "as".data l with
  | none => none
  | some r1 =>
    match skipWs1 r1 with
    | none => none
    | some r2 =>
      match stripLit "any".data r2 with
      | none => none
      | some r3 => some ((), l.length - r3.length)

/-- WorkspaceIndexService._detectTypeScriptIssues: flag every `as any`
assertion (info severity, column from the line's literal `as any`
index). -/
def detectTypeScriptIssues (filePath : String) (content : String)
    (store : DiagnosticsStoreState) : DiagnosticsStoreState :=
  let cdata := content.data
  let lines := splitOnChar '\n' cdata
  (jsScanAll matchAsAny cdata).foldl (fun store m =>
    let lineIdx := lineIndexOfMatch cdata m.2
    let line := (lines.get? lineIdx).getD []
    addDiagnostic store
      ⟨"unsafe-assertion-" ++ filePath ++ "-" ++ toString lineIdx, filePath, lineIdx + 1,
        ((listIndexOfSub "as any".data line).map (· + 1)).getD 0,
        "Uso de \"as any\" pode levar a bugs de tipo. Considere usar tipos mais específicos.",
        "info", some "workspace-index", none⟩) store

/-- JavaScript `toLowerCase` on one character (ASCII). -/
def jsToLowerChar (c : Char) : Char :=
  if 65 ≤ c.toNat && c.toNat ≤ 90 then Char.ofNat (c.toNat + 32) else c

/-- JavaScript `toLowerCase` on a string (ASCII). -/
def jsToLowerStr (s : String) : String :=
  String.mk (s.data.map jsToLowerChar)

/-- The HTML tag list of _isHtmlTag. -/
def htmlTags : List String :=
  ["a", "abbr", "address", "area", "article", "aside", "audio", "b", "base",
    "bdi", "bdo", "blockquote", "body", "br", "button", "canvas", "caption",
    "cite", "code", "col", "colgroup", "data", "datalist", "dd", "del",
    "details", "dfn", "dialog", "div", "dl", "dt", "em", "embed", "fieldset",
    "figcaption", "figure", "footer", "form", "h1", "h2", "h3", "h4", "h5",
    "h6", "head", "header", "hgroup", "hr", "html", "i", "iframe", "img",
    "input", "ins", "kbd", "label", "legend", "li", "link", "main", "map",
    "mark", "meta", "meter", "nav", "noscript", "object", "ol", "optgroup",
    "option", "output", "p", "param", "picture", "pre", "progress", "q",
    "rp", "rt", "ruby", "s", "samp", "script", "section", "select", "slot",
    "small", "source", "span", "strong", "style", "sub", "summary", "sup",
    "table", "tbody", "td", "template", "textarea", "tfoot", "th", "thead",
    "time", "title", "tr", "track", "u", "ul", "var", "video", "wbr"]

/-- The SVG tag list of _isCommonSvgTag. -/
def svgTags : List String :=
  ["svg", "circle", "clipPath", "defs", "desc", "ellipse", "feBlend",
    "feColorMatrix", "feComponentTransfer", "feComposite",
    "feConvolveMatrix", "feDiffuseLighting", "feDisplacementMap",
    "feDistantLight", "feDropShadow", "feFlood", "feFuncA", "feFuncB",
    "feFuncG", "feFuncR", "feGaussianBlur", "feImage", "feMerge",
    "feMergeNode", "feMorphology", "feOffset", "fePointLight",
    "feSpecularLighting", "feSpotLight", "feTile", "feTurbulence", "filter",
    "foreignObject", "g", "image", "line", "linearGradient", "marker",
    "mask", "metadata", "path", "pattern", "polygon", "polyline",
    "radialGradient", "rect", "stop", "switch", "symbol", "text", "textPath",
    "tspan", "use", "view"]

/-- WorkspaceIndexService._isHtmlTag. -/
def isHtmlTag (tag : String) : Bool :=
  htmlTags.contains (jsToLowerStr tag)

/-- WorkspaceIndexService._isCommonSvgTag. -/
def isCommonSvgTag (tag : String) : Bool :=
  svgTags.contains (jsToLowerStr tag)

/-- Matcher for the component-tag regex of _detectReactIssues: an angle
bracket, a captured word, then one whitespace-or-closing-bracket
character (consumed). -/
def matchComponentTag (_prev : Option Char) (l : List Char) :
    Option (List Char × Nat) :=
  match stripLit ['<'] l with
  | none => none
  | some r1 =>
    match takeWord1 r1 with
    | none => none
    | some (w, r2) =>
      match r2 with
      | c :: _ => if jsIsSpace c || c == '>' then some (w, w.length + 2) else none
      | [] => none

/-- Matcher for the `.map` callback regex: `.map`, an opening parenthesis,
the argument alternatives — a parenthesized one-or-two-name list, or a
bare run without equals, closing angle or parenthesis — then an arrow and
an opening `<` or brace. The payload is the final bracket character and
the match length. -/
def matchMapCall (_prev : Option Char) (l : List Char) :
    Option ((Char × Nat) × Nat) :=
  match stripLit ".map".data l with
  | none => none
  | some r1 =>
    match stripLit ['('] (skipWsStar r1) with
    | none => none
    | some r2 =>
      let r3 := skipWsStar r2
      let afterArgs : Option (List Char) :=
        match r3 with
        | '(' :: r4 =>
          let m1 := r4.takeWhile (fun c => !(c == ',') && !(c == ')'))
          if m1.isEmpty then none
          else
            match r4.drop m1.length with
            | ')' :: r5 => some r5
            | ',' :: r5 =>
              let m2 := r5.takeWhile (fun c => !(c == ',') && !(c == ')'))
              if m2.isEmpty then none
              else
                match r5.drop m2.length with
                | ')' :: r6 => some r6
                | _ => none
            | _ => none
        | _ =>
          let n := r3.takeWhile (fun c => !(c == '=') && !(c == '>') && !(c == '('))
          if n.isEmpty then none else some (r3.drop n.length)
      match afterArgs with
      | none => none
      | some r7 =>
        match stripLit "=>".data (skipWsStar r7) with
        | none => none
        | some r8 =>
          match skipWsStar r8 with
          | c :: r9 =>
            if c == '<' || c == '{' then
              some ((c, l.length - r9.length), l.length - r9.length)
            else none
          | [] => none

/-- The bracket-counting loop of the `.map` key check: push on the
opening character, pop on the closing one, accumulate every visited
character, stop when the count reaches zero or the content ends. -/
def mapContentLoop (ob cb : Char) : Nat → Nat → List Char → List Char
  | 0, _, _ => []
  | _ + 1, _, [] => []
  | fuel + 1, count, c :: rest =>
    let count1 := if c == ob then count + 1 else count
    let count2 := if c == cb then count1 - 1 else count1
    if count2 == 0 then [c]
    else c :: mapContentLoop ob cb fuel count2 rest

/-- Search of the negative lookahead of the img-alt regex: whether, after
`img`, an `alt=` attribute preceded only by non-closing-bracket
characters and a word boundary and followed by a quote occurs. `prev` is
the character before the current position. -/
def imgAltScan : Nat → Char → List Char → Bool
  | 0, _, _ => false
  | fuel + 1, prev, l =>
    if !(jsIsWordChar prev) && List.isPrefixOf "alt=".data l
        && (match l.drop 4 with
            | q :: _ => q == '\x27' || q == '"'
            | [] => false) then true
    else match l with
      | [] => false
      | c :: rest => if c == '>' then false else imgAltScan fuel c rest

/-- Matcher for the img-without-alt regex: `<img` whose negative
lookahead (no boundary-preceded quoted `alt=` within the tag) holds. The
lookahead consumes nothing, so the match length is four. -/
def matchImgNoAlt (_prev : Option Char) (l : List Char) : Option (Unit × Nat) :=
  match stripLit "<img".data l with
  | none => none
  | some r1 => if imgAltScan (r1.length + 1) 'g' r1 then none else some ((), 4)

/-- Matcher for the empty-button regex: a button tag, then either only
whitespace or an img tag, whitespace, and the closing `</button>`. -/
def matchButtonNoText (_prev : Option Char) (l : List Char) : Option (Unit × Nat) :=
  match stripLit "<button".data l with
  | none => none
  | some r1 =>
    let attrs := r1.takeWhile (fun c => !(c == '>'))
    match r1.drop attrs.length with
    | '>' :: r2 =>
      match stripLit "</button>".data (r2.dropWhile jsIsSpace) with
      | some r3 => some ((), l.length - r3.length)
      | none =>
        match stripLit "<img".data r2 with
        | none => none
        | some r4 =>
          let a2 := r4.takeWhile (fun c => !(c == '>'))
          match r4.drop a2.length with
          | '>' :: r5 =>
            match stripLit "</button>".data (r5.dropWhile jsIsSpace) with
            | some r6 => some ((), l.length - r6.length)
            | none => none
          | _ => none
    | _ => none

/-- The interactive-element alternatives of the accessibility pass, in
the regex's order. -/
def interactiveTags : List String := ["a", "button", "input", "select", "textarea"]

/-- Matcher for the interactive-element regex: an angle bracket, the
first matching tag alternative, the attribute run, a closing bracket. The
payload is the tag and the whole matched element text. -/
def matchInteractiveTag (_prev : Option Char) (l : List Char) :
    Option ((String × List Char) × Nat) :=
  match stripLit ['<'] l with
  | none => none
  | some r1 =>
    match interactiveTags.find? (fun t => List.isPrefixOf t.data r1) with
    | none => none
    | some t =>
      let r2 := r1.drop t.length
      let attrs := r2.takeWhile (fun c => !(c == '>'))
      match r2.drop attrs.length with
      | '>' :: r3 =>
        let len := l.length - r3.length
        some ((t, l.take len), len)
      | _ => none

/-- One attempt of the id-attribute regex of the accessibility pass:
`id=`, a quote of either kind, a non-empty run of non-quote characters,
a quote of either kind. -/
def matchIdAttr (l : List Char) : Option (List Char) :=
  match l with
  | 'i' :: 'd' :: '=' :: q :: r =>
    if q == '"' || q == '\x27' then
      let v := r.takeWhile (fun ch => !(ch == '"') && !(ch == '\x27'))
      if v.isEmpty then none
      else
        match r.drop v.length with
        | q2 :: _ => if q2 == '"' || q2 == '\x27' then some v else none
        | [] => none
    else none
  | _ => none

/-- Leftmost id-attribute match within an element text. -/
def idAttrSearch : Nat → List Char → Option (List Char)
  | 0, _ => none
  | _ + 1, [] => none
  | fuel + 1, c :: rest =>
    match matchIdAttr (c :: rest) with
    | some v => some v
    | none => idAttrSearch fuel rest

/-- First negative lookahead of the onClick regex: whitespace, a word
run, whitespace, an arrow. -/
def onClickLA1 (l : List Char) : Bool :=
  let r := l.dropWhile jsIsSpace
  let w := r.takeWhile jsIsWordChar
  if w.isEmpty then false
  else List.isPrefixOf "=>".data ((r.drop w.length).dropWhile jsIsSpace)

/-- Second negative lookahead of the onClick regex: whitespace,
`function`, whitespace, an opening parenthesis. -/
def onClickLA2 (l : List Char) : Bool :=
  match stripLit "function".data (l.dropWhile jsIsSpace) with
  | none => false
  | some r => List.isPrefixOf ['('] (r.dropWhile jsIsSpace)

/-- Third negative lookahead of the onClick regex: whitespace, a
parenthesized run, whitespace, an arrow. -/
def onClickLA3 (l : List Char) : Bool :=
  match l.dropWhile jsIsSpace with
  | '(' :: r =>
    let inner := r.takeWhile (fun c => !(c == ')'))
    match r.drop inner.length with
    | ')' :: r2 => List.isPrefixOf "=>".data (r2.dropWhile jsIsSpace)
    | _ => false
  | _ => false

/-- Body search of the onClick regex after the opening brace: a call
`(...)` whose opening parenthesis lies before the first closing brace,
whose closing parenthesis is not followed by `.bind`, and after which a
closing brace exists. Candidate opening parentheses are tried rightmost
first (the backtracking order of the greedy leading character class);
the closing parenthesis and final brace positions are forced. Returns
the match length after the opening brace. -/
def onClickBody (l : List Char) : Option Nat :=
  let r := l.takeWhile (fun c => !(c == '}'))
  let cands := ((r.enum.filter (fun p => p.2 == '(')).map (fun p => p.1)).reverse
  cands.findSome? (fun i =>
    let afterParen := l.drop (i + 1)
    let seg := afterParen.takeWhile (fun c => !(c == ')'))
    match afterParen.drop seg.length with
    | ')' :: r2 =>
      if List.isPrefixOf ".bind".data r2 then none
      else
        let seg2 := r2.takeWhile (fun c => !(c == '}'))
        match r2.drop seg2.length with
        | '}' :: _ => some (i + 1 + seg.length + 1 + seg2.length + 1)
        | _ => none
    | _ => none)

/-- Matcher for the onClick-with-invocation regex: `onClick`, equals, an
opening brace, the three negative lookaheads, then the body search. The
payload is the whole matched text. -/
def matchOnClickInvocation (_prev : Option Char) (l : List Char) :
    Option (List Char × Nat) :=
  match stripLit "onClick".data l with
  | none => none
  | some r1 =>
    match stripLit ['='] (skipWsStar r1) with
    | none => none
    | some r2 =>
      match stripLit ['\x7b'] (skipWsStar r2) with
      | none => none
      | some r3 =>
        if onClickLA1 r3 || onClickLA2 r3 || onClickLA3 r3 then none
        else
          match onClickBody r3 with
          | none => none
          | some k =>
            let len := l.length - r3.length + k
            some (l.take len, len)

/-- Matcher for the useState regex of the event-handler pass (the one
with the extra whitespace slots): `const`, whitespace, bracketed state
and `set`-prefixed setter names, equals, `useState`. -/
def matchUseStateSetter (_prev : Option Char) (l : List Char) :
    Option ((List Char × List Char) × Nat) :=
  match stripLit "const".data l with
  | none => none
  | some r1 =>
    match skipWs1 r1 with
    | none => none
    | some r2 =>
      match stripLit ['['] r2 with
      | none => none
      | some r3 =>
        match takeWord1 (skipWsStar r3) with
        | none => none
        | some (w1, r4) =>
          match stripLit [','] (skipWsStar r4) with
          | none => none
          | some r5 =>
            match stripLit "set".data (skipWsStar r5) with
            | none => none
            | some r6 =>
              match takeWord1 r6 with
              | none => none
              | some (w2, r7) =>
                match stripLit [']'] (skipWsStar r7) with
                | none => none
                | some r8 =>
                  match stripLit ['='] (skipWsStar r8) with
                  | none => none
                  | some r9 =>
                    match stripLit "useState".data (skipWsStar r9) with
                    | none => none
                    | some r10 => some ((w1, w2), l.length - r10.length)

/-- Whether the dynamically built setter regex (word boundary, the setter
name, whitespace, an opening parenthesis) matches anywhere in the
content. -/
def setterUsed (name : List Char) : Nat → Option Char → List Char → Bool
  | 0, _, _ => false
  | _ + 1, _, [] => false
  | fuel + 1, prev, c :: rest =>
    (boundaryBeforeWord prev && List.isPrefixOf name (c :: rest)
      && List.isPrefixOf ['('] (((c :: rest).drop name.length).dropWhile jsIsSpace))
    || setterUsed name fuel (some c) rest

/-- Matcher for the useEffect regex: `useEffect`, an opening parenthesis,
an empty arrow-function header, a braced body without inner closing
braces, a comma, then either an empty bracket pair or only whitespace,
and the closing parenthesis. The payload is the whole matched text. -/
def matchUseEffectCall (_prev : Option Char) (l : List Char) :
    Option (List Char × Nat) :=
  match stripLit "useEffect".data l with
  | none => none
  | some r1 =>
    match stripLit ['('] (skipWsStar r1) with
    | none => none
    | some r2 =>
      match stripLit ['('] (skipWsStar r2) with
      | none => none
      | some r3 =>
        match stripLit [')'] (skipWsStar r3) with
        | none => none
        | some r4 =>
          match stripLit "=>".data (skipWsStar r4) with
          | none => none
          | some r5 =>
            match stripLit ['\x7b'] (skipWsStar r5) with
            | none => none
            | some r6 =>
              let body := r6.takeWhile (fun c => !(c == '\x7d'))
              match r6.drop body.length with
              | '\x7d' :: r7 =>
                match skipWsStar r7 with
                | ',' :: r9 =>
                  match skipWsStar r9 with
                  | '[' :: t1 =>
                    (match skipWsStar t1 with
                     | ']' :: ')' :: t4 =>
                       some (l.take (l.length - t4.length), l.length - t4.length)
                     | _ => none)
                  | ')' :: t4 =>
                    some (l.take (l.length - t4.length), l.length - t4.length)
                  | _ => none
                | _ => none
              | _ => none

/-- Lowercase-component pass of _detectReactIssues: every matched tag
name that equals its own lowercase first character and is neither an
HTML nor an SVG tag is reported. -/
def reactComponentNamePass (filePath : String) (content : String)
    (store : DiagnosticsStoreState) : DiagnosticsStoreState :=
  let cdata := content.data
  let lines := splitOnChar '\n' cdata
  (jsScanAll matchComponentTag cdata).foldl (fun store m =>
    let nm := m.1
    if jsToLowerChar (nm.headD ' ') == nm.headD ' '
        && !(isHtmlTag (String.mk nm)) && !(isCommonSvgTag (String.mk nm)) then
      let lineIdx := lineIndexOfMatch cdata m.2
      let line := (lines.get? lineIdx).getD []
      addDiagnostic store
        ⟨"invalid-react-component-" ++ filePath ++ "-" ++ String.mk nm ++ "-"
            ++ toString lineIdx,
          filePath, lineIdx + 1, ((listIndexOfSub nm line).map (· + 1)).getD 0,
          "Possível erro: componentes React devem começar com letra maiúscula ("
            ++ String.mk nm ++ ")",
          "warning", some "workspace-index", none⟩
    else store) store

/-- Missing-`key` pass of _detectReactIssues. -/
def reactMapKeyPass (filePath : String) (content : String)
    (store : DiagnosticsStoreState) : DiagnosticsStoreState :=
  let cdata := content.data
  let lines := splitOnChar '\n' cdata
  (jsScanAll matchMapCall cdata).foldl (fun store m =>
    let ob := m.1.1
    let cb := if ob == '<' then '>' else '\x7d'
    let tail := cdata.drop (m.2 + m.1.2)
    let mapContent := mapContentLoop ob cb (tail.length + 1) 1 tail
    if !(listHasInfix "key=".data mapContent) && !(listHasInfix "key:".data mapContent) then
      let lineIdx := lineIndexOfMatch cdata m.2
      let line := (lines.get? lineIdx).getD []
      addDiagnostic store
        ⟨"missing-key-" ++ filePath ++ "-" ++ toString lineIdx,
          filePath, lineIdx + 1, ((listIndexOfSub ".map".data line).map (· + 1)).getD 0,
          "Elementos em listas React devem ter a prop \"key\" para melhor performance",
          "warning", some "workspace-index", none⟩
    else store) store

/-- Image-alt pass of _detectAccessibilityIssues. -/
def a11yImgPass (filePath : String) (content : String)
    (store : DiagnosticsStoreState) : DiagnosticsStoreState :=
  let cdata := content.data
  let lines := splitOnChar '\n' cdata
  (jsScanAll matchImgNoAlt cdata).foldl (fun store m =>
    let lineIdx := lineIndexOfMatch cdata m.2
    let line := (lines.get? lineIdx).getD []
    addDiagnostic store
      ⟨"accessibility-img-alt-" ++ filePath ++ "-" ++ toString lineIdx,
        filePath, lineIdx + 1, ((listIndexOfSub "<img".data line).map (· + 1)).getD 0,
        "Imagem sem atributo alt - isso prejudica a acessibilidade para leitores de tela",
        "warning", some "workspace-index", none⟩) store

/-- Empty-button pass of _detectAccessibilityIssues. -/
def a11yButtonPass (filePath : String) (content : String)
    (store : DiagnosticsStoreState) : DiagnosticsStoreState :=
  let cdata := content.data
  let lines := splitOnChar '\n' cdata
  (jsScanAll matchButtonNoText cdata).foldl (fun store m =>
    let lineIdx := lineIndexOfMatch cdata m.2
    let line := (lines.get? lineIdx).getD []
    addDiagnostic store
      ⟨"accessibility-button-text-" ++ filePath ++ "-" ++ toString lineIdx,
        filePath, lineIdx + 1, ((listIndexOfSub "<button".data line).map (· + 1)).getD 0,
        "Botão sem texto - adicione texto ou aria-label para acessibilidade",
        "warning", some "workspace-index", none⟩) store

/-- Input-label pass of _detectAccessibilityIssues: only the `input`
alternative emits, and a found id attribute paired with a matching
`htmlFor` occurrence suppresses the diagnostic. -/
def a11yInputPass (filePath : String) (content : String)
    (store : DiagnosticsStoreState) : DiagnosticsStoreState :=
  let cdata := content.data
  let lines := splitOnChar '\n' cdata
  (jsScanAll matchInteractiveTag cdata).foldl (fun store m =>
    let tag := m.1.1
    let html := m.1.2
    if !(listHasInfix "aria-label".data html) && !(listHasInfix "aria-labelledby".data html)
        && tag == "input" then
      let lineIdx := lineIndexOfMatch cdata m.2
      let line := (lines.get? lineIdx).getD []
      let diag : DiagnosticItem :=
        ⟨"accessibility-input-label-" ++ filePath ++ "-" ++ toString lineIdx,
          filePath, lineIdx + 1, ((listIndexOfSub "<input".data line).map (· + 1)).getD 0,
          "Input sem label associado - use o atributo htmlFor ou aria-labelledby",
          "info", some "workspace-index", none⟩
      match idAttrSearch (html.length + 1) html with
      | some v =>
        if strIncludes content ("htmlFor=\"" ++ String.mk v ++ "\"") then store
        else addDiagnostic store diag
      | none => addDiagnostic store diag
    else store) store

/-- onClick-invocation pass of _detectEventHandlerIssues; matches whose
text holds preventDefault, stopPropagation or an arrow are skipped. -/
def onClickPass (filePath : String) (content : String)
    (store : DiagnosticsStoreState) : DiagnosticsStoreState :=
  let cdata := content.data
  let lines := splitOnChar '\n' cdata
  (jsScanAll matchOnClickInvocation cdata).foldl (fun store m =>
    let mc := m.1
    if listHasInfix ".preventDefault".data mc || listHasInfix ".stopPropagation".data mc
        || listHasInfix "=>".data mc then store
    else
      let lineIdx := lineIndexOfMatch cdata m.2
      let line := (lines.get? lineIdx).getD []
      addDiagnostic store
        ⟨"event-handler-invocation-" ++ filePath ++ "-" ++ toString lineIdx,
          filePath, lineIdx + 1, ((listIndexOfSub "onClick".data line).map (· + 1)).getD 0,
          "O evento onClick recebe uma invocação de função imediata em vez de uma referência. Use onClick=\x7b() => handleClick()\x7d ou onClick=\x7bhandleClick\x7d",
          "warning", some "workspace-index", none⟩) store

/-- Unused-setter pass of _detectEventHandlerIssues. -/
def unusedSetterPass (filePath : String) (content : String)
    (store : DiagnosticsStoreState) : DiagnosticsStoreState :=
  let cdata := content.data
  let lines := splitOnChar '\n' cdata
  (jsScanAll matchUseStateSetter cdata).foldl (fun store m =>
    let setterChars := "set".data ++ m.1.2
    if setterUsed setterChars (cdata.length + 1) none cdata then store
    else
      let setterName := String.mk setterChars
      let lineIdx := lineIndexOfMatch cdata m.2
      let line := (lines.get? lineIdx).getD []
      addDiagnostic store
        ⟨"unused-state-setter-" ++ filePath ++ "-" ++ setterName ++ "-" ++ toString lineIdx,
          filePath, lineIdx + 1, ((listIndexOfSub setterChars line).map (· + 1)).getD 0,
          "O setter de estado \x27" ++ setterName
            ++ "\x27 nunca é utilizado. Considere usar useRef ou uma constante se o valor nunca muda.",
          "info", some "workspace-index", none⟩) store

/-- useEffect-dependency pass of _detectEventHandlerIssues. -/
def useEffectPass (filePath : String) (content : String)
    (store : DiagnosticsStoreState) : DiagnosticsStoreState :=
  let cdata := content.data
  let lines := splitOnChar '\n' cdata
  (jsScanAll matchUseEffectCall cdata).foldl (fun store m =>
    let effectCode := m.1
    let hasDeps := listHasInfix "[]".data effectCode
    if !hasDeps then
      let lineIdx := lineIndexOfMatch cdata m.2
      let line := (lines.get? lineIdx).getD []
      addDiagnostic store
        ⟨"effect-no-deps-" ++ filePath ++ "-" ++ toString lineIdx,
          filePath, lineIdx + 1, ((listIndexOfSub "useEffect".data line).map (· + 1)).getD 0,
          "useEffect sem array de dependências será executado em cada renderização. Adicione [] para executar apenas na montagem ou especifique as dependências.",
          "info", some "workspace-index", none⟩
    else if hasDeps && (listHasInfix "document.addEventListener".data effectCode
        || listHasInfix ".addEventListener".data effectCode) then
      if !(listHasInfix "return".data effectCode) then
        let lineIdx := lineIndexOfMatch cdata m.2
        let line := (lines.get? lineIdx).getD []
        addDiagnostic store
          ⟨"effect-no-cleanup-" ++ filePath ++ "-" ++ toString lineIdx,
            filePath, lineIdx + 1,
            ((listIndexOfSub "useEffect".data line).map (· + 1)).getD 0,
            "useEffect com eventos addEventListener deve retornar uma função de cleanup para remover os listeners",
            "warning", some "workspace-index", none⟩
      else store
    else store) store

/-- WorkspaceIndexService._detectReactIssues with its two helper passes
_detectAccessibilityIssues and _detectEventHandlerIssues, run by the
source for .tsx/.jsx paths, assembled in the source order. -/
def detectReactIssues (filePath : String) (content : String)
    (store : DiagnosticsStoreState) : DiagnosticsStoreState :=
  let store := reactComponentNamePass filePath content store
  let store := reactMapKeyPass filePath content store
  let store := a11yImgPass filePath content store
  let store := a11yButtonPass filePath content store
  let store := a11yInputPass filePath content store
  let store := onClickPass filePath content store
  let store := unusedSetterPass filePath content store
  useEffectPass filePath content store

/-- WorkspaceIndexService._detectDiagnostics: clear the path, gate on the
code-file extensions, then run the passes in order (brackets, unused
imports, undefined variables, React for .tsx/.jsx, TypeScript for
.ts/.tsx). -/
def detectDiagnostics (filePath : String) (content : String) (core : IndexCore) :
    IndexCore :=
  let store := clearDiagnostics core.diagnostics (some filePath)
  if !(shouldAnalyzeForDiagnostics filePath) then { core with diagnostics := store }
  else
    let store := detectUnbalancedBrackets filePath content store
    let store := detectUnusedImports filePath content store
    let store := detectUndefinedVariables filePath content store
    let store := if strEndsWith filePath ".tsx" || strEndsWith filePath ".jsx" then
        detectReactIssues filePath content store
      else store
    let store := if strEndsWith filePath ".ts" || strEndsWith filePath ".tsx" then
        detectTypeScriptIssues filePath content store
      else store
    { core with diagnostics := store }

/-! ## Import analysis and the service-level operations -/

/-- Quoted module specifier: a quote of either kind, a non-empty run of
non-quote characters, a closing quote of either kind. -/
def matchQuotedPath (l : List Char) : Option (List Char × Nat) :=
  match l with
  | q :: rest =>
    if q == '\x27' || q == '"' then
      let path := rest.takeWhile (fun c => !(c == '\x27') && !(c == '"'))
      if path.isEmpty then none
      else
        match rest.drop path.length with
        | q2 :: _ =>
          if q2 == '\x27' || q2 == '"' then some (path, path.length + 2)
          else none
        | [] => none
    else none
  | [] => none

/-- Lazy-dot search for the side-effect-import alternative: find the
earliest quoted specifier crossing only non-line-break characters. -/
def quotedPathSearch : Nat → List Char → Option (List Char × Nat)
  | 0, _ => none
  | _ + 1, [] => none
  | fuel + 1, c :: rest =>
    match matchQuotedPath (c :: rest) with
    | some (path, len) => some (path, len)
    | none =>
      if c == '\n' || c == '\r' then none
      else (quotedPathSearch fuel rest).map (fun r => (r.1, r.2 + 1))

/-- Matcher for the combined import regex of _analyzeImports: `import`,
whitespace, then one of the four alternatives in the regex's order —
braced named imports + `from`, a default import name + `from`, a
namespace import + `from`, or the side-effect form (negative lookahead
for brace, star or word char, then lazy dots) — each followed by the
quoted specifier. The payload is (named-imports capture, default-import
capture, specifier). -/
def importAlt1 (l r1 : List Char) :
    Option ((Option (List Char) × Option (List Char) × List Char) × Nat) :=
  match stripLit ['{'] r1 with
  | none => none
  | some r2 =>
    let inner := r2.takeWhile (fun c => !(c == '}'))
    if inner.isEmpty then none
    else
      match stripLit ['}'] (r2.drop inner.length) with
      | none => none
      | some r3 =>
        match skipWs1 r3 with
        | none => none
        | some r4 =>
          match stripLit "from".data r4 with
          | none => none
          | some r5 =>
            match skipWs1 r5 with
            | none => none
            | some r6 =>
              match matchQuotedPath r6 with
              | none => none
              | some (path, plen) =>
                some ((some inner, none, path), l.length - r6.length + plen)

/-- Second alternative of the import regex: a default import name, `from`,
the quoted specifier. -/
def importAlt2 (l r1 : List Char) :
    Option ((Option (List Char) × Option (List Char) × List Char) × Nat) :=
  match takeWord1 r1 with
  | none => none
  | some (w, r2) =>
    match skipWs1 r2 with
    | none => none
    | some r3 =>
      match stripLit "from".data r3 with
      | none => none
      | some r4 =>
        match skipWs1 r4 with
        | none => none
        | some r5 =>
          match matchQuotedPath r5 with
          | none => none
          | some (path, plen) =>
            some ((none, some w, path), l.length - r5.length + plen)

/-- Third alternative of the import regex: a namespace import, `from`,
the quoted specifier. -/
def importAlt3 (l r1 : List Char) :
    Option ((Option (List Char) × Option (List Char) × List Char) × Nat) :=
  match stripLit ['*'] r1 with
  | none => none
  | some r2 =>
    match skipWs1 r2 with
    | none => none
    | some r3 =>
      match stripLit "as".data r3 with
      | none => none
      | some r4 =>
        match skipWs1 r4 with
        | none => none
        | some r5 =>
          match takeWord1 r5 with
          | none => none
          | some (_, r6) =>
            match skipWs1 r6 with
            | none => none
            | some r7 =>
              match stripLit "from".data r7 with
              | none => none
              | some r8 =>
                match skipWs1 r8 with
                | none => none
                | some r9 =>
                  match matchQuotedPath r9 with
                  | none => none
                  | some (path, plen) =>
                    some ((none, none, path), l.length - r9.length + plen)

/-- Fourth alternative of the import regex: the side-effect form, whose
negative lookahead excludes a brace, star or word character at the first
position, followed by the lazy-dot quoted specifier. -/
def importAlt4 (l r1 : List Char) :
    Option ((Option (List Char) × Option (List Char) × List Char) × Nat) :=
  let headOk := match r1.head? with
    | some c => !(c == '{') && !(c == '*') && !(jsIsWordChar c)
    | none => false
  if headOk then
    match quotedPathSearch (r1.length + 1) r1 with
    | some (path, klen) => some ((none, none, path), l.length - r1.length + klen)
    | none => none
  else none

/-- The combined import matcher: `import`, whitespace, then the four
alternatives in the regex's order. -/
def matchImportClause (_prev : Option Char) (l : List Char) :
    Option ((Option (List Char) × Option (List Char) × List Char) × Nat) :=
  match stripLit "import".data l with
  | none => none
  | some r0 =>
    match skipWs1 r0 with
    | none => none
    | some r1 =>
      match importAlt1 l r1 with
      | some res => some res
      | none =>
        match importAlt2 l r1 with
        | some res => some res
        | none =>
          match importAlt3 l r1 with
          | some res => some res
          | none => importAlt4 l r1

/-- JavaScript `sourcePath.substring(0, sourcePath.lastIndexOf(slash))`
(the empty string when there is no slash, because substring clamps -1 to
0). -/
def jsDirname (s : String) : String :=
  match listLastIndexOf '/' s.data with
  | some i => String.mk (s.data.take i)
  | none => ""

/-- Extension probing loop of _resolveImportPath: for each extension try
the path with the extension, then the directory index file. -/
def findResolvedWithExt (files : FileMap) (resolvedPath : String) :
    List String → Option String
  | [] => none
  | ext :: rest =>
    if ahas files (resolvedPath ++ ext) then some (resolvedPath ++ ext)
    else if ahas files (resolvedPath ++ "/index" ++ ext) then
      some (resolvedPath ++ "/index" ++ ext)
    else findResolvedWithExt files resolvedPath rest

/-- WorkspaceIndexService._resolveImportPath: relative specifiers are
joined to the importing file's directory (no normalization), probed with
extensions and index files and defaulted to a `.jsx` suffix; tilde and at
aliases map to `src/`; anything else is external (`none`, leading to a
virtual node). -/
def resolveImportPath (files : FileMap) (sourcePath importPath : String) :
    Option String :=
  if strStartsWith importPath "." then
    let sourceDir := jsDirname sourcePath
    let resolvedPath := sourceDir ++ "/" ++ importPath
    let possibleExtensions := [".js", ".jsx", ".ts", ".tsx", ".json"]
    if possibleExtensions.any (fun ext => strEndsWith resolvedPath ext) then
      some resolvedPath
    else
      match findResolvedWithExt files resolvedPath possibleExtensions with
      | some found => some found
      | none => some (resolvedPath ++ ".jsx")
  else if strStartsWith importPath "~/" || strStartsWith importPath "@/" then
    some ("src/" ++ String.mk (importPath.data.drop 2))
  else none

/-- Import-edge insertion of _analyzeImports: de-duplicate on (source,
target) only, bumping the weight of an existing edge, else append a
fresh import edge of weight 1. -/
def addImportEdgeCore (core : IndexCore) (sourceId targetId : String) : IndexCore :=
  match findIdxO (fun e => e.source == sourceId && e.target == targetId)
      core.graph.dependencies with
  | some i =>
    match core.graph.dependencies.get? i with
    | some e =>
      { core with graph := { core.graph with
        dependencies := core.graph.dependencies.set i { e with weight := e.weight + 1 } } }
    | none => core
  | none =>
    { core with graph := { core.graph with
      dependencies := core.graph.dependencies ++ [⟨sourceId, targetId, "import", 1⟩] } }

/-- Innermost step of the named-import `uses` wiring: one dependency edge
from a source symbol of the importing file. -/
def usesStep (targetSymbolId : String) (core : IndexCore) (srcSym : String) : IndexCore :=
  { core with graph := addDependencyEdge core.graph srcSym targetSymbolId "uses" }

/-- Per-name step of the named-import wiring of _analyzeImports, guarded
by the unprefixed membership test of the resolved path among the graph
file keys. -/
def namedImportStep (resolvedPath fileId : String) (core : IndexCore) (imp : List Char) :
    IndexCore :=
  if ahas core.graph.files resolvedPath then
    let targetSymbolId := "symbol:" ++ resolvedPath ++ ":" ++ String.mk imp
    if ahas core.graph.symbols targetSymbolId then
      match aget core.graph.files fileId with
      | some fn => fn.symbols.foldl (usesStep targetSymbolId) core
      | none => core
    else core
  else core

/-- Named-import wiring of _analyzeImports: split the braced capture on
commas, trim, and run the per-name step for each. -/
def namedImportsWiring (resolvedPath fileId : String) (ni : Option (List Char))
    (core : IndexCore) : IndexCore :=
  match ni with
  | some n => ((splitOnSub [','] n).map jsTrim).foldl (namedImportStep resolvedPath fileId) core
  | none => core

/-- Default-import handling of _analyzeImports: create the virtual
default-export symbol of the resolved module when absent. -/
def defaultImportSymbol (resolvedPath : String) (di : Option (List Char))
    (core : IndexCore) : IndexCore :=
  match di with
  | some d =>
    let targetSymbolId := "symbol:" ++ resolvedPath ++ ":default"
    if ahas core.graph.symbols targetSymbolId then core
    else { core with graph := { core.graph with
      symbols := aset core.graph.symbols targetSymbolId
        ⟨targetSymbolId, String.mk d, "module", resolvedPath, ⟨1, 1, 1, 1⟩,
          "default-exported"⟩ } }
  | none => core

/-- External-specifier branch of _analyzeImports: virtual `node_modules`
file node plus an import edge to it. -/
def externalImportStep (fileId importPath : String) (core : IndexCore) : IndexCore :=
  let virtualPath := "node_modules/" ++ importPath
  let targetFileId := "file:" ++ virtualPath
  let core := if ahas core.graph.files targetFileId then core
    else { core with graph := { core.graph with
      files := aset core.graph.files targetFileId ⟨targetFileId, virtualPath, core.now, []⟩ } }
  addImportEdgeCore core fileId targetFileId

/-- Resolved-specifier branch of _analyzeImports: import edge, the
named-import wiring, virtual default-export symbol, and queueing of the
target when its file node is absent. -/
def resolvedImportStep (fileId resolvedPath : String) (ni di : Option (List Char))
    (core : IndexCore) : IndexCore :=
  let targetFileId := "file:" ++ resolvedPath
  let core := addImportEdgeCore core fileId targetFileId
  let core := namedImportsWiring resolvedPath fileId ni core
  let core := defaultImportSymbol resolvedPath di core
  if ahas core.graph.files targetFileId then core
  else queueFileForIndexing core resolvedPath none

/-- Per-match step of _analyzeImports: dispatch on the resolution of the
specifier. -/
def importMatchStep (files : FileMap) (filePath : String) (core : IndexCore)
    (m : (Option (List Char) × Option (List Char) × List Char) × Nat) : IndexCore :=
  let fileId := "file:" ++ filePath
  let importPath := String.mk m.1.2.2
  match resolveImportPath files filePath importPath with
  | none => externalImportStep fileId importPath core
  | some resolvedPath => resolvedImportStep fileId resolvedPath m.1.1 m.1.2.1 core

/-- WorkspaceIndexService._analyzeImports: for every import match, resolve
the specifier; external specifiers get a virtual `node_modules` file node
and an import edge; resolved specifiers get an import edge, the
named-import `uses` wiring (guarded by the unprefixed membership test of
the source), a virtual default-export symbol, and are queued for indexing
when their file node is absent. -/
def analyzeImports (filePath : String) (content : String) (files : FileMap)
    (core : IndexCore) : IndexCore :=
  (jsScanAll matchImportClause content.data).foldl (importMatchStep files filePath) core

/-- WorkspaceIndexService._analyzeFileContent: create or refresh the file
node (Date.now() is the logical clock), then run the three passes in
order: symbols, diagnostics, imports. The clock advances once per pass
over a file. -/
def analyzeFileContent (filePath : String) (content : String) (files : FileMap)
    (core : IndexCore) : IndexCore :=
  let fileId := "file:" ++ filePath
  let core := { core with graph := { core.graph with
    files := aset core.graph.files fileId ⟨fileId, filePath, core.now, []⟩ } }
  let core := detectSymbols filePath content core
  let core := detectDiagnostics filePath content core
  let core := analyzeImports filePath content files core
  { core with now := core.now + 1 }

/-- WorkspaceIndexService._indexFile: look the path up in the external
file map (missing or non-file entries are skipped), clear the path's
diagnostics, then analyze the content. -/
def indexFile (core : IndexCore) (files : FileMap) (filePath : String) : IndexCore :=
  match aget files filePath with
  | some (.file content) =>
    let core := { core with diagnostics := clearDiagnostics core.diagnostics (some filePath) }
    analyzeFileContent filePath content files core
  | _ => core

/-- The while loop of _processIndexQueue in the single-threaded execution
in which no concurrent trigger fires: the version conjunct of the loop
condition stays true, so the loop shifts and indexes head paths until the
queue is empty. Fueled; the interleaved version-checking drain is the
machine model below. -/
def drainLoopSeq (files : FileMap) : Nat → IndexCore → IndexCore
  | 0, core => core
  | fuel + 1, core =>
    match core.indexingQueue with
    | [] => core
    | p :: rest => drainLoopSeq files fuel (indexFile { core with indexingQueue := rest } files p)

/-- WorkspaceIndexService._initializeWorkspace: queue every indexable file
of the external map with its content. -/
def initializeWorkspace (files : FileMap) (core : IndexCore) : IndexCore :=
  files.foldl (fun core pd =>
    match pd.2 with
    | .file c => if shouldIndexFile pd.1 then queueFileForIndexing core pd.1 (some c) else core
    | .folder => core) core

/-- The fresh service core (construction). -/
def initialCore : IndexCore := ⟨emptyGraph, [], [], [], 0⟩

/-- Full startup indexing pass over a file map: initializeWorkspace then a
complete drain. -/
def indexWorkspace (files : FileMap) : IndexCore :=
  drainLoopSeq files 32 (initializeWorkspace files initialCore)

/-- WorkspaceIndexService._removeFileFromIndex: when the prefixed id is a
graph file, delete its symbol nodes, the file node, every edge whose
source or target is the file id, and clear the path's diagnostics. -/
def removeFileFromIndex (core : IndexCore) (filePath : String) : IndexCore :=
  let fileId := "file:" ++ filePath
  match aget core.graph.files fileId with
  | none => core
  | some fn =>
    let symbols := fn.symbols.foldl (fun syms sid => adel syms sid) core.graph.symbols
    let files' := adel core.graph.files fileId
    let deps := core.graph.dependencies.filter
      (fun d => !(d.source == fileId) && !(d.target == fileId))
    { core with
      graph := ⟨files', symbols, deps⟩
      diagnostics := clearDiagnostics core.diagnostics (some filePath) }

/-- WorkspaceIndexService._handleFilesChanged (after initialization): the
added-or-modified loop (hash-gate then queue), then the removal loop,
which iterates the keys of graph.files — these are the prefixed file ids,
which it then checks against the path-keyed external map and passes to
_removeFileFromIndex as if they were plain paths. This is the per-entry
step of the added-or-modified loop. -/
def changedFileStep (core : IndexCore) (pd : String × Dirent) : IndexCore :=
  match pd.2 with
  | .file c =>
    if shouldIndexFile pd.1 then
      let contentHash := simpleHash c
      if !(aget core.fileHashes pd.1 == some contentHash) then
        queueFileForIndexing { core with fileHashes := aset core.fileHashes pd.1 contentHash }
          pd.1 (some c)
      else core
    else core
  | .folder => core

/-- Per-key step of the removal loop of _handleFilesChanged. -/
def removedKeyStep (files : FileMap) (core : IndexCore) (key : String) : IndexCore :=
  let isFile := match aget files key with
    | some (.file _) => true
    | _ => false
  if !(ahas files key) || !isFile then
    let core := removeFileFromIndex core key
    { core with fileHashes := adel core.fileHashes key }
  else core

/-- WorkspaceIndexService._handleFilesChanged, assembled from the two
loops. -/
def handleFilesChanged (files : FileMap) (core : IndexCore) : IndexCore :=
  let core := files.foldl changedFileStep core
  (core.graph.files.map Prod.fst).foldl (removedKeyStep files) core

/-- WorkspaceIndexService.reindexAll: reset the graph, hash cache and
queue, then re-run initializeWorkspace. The drain it triggers is a
separate step of each execution model. -/
def reindexAll (files : FileMap) (core : IndexCore) : IndexCore :=
  initializeWorkspace files
    { core with graph := emptyGraph, fileHashes := [], indexingQueue := [] }

/-! ## Graph well-formedness: the edge-uniqueness invariant

The dependency list never holds two edges with the same (source, target)
pair. The invariant is proved for every state reachable by the service
operations; it rests on the shape facts that import edges connect
`file:`-prefixed ids, extends edges connect `symbol:`-prefixed ids, and
that the `uses` wiring never fires because symbol names are single word
runs while its lookup key contains a colon. -/

theorem mem_aset {α : Type} {m : List (String × α)} {k : String} {v : α} {x : String × α}
    (h : x ∈ aset m k v) : x ∈ m ∨ x = (k, v) := by
  induction m with
  | nil =>
    simp only [aset] at h
    rcases List.mem_singleton.mp h with rfl
    exact Or.inr rfl
  | cons hd tl ih =>
    simp only [aset] at h
    by_cases hk : hd.1 == k
    · rw [if_pos hk] at h
      rcases List.mem_cons.mp h with rfl | h'
      · exact Or.inr rfl
      · exact Or.inl (List.mem_cons_of_mem _ h')
    · rw [if_neg hk] at h
      rcases List.mem_cons.mp h with rfl | h'
      · exact Or.inl (List.mem_cons_self _ _)
      · rcases ih h' with h'' | h''
        · exact Or.inl (List.mem_cons_of_mem _ h'')
        · exact Or.inr h''

theorem mem_adel {α : Type} {m : List (String × α)} {k : String} {x : String × α}
    (h : x ∈ adel m k) : x ∈ m := by
  induction m with
  | nil => simp [adel] at h
  | cons hd tl ih =>
    simp only [adel] at h
    by_cases hk : hd.1 == k
    · rw [if_pos hk] at h
      exact List.mem_cons_of_mem _ h
    · rw [if_neg hk] at h
      rcases List.mem_cons.mp h with rfl | h'
      · exact List.mem_cons_self _ _
      · exact List.mem_cons_of_mem _ (ih h')

theorem foldl_adel_subset {α : Type} (l : List String) (m : List (String × α))
    (x : String × α) (h : x ∈ l.foldl (fun s k => adel s k) m) : x ∈ m := by
  induction l generalizing m with
  | nil => exact h
  | cons hd tl ih =>
    rw [List.foldl_cons] at h
    exact mem_adel (ih _ h)

theorem foldl_graph_eq {α : Type} (f : IndexCore → α → IndexCore)
    (h : ∀ c a, (f c a).graph = c.graph) :
    ∀ (l : List α) (c : IndexCore), (l.foldl f c).graph = c.graph := by
  intro l
  induction l with
  | nil => intro c; rfl
  | cons a t ih => intro c; rw [List.foldl_cons, ih, h]

theorem foldl_preserve {α β : Type} (P : β → Prop) (f : β → α → β)
    (h : ∀ b a, P b → P (f b a)) :
    ∀ (l : List α) (b : β), P b → P (l.foldl f b) := by
  intro l
  induction l with
  | nil => intro b hb; exact hb
  | cons x t ih =>
    intro b hb
    rw [List.foldl_cons]
    exact ih _ (h b x hb)

theorem foldl_preserve_mem {α β : Type} (P : β → Prop) (Q : α → Prop) (f : β → α → β)
    (h : ∀ b a, Q a → P b → P (f b a)) :
    ∀ (l : List α), (∀ a ∈ l, Q a) → ∀ (b : β), P b → P (l.foldl f b) := by
  intro l
  induction l with
  | nil => intro _ b hb; exact hb
  | cons x t ih =>
    intro hl b hb
    rw [List.foldl_cons]
    exact ih (fun a ha => hl a (List.mem_cons_of_mem _ ha)) _
      (h b x (hl x (List.mem_cons_self _ _)) hb)

theorem strStartsWith_append_left (p s : String) : strStartsWith (p ++ s) p = true := by
  unfold strStartsWith
  rw [String.data_append]
  exact List.isPrefixOf_iff_prefix.mpr (List.prefix_append _ _)

theorem strStartsWith_append_extend (s t p : String) (h : strStartsWith s p = true) :
    strStartsWith (s ++ t) p = true := by
  unfold strStartsWith at h ⊢
  rw [String.data_append]
  rw [List.isPrefixOf_iff_prefix] at h ⊢
  exact h.trans (List.prefix_append _ _)

theorem not_file_and_symbol_prefix (s : String)
    (h1 : strStartsWith s "file:" = true) (h2 : strStartsWith s "symbol:" = true) :
    False := by
  unfold strStartsWith at h1 h2
  rw [List.isPrefixOf_iff_prefix] at h1 h2
  rcases h1 with ⟨t1, ht1⟩
  rcases h2 with ⟨t2, ht2⟩
  rw [← ht1] at ht2
  have hf : "file:".data = 'f' :: 'i' :: 'l' :: 'e' :: ':' :: [] := rfl
  have hs : "symbol:".data = 's' :: 'y' :: 'm' :: 'b' :: 'o' :: 'l' :: ':' :: [] := rfl
  rw [hf, hs] at ht2
  injection ht2 with hc _
  exact absurd hc (by decide)

theorem word_not_colon {w : List Char} (hw : ∀ ch ∈ w, jsIsWordChar ch = true) :
    ¬ (':' ∈ w) := by
  intro hc
  have := hw ':' hc
  exact absurd this (by decide)

theorem colon_mem_append_left (s t : String) (h : ':' ∈ s.data) : ':' ∈ (s ++ t).data := by
  rw [String.data_append]
  exact List.mem_append_left _ h

theorem enqueueIfAbsent_graph (core : IndexCore) (p : String) :
    (enqueueIfAbsent core p).graph = core.graph := by
  unfold enqueueIfAbsent
  split <;> rfl

theorem queueFileForIndexing_graph (core : IndexCore) (p : String) (c : Option String) :
    (queueFileForIndexing core p c).graph = core.graph := by
  unfold queueFileForIndexing
  split
  · rfl
  · split
    · split
      · exact enqueueIfAbsent_graph _ _
      · dsimp only
        split
        · rfl
        · exact enqueueIfAbsent_graph _ _
    · exact enqueueIfAbsent_graph _ _

theorem initializeWorkspace_graph (files : FileMap) (core : IndexCore) :
    (initializeWorkspace files core).graph = core.graph := by
  unfold initializeWorkspace
  apply foldl_graph_eq
  intro c pd
  rcases pd with ⟨path, d⟩
  cases d with
  | file ct =>
    dsimp only
    split
    · exact queueFileForIndexing_graph _ _ _
    · rfl
  | folder => rfl

theorem reindexAll_graph (files : FileMap) (core : IndexCore) :
    (reindexAll files core).graph = emptyGraph := by
  unfold reindexAll
  rw [initializeWorkspace_graph]

theorem detectDiagnostics_graph (p c : String) (core : IndexCore) :
    (detectDiagnostics p c core).graph = core.graph := by
  unfold detectDiagnostics
  dsimp only
  split <;> rfl

/-- Two dependency edges differ in source or target. -/
def DistinctST (a b : DependencyEdge) : Prop :=
  ¬(a.source = b.source ∧ a.target = b.target)

/-- Shape of every edge the pipeline creates: an import edge between
`file:`-prefixed ids or an extends edge between `symbol:`-prefixed ids. -/
def EdgeOK (e : DependencyEdge) : Prop :=
  (e.kind = "import" ∧ strStartsWith e.source "file:" = true
      ∧ strStartsWith e.target "file:" = true)
  ∨ (e.kind = "extends" ∧ strStartsWith e.source "symbol:" = true
      ∧ strStartsWith e.target "symbol:" = true)

/-- Shape of every symbol entry: a `symbol:`-prefixed key and a
colon-free name. -/
def SymOK (kv : String × SymbolNode) : Prop :=
  strStartsWith kv.1 "symbol:" = true ∧ ¬ (':' ∈ kv.2.name.data)

/-- The workspace-graph invariant: symbol shape, edge shape, and at most
one edge per (source, target) pair. -/
def GraphInv (g : WorkspaceGraph) : Prop :=
  (∀ kv ∈ g.symbols, SymOK kv) ∧ (∀ e ∈ g.dependencies, EdgeOK e)
    ∧ g.dependencies.Pairwise DistinctST

theorem GraphInv_empty : GraphInv emptyGraph := by
  refine ⟨?_, ?_, ?_⟩
  · intro kv hkv
    simp [emptyGraph] at hkv
  · intro e he
    simp [emptyGraph] at he
  · simp [emptyGraph]

theorem EdgeOK_weight {e : DependencyEdge} (h : EdgeOK e) (w : Nat) :
    EdgeOK { e with weight := w } := by
  rcases h with ⟨h1, h2, h3⟩ | ⟨h1, h2, h3⟩
  · exact Or.inl ⟨h1, h2, h3⟩
  · exact Or.inr ⟨h1, h2, h3⟩

theorem pairwise_set_same_st (l : List DependencyEdge) (i : Nat) (e e' : DependencyEdge)
    (hg : l.get? i = some e) (hs : e'.source = e.source) (ht : e'.target = e.target)
    (hp : l.Pairwise DistinctST) : (l.set i e').Pairwise DistinctST := by
  induction l generalizing i with
  | nil => simp
  | cons a tl ih =>
    rcases List.pairwise_cons.mp hp with ⟨ha, htl⟩
    cases i with
    | zero =>
      have hae : a = e := by simpa using hg
      subst hae
      rw [List.set_cons_zero]
      refine List.pairwise_cons.mpr ⟨?_, htl⟩
      intro b hb hcon
      exact ha b hb ⟨by rw [← hs]; exact hcon.1, by rw [← ht]; exact hcon.2⟩
    | succ n =>
      rw [List.set_cons_succ]
      refine List.pairwise_cons.mpr ⟨?_, ih n (by simpa using hg) htl⟩
      intro b hb
      rcases List.mem_or_eq_of_mem_set hb with hb' | rfl
      · exact ha b hb'
      · have he : e ∈ tl := List.get?_mem (by simpa using hg)
        intro hcon
        exact ha e he ⟨by rw [← hs]; exact hcon.1, by rw [← ht]; exact hcon.2⟩

theorem GraphInv_addImportEdgeCore (core : IndexCore) (s t : String)
    (hs : strStartsWith s "file:" = true) (ht : strStartsWith t "file:" = true)
    (hinv : GraphInv core.graph) : GraphInv (addImportEdgeCore core s t).graph := by
  obtain ⟨hsym, hedge, hpw⟩ := hinv
  unfold addImportEdgeCore
  split
  · rename_i i hfi
    split
    · rename_i e hge
      refine ⟨hsym, ?_, ?_⟩
      · intro x hx
        rcases List.mem_or_eq_of_mem_set hx with hx' | rfl
        · exact hedge x hx'
        · exact EdgeOK_weight (hedge e (List.get?_mem hge)) _
      · exact pairwise_set_same_st _ i e _ hge rfl rfl hpw
    · exact ⟨hsym, hedge, hpw⟩
  · rename_i hfi
    refine ⟨hsym, ?_, ?_⟩
    · intro x hx
      rcases List.mem_append.mp hx with hx' | hx'
      · exact hedge x hx'
      · rcases List.mem_singleton.mp hx' with rfl
        exact Or.inl ⟨rfl, hs, ht⟩
    · rw [List.pairwise_append]
      refine ⟨hpw, List.pairwise_singleton _ _, ?_⟩
      intro a ha b hb
      rcases List.mem_singleton.mp hb with rfl
      intro hcon
      have hfa := findIdxO_eq_none hfi a ha
      rw [hcon.1, hcon.2] at hfa
      simp at hfa

theorem GraphInv_addDependencyEdge_extends (g : WorkspaceGraph) (src tn : String)
    (hs : strStartsWith src "symbol:" = true)
    (hinv : GraphInv g) : GraphInv (addDependencyEdge g src tn "extends") := by
  obtain ⟨hsym, hedge, hpw⟩ := hinv
  unfold addDependencyEdge
  split
  · exact ⟨hsym, hedge, hpw⟩
  · rename_i kv hkv
    have hkvmem : kv ∈ g.symbols := List.mem_of_find?_eq_some hkv
    have htkv : strStartsWith kv.1 "symbol:" = true := (hsym kv hkvmem).1
    dsimp only
    split
    · rename_i i hfi
      split
      · rename_i e hge
        refine ⟨hsym, ?_, ?_⟩
        · intro x hx
          rcases List.mem_or_eq_of_mem_set hx with hx' | rfl
          · exact hedge x hx'
          · exact EdgeOK_weight (hedge e (List.get?_mem hge)) _
        · exact pairwise_set_same_st _ i e _ hge rfl rfl hpw
      · exact ⟨hsym, hedge, hpw⟩
    · rename_i hfi
      refine ⟨hsym, ?_, ?_⟩
      · intro x hx
        rcases List.mem_append.mp hx with hx' | hx'
        · exact hedge x hx'
        · rcases List.mem_singleton.mp hx' with rfl
          exact Or.inr ⟨rfl, hs, htkv⟩
      · rw [List.pairwise_append]
        refine ⟨hpw, List.pairwise_singleton _ _, ?_⟩
        intro a ha b hb
        rcases List.mem_singleton.mp hb with rfl
        intro hcon
        rcases hedge a ha with ⟨hk, hsrc, _⟩ | ⟨hk, hsrc, _⟩
        · exact not_file_and_symbol_prefix a.source hsrc (by rw [hcon.1]; exact hs)
        · have hfa := findIdxO_eq_none hfi a ha
          rw [hcon.1, hcon.2, hk] at hfa
          simp at hfa

theorem addDependencyEdge_noop (g : WorkspaceGraph) (src tn kind : String)
    (hsym : ∀ kv ∈ g.symbols, SymOK kv) (htn : ':' ∈ tn.data) :
    addDependencyEdge g src tn kind = g := by
  unfold addDependencyEdge
  have hfind : g.symbols.find? (fun kv => kv.2.name == tn) = none := by
    rw [List.find?_eq_none]
    intro kv hkv hb
    have heq : kv.2.name = tn := eq_of_beq hb
    have hcf := (hsym kv hkv).2
    rw [heq] at hcf
    exact hcf htn
  rw [hfind]

theorem GraphInv_aset_symbol (g : WorkspaceGraph) (k : String) (node : SymbolNode)
    (hk : strStartsWith k "symbol:" = true) (hn : ¬ (':' ∈ node.name.data))
    (hinv : GraphInv g) : GraphInv { g with symbols := aset g.symbols k node } := by
  obtain ⟨hsym, hedge, hpw⟩ := hinv
  refine ⟨?_, hedge, hpw⟩
  intro kv hkv
  rcases mem_aset hkv with hold | rfl
  · exact hsym kv hold
  · exact ⟨hk, hn⟩

theorem takeWord1_wordChars {l w r : List Char} (h : takeWord1 l = some (w, r)) :
    ∀ ch ∈ w, jsIsWordChar ch = true := by
  unfold takeWord1 at h
  dsimp only at h
  split at h
  · exact Option.noConfusion h
  · simp only [Option.some.injEq, Prod.mk.injEq] at h
    obtain ⟨h1, _⟩ := h
    subst h1
    intro ch hch
    exact List.mem_takeWhile_imp hch

theorem matchClassLike_name {kw : List Char} {prev : Option Char} {l : List Char}
    {name : List Char} {ext : Option (List Char)} {len : Nat}
    (h : matchClassLike kw prev l = some ((name, ext), len)) :
    ∀ ch ∈ name, jsIsWordChar ch = true := by
  unfold matchClassLike at h
  split at h
  · exact Option.noConfusion h
  · split at h
    · exact Option.noConfusion h
    · split at h
      · exact Option.noConfusion h
      · rename_i w r3 hw
        split at h <;>
        · simp only [Option.some.injEq, Prod.mk.injEq] at h
          obtain ⟨⟨h1, _⟩, _⟩ := h
          subst h1
          exact takeWord1_wordChars hw

theorem matchFunctionDecl_name {prev : Option Char} {l : List Char}
    {name : List Char} {len : Nat}
    (h : matchFunctionDecl prev l = some (name, len)) :
    ∀ ch ∈ name, jsIsWordChar ch = true := by
  unfold matchFunctionDecl at h
  split at h
  · exact Option.noConfusion h
  · split at h
    · exact Option.noConfusion h
    · split at h
      · exact Option.noConfusion h
      · rename_i w r3 hw
        simp only [Option.some.injEq, Prod.mk.injEq] at h
        obtain ⟨h1, _⟩ := h
        subst h1
        exact takeWord1_wordChars hw

theorem matchUseState_state {prev : Option Char} {l : List Char}
    {st setter : List Char} {len : Nat}
    (h : matchUseState prev l = some ((st, setter), len)) :
    ∀ ch ∈ st, jsIsWordChar ch = true := by
  unfold matchUseState at h
  split at h
  · exact Option.noConfusion h
  · split at h
    · exact Option.noConfusion h
    · split at h
      · exact Option.noConfusion h
      · split at h
        · exact Option.noConfusion h
        · rename_i w r4 hw
          split at h
          · exact Option.noConfusion h
          · split at h
            · exact Option.noConfusion h
            · split at h
              · exact Option.noConfusion h
              · split at h
                · exact Option.noConfusion h
                · split at h
                  · exact Option.noConfusion h
                  · split at h
                    · exact Option.noConfusion h
                    · simp only [Option.some.injEq, Prod.mk.injEq] at h
                      obtain ⟨⟨h1, _⟩, _⟩ := h
                      subst h1
                      exact takeWord1_wordChars hw

/-- Word-character property of an optional captured name. -/
def OptWordChars : Option (List Char) → Prop
  | none => True
  | some w => ∀ ch ∈ w, jsIsWordChar ch = true

theorem importAlt1_default {l r1 : List Char} {ni di : Option (List Char)}
    {path : List Char} {len : Nat}
    (h : importAlt1 l r1 = some ((ni, di, path), len)) : OptWordChars di := by
  unfold importAlt1 at h
  dsimp only at h
  split at h
  · exact Option.noConfusion h
  · split at h
    · exact Option.noConfusion h
    · split at h
      · exact Option.noConfusion h
      · split at h
        · exact Option.noConfusion h
        · split at h
          · exact Option.noConfusion h
          · split at h
            · exact Option.noConfusion h
            · split at h
              · exact Option.noConfusion h
              · simp only [Option.some.injEq, Prod.mk.injEq] at h
                obtain ⟨⟨_, h2, _⟩, _⟩ := h
                subst h2
                trivial

theorem importAlt2_default {l r1 : List Char} {ni di : Option (List Char)}
    {path : List Char} {len : Nat}
    (h : importAlt2 l r1 = some ((ni, di, path), len)) : OptWordChars di := by
  unfold importAlt2 at h
  split at h
  · exact Option.noConfusion h
  · rename_i w r2 hw
    split at h
    · exact Option.noConfusion h
    · split at h
      · exact Option.noConfusion h
      · split at h
        · exact Option.noConfusion h
        · split at h
          · exact Option.noConfusion h
          · simp only [Option.some.injEq, Prod.mk.injEq] at h
            obtain ⟨⟨_, h2, _⟩, _⟩ := h
            subst h2
            intro ch hch
            exact takeWord1_wordChars hw ch hch

theorem importAlt3_default {l r1 : List Char} {ni di : Option (List Char)}
    {path : List Char} {len : Nat}
    (h : importAlt3 l r1 = some ((ni, di, path), len)) : OptWordChars di := by
  unfold importAlt3 at h
  split at h
  · exact Option.noConfusion h
  · split at h
    · exact Option.noConfusion h
    · split at h
      · exact Option.noConfusion h
      · split at h
        · exact Option.noConfusion h
        · split at h
          · exact Option.noConfusion h
          · split at h
            · exact Option.noConfusion h
            · split at h
              · exact Option.noConfusion h
              · split at h
                · exact Option.noConfusion h
                · split at h
                  · exact Option.noConfusion h
                  · simp only [Option.some.injEq, Prod.mk.injEq] at h
                    obtain ⟨⟨_, h2, _⟩, _⟩ := h
                    subst h2
                    trivial

theorem importAlt4_default {l r1 : List Char} {ni di : Option (List Char)}
    {path : List Char} {len : Nat}
    (h : importAlt4 l r1 = some ((ni, di, path), len)) : OptWordChars di := by
  unfold importAlt4 at h
  dsimp only at h
  split at h
  · split at h
    · simp only [Option.some.injEq, Prod.mk.injEq] at h
      obtain ⟨⟨_, h2, _⟩, _⟩ := h
      subst h2
      trivial
    · exact Option.noConfusion h
  · exact Option.noConfusion h

theorem matchImportClause_default {prev : Option Char} {l : List Char}
    {ni di : Option (List Char)} {path : List Char} {len : Nat}
    (h : matchImportClause prev l = some ((ni, di, path), len)) : OptWordChars di := by
  unfold matchImportClause at h
  split at h
  · exact Option.noConfusion h
  · split at h
    · exact Option.noConfusion h
    · split at h
      · rename_i res h1
        cases h
        exact importAlt1_default h1
      · split at h
        · rename_i res h2
          cases h
          exact importAlt2_default h2
        · split at h
          · rename_i res h3
            cases h
            exact importAlt3_default h3
          · exact importAlt4_default h

theorem jsScanB_payload {α : Type} (P : α → Prop)
    (f : Option Char → List Char → Option (α × Nat))
    (hf : ∀ prev l a len, f prev l = some (a, len) → P a) :
    ∀ (fuel : Nat) (prev : Option Char) (i : Nat) (l : List Char),
      ∀ x ∈ jsScanB f fuel prev i l, P x.1 := by
  intro fuel
  induction fuel with
  | zero =>
    intro prev i l x hx
    simp [jsScanB] at hx
  | succ n ih =>
    intro prev i l x hx
    cases l with
    | nil => simp [jsScanB] at hx
    | cons c rest =>
      rw [jsScanB] at hx
      cases hfx : f prev (c :: rest) with
      | none =>
        rw [hfx] at hx
        exact ih _ _ _ x hx
      | some al =>
        obtain ⟨a, len⟩ := al
        rw [hfx] at hx
        rcases List.mem_cons.mp hx with rfl | hx'
        · exact hf prev (c :: rest) a len hfx
        · exact ih _ _ _ x hx'

theorem jsScanAll_payload {α : Type} (P : α → Prop)
    (f : Option Char → List Char → Option (α × Nat))
    (hf : ∀ prev l a len, f prev l = some (a, len) → P a)
    (content : List Char) : ∀ x ∈ jsScanAll f content, P x.1 := by
  intro x hx
  exact jsScanB_payload P f hf _ _ _ _ x hx

theorem GraphInv_classPassStep (p c : String) (acc : IndexCore × List String)
    (m : (List Char × Option (List Char)) × Nat)
    (hm : ∀ ch ∈ m.1.1, jsIsWordChar ch = true)
    (hinv : GraphInv acc.1.graph) : GraphInv (classPassStep p c acc m).1.graph := by
  unfold classPassStep
  dsimp only
  have hpre : strStartsWith ("symbol:" ++ p ++ ":" ++ String.mk m.1.1) "symbol:" = true :=
    strStartsWith_append_extend _ _ _
      (strStartsWith_append_extend _ _ _ (strStartsWith_append_left _ _))
  have hn : ¬ (':' ∈ m.1.1) := word_not_colon hm
  split
  · exact GraphInv_addDependencyEdge_extends _ _ _ hpre
      (GraphInv_aset_symbol _ _ _ hpre hn hinv)
  · exact GraphInv_aset_symbol _ _ _ hpre hn hinv

theorem GraphInv_interfacePassStep (p c : String) (acc : IndexCore × List String)
    (m : (List Char × Option (List Char)) × Nat)
    (hm : ∀ ch ∈ m.1.1, jsIsWordChar ch = true)
    (hinv : GraphInv acc.1.graph) : GraphInv (interfacePassStep p c acc m).1.graph := by
  unfold interfacePassStep
  dsimp only
  have hpre : strStartsWith ("symbol:" ++ p ++ ":" ++ String.mk m.1.1) "symbol:" = true :=
    strStartsWith_append_extend _ _ _
      (strStartsWith_append_extend _ _ _ (strStartsWith_append_left _ _))
  exact GraphInv_aset_symbol _ _ _ hpre (word_not_colon hm) hinv

theorem GraphInv_functionPassStep (p c : String) (acc : IndexCore × List String)
    (m : List Char × Nat)
    (hm : ∀ ch ∈ m.1, jsIsWordChar ch = true)
    (hinv : GraphInv acc.1.graph) : GraphInv (functionPassStep p c acc m).1.graph := by
  unfold functionPassStep
  dsimp only
  have hpre : strStartsWith ("symbol:" ++ p ++ ":" ++ String.mk m.1) "symbol:" = true :=
    strStartsWith_append_extend _ _ _
      (strStartsWith_append_extend _ _ _ (strStartsWith_append_left _ _))
  split
  · exact hinv
  · exact GraphInv_aset_symbol _ _ _ hpre (word_not_colon hm) hinv

theorem GraphInv_useStatePassStep (p c : String) (acc : IndexCore × List String)
    (m : (List Char × List Char) × Nat)
    (hm : ∀ ch ∈ m.1.1, jsIsWordChar ch = true)
    (hinv : GraphInv acc.1.graph) : GraphInv (useStatePassStep p c acc m).1.graph := by
  unfold useStatePassStep
  dsimp only
  have hpre : strStartsWith ("symbol:" ++ p ++ ":" ++ String.mk m.1.1) "symbol:" = true :=
    strStartsWith_append_extend _ _ _
      (strStartsWith_append_extend _ _ _ (strStartsWith_append_left _ _))
  exact GraphInv_aset_symbol _ _ _ hpre (word_not_colon hm) hinv

theorem upper_is_word {c : Char} (h : (65 ≤ c.toNat && c.toNat ≤ 90) = true) :
    jsIsWordChar c = true := by
  unfold jsIsWordChar
  rw [h]
  simp

theorem matchFuncComponent_name {prev : Option Char} {l : List Char}
    {name : List Char} {len : Nat}
    (h : matchFuncComponent prev l = some (name, len)) :
    ∀ ch ∈ name, jsIsWordChar ch = true := by
  unfold matchFuncComponent at h
  split at h
  · exact Option.noConfusion h
  · split at h
    · exact Option.noConfusion h
    · split at h
      · rename_i c r3
        split at h
        · rename_i hup
          split at h
          · exact Option.noConfusion h
          · rename_i w r4 hw
            split at h
            · exact Option.noConfusion h
            · simp only [Option.some.injEq, Prod.mk.injEq] at h
              obtain ⟨h1, _⟩ := h
              subst h1
              intro ch hch
              rcases List.mem_cons.mp hch with rfl | hch'
              · exact upper_is_word hup
              · exact takeWord1_wordChars hw ch hch'
        · exact Option.noConfusion h
      · exact Option.noConfusion h

theorem matchArrowComponent_name {prev : Option Char} {l : List Char}
    {name : List Char} {len : Nat}
    (h : matchArrowComponent prev l = some (name, len)) :
    ∀ ch ∈ name, jsIsWordChar ch = true := by
  unfold matchArrowComponent at h
  split at h
  · exact Option.noConfusion h
  · split at h
    · exact Option.noConfusion h
    · split at h
      · rename_i c r3
        split at h
        · rename_i hup
          split at h
          · exact Option.noConfusion h
          · rename_i w r4 hw
            split at h
            · exact Option.noConfusion h
            · split at h
              · split at h
                · exact Option.noConfusion h
                · simp only [Option.some.injEq, Prod.mk.injEq] at h
                  obtain ⟨h1, _⟩ := h
                  subst h1
                  intro ch hch
                  rcases List.mem_cons.mp hch with rfl | hch'
                  · exact upper_is_word hup
                  · exact takeWord1_wordChars hw ch hch'
              · split at h
                · exact Option.noConfusion h
                · split at h
                  · exact Option.noConfusion h
                  · simp only [Option.some.injEq, Prod.mk.injEq] at h
                    obtain ⟨h1, _⟩ := h
                    subst h1
                    intro ch hch
                    rcases List.mem_cons.mp hch with rfl | hch'
                    · exact upper_is_word hup
                    · exact takeWord1_wordChars hw ch hch'
        · exact Option.noConfusion h
      · exact Option.noConfusion h

theorem GraphInv_funcComponentStep (p c : String) (acc : IndexCore × List String)
    (m : List Char × Nat) (hm : ∀ ch ∈ m.1, jsIsWordChar ch = true)
    (hinv : GraphInv acc.1.graph) : GraphInv (funcComponentStep p c acc m).1.graph := by
  unfold funcComponentStep
  dsimp only
  have hpre : strStartsWith ("symbol:" ++ p ++ ":" ++ String.mk m.1) "symbol:" = true :=
    strStartsWith_append_extend _ _ _
      (strStartsWith_append_extend _ _ _ (strStartsWith_append_left _ _))
  exact GraphInv_aset_symbol _ _ _ hpre (word_not_colon hm) hinv

theorem GraphInv_arrowComponentStep (p c : String) (acc : IndexCore × List String)
    (m : List Char × Nat) (hm : ∀ ch ∈ m.1, jsIsWordChar ch = true)
    (hinv : GraphInv acc.1.graph) : GraphInv (arrowComponentStep p c acc m).1.graph := by
  unfold arrowComponentStep
  dsimp only
  have hpre : strStartsWith ("symbol:" ++ p ++ ":" ++ String.mk m.1) "symbol:" = true :=
    strStartsWith_append_extend _ _ _
      (strStartsWith_append_extend _ _ _ (strStartsWith_append_left _ _))
  exact GraphInv_aset_symbol _ _ _ hpre (word_not_colon hm) hinv

theorem GraphInv_detectJsxComponentSymbols (p c : String) (core : IndexCore)
    (detected : List String) (hinv : GraphInv core.graph) :
    GraphInv (detectJsxComponentSymbols p c core detected).1.graph := by
  unfold detectJsxComponentSymbols
  dsimp only
  refine foldl_preserve_mem (fun a : IndexCore × List String => GraphInv a.1.graph)
    (fun m : List Char × Nat => ∀ ch ∈ m.1, jsIsWordChar ch = true)
    (arrowComponentStep p c) (GraphInv_arrowComponentStep p c) _
    (jsScanAll_payload (fun pay : List Char => ∀ ch ∈ pay, jsIsWordChar ch = true)
      matchArrowComponent (fun prev l a len h => matchArrowComponent_name h) c.data) _
    (foldl_preserve_mem (fun a : IndexCore × List String => GraphInv a.1.graph)
      (fun m : List Char × Nat => ∀ ch ∈ m.1, jsIsWordChar ch = true)
      (funcComponentStep p c) (GraphInv_funcComponentStep p c) _
      (jsScanAll_payload (fun pay : List Char => ∀ ch ∈ pay, jsIsWordChar ch = true)
        matchFuncComponent (fun prev l a len h => matchFuncComponent_name h) c.data) _ hinv)

theorem GraphInv_detectSymbols (p c : String) (core : IndexCore)
    (hinv : GraphInv core.graph) : GraphInv (detectSymbols p c core).graph := by
  unfold detectSymbols
  dsimp only
  have key : ∀ acc : IndexCore × List String, GraphInv acc.1.graph →
      GraphInv ((jsScanAll matchUseState c.data).foldl (useStatePassStep p c)
        ((jsScanAll matchFunctionDecl c.data).foldl (functionPassStep p c)
          ((jsScanAll (matchClassLike "interface".data) c.data).foldl (interfacePassStep p c)
            ((jsScanAll (matchClassLike "class".data) c.data).foldl (classPassStep p c)
              acc)))).1.graph := by
    intro acc hacc
    refine foldl_preserve_mem (fun a : IndexCore × List String => GraphInv a.1.graph)
      (fun m : (List Char × List Char) × Nat => ∀ ch ∈ m.1.1, jsIsWordChar ch = true)
      (useStatePassStep p c) (GraphInv_useStatePassStep p c) _
      (jsScanAll_payload (fun pay : List Char × List Char => ∀ ch ∈ pay.1, jsIsWordChar ch = true)
        matchUseState (fun prev l a len h => by
          obtain ⟨st, setter⟩ := a
          exact matchUseState_state h) c.data) _
      (foldl_preserve_mem (fun a : IndexCore × List String => GraphInv a.1.graph)
        (fun m : List Char × Nat => ∀ ch ∈ m.1, jsIsWordChar ch = true)
        (functionPassStep p c) (GraphInv_functionPassStep p c) _
        (jsScanAll_payload (fun pay : List Char => ∀ ch ∈ pay, jsIsWordChar ch = true)
          matchFunctionDecl (fun prev l a len h => matchFunctionDecl_name h) c.data) _
        (foldl_preserve_mem (fun a : IndexCore × List String => GraphInv a.1.graph)
          (fun m : (List Char × Option (List Char)) × Nat =>
            ∀ ch ∈ m.1.1, jsIsWordChar ch = true)
          (interfacePassStep p c) (GraphInv_interfacePassStep p c) _
          (jsScanAll_payload
            (fun pay : List Char × Option (List Char) => ∀ ch ∈ pay.1, jsIsWordChar ch = true)
            (matchClassLike "interface".data) (fun prev l a len h => by
              obtain ⟨nm, ext⟩ := a
              exact matchClassLike_name h) c.data) _
          (foldl_preserve_mem (fun a : IndexCore × List String => GraphInv a.1.graph)
            (fun m : (List Char × Option (List Char)) × Nat =>
              ∀ ch ∈ m.1.1, jsIsWordChar ch = true)
            (classPassStep p c) (GraphInv_classPassStep p c) _
            (jsScanAll_payload
              (fun pay : List Char × Option (List Char) => ∀ ch ∈ pay.1, jsIsWordChar ch = true)
              (matchClassLike "class".data) (fun prev l a len h => by
                obtain ⟨nm, ext⟩ := a
                exact matchClassLike_name h) c.data) _ hacc)))
  have h0 : GraphInv (if strEndsWith p ".jsx" || strEndsWith p ".tsx" then
      detectJsxComponentSymbols p c (core, ([] : List String)).1 (core, ([] : List String)).2
    else (core, ([] : List String))).1.graph := by
    split
    · exact GraphInv_detectJsxComponentSymbols p c _ _ hinv
    · exact hinv
  split
  · exact key _ h0
  · exact key _ h0

theorem usesStep_eq (tsid : String) (core : IndexCore) (s : String)
    (hsym : ∀ kv ∈ core.graph.symbols, SymOK kv) (htn : ':' ∈ tsid.data) :
    usesStep tsid core s = core := by
  unfold usesStep
  rw [addDependencyEdge_noop _ _ _ _ hsym htn]

theorem foldl_usesStep_eq (tsid : String) (l : List String) (core : IndexCore)
    (hsym : ∀ kv ∈ core.graph.symbols, SymOK kv) (htn : ':' ∈ tsid.data) :
    l.foldl (usesStep tsid) core = core := by
  induction l with
  | nil => rfl
  | cons a t ih => rw [List.foldl_cons, usesStep_eq tsid core a hsym htn, ih]

theorem namedImportStep_eq (r fid : String) (core : IndexCore) (imp : List Char)
    (hsym : ∀ kv ∈ core.graph.symbols, SymOK kv) :
    namedImportStep r fid core imp = core := by
  have hcolon : ':' ∈ ("symbol:" ++ r ++ ":" ++ String.mk imp).data :=
    colon_mem_append_left _ _ (colon_mem_append_left _ _
      (colon_mem_append_left _ _ (by decide)))
  unfold namedImportStep
  dsimp only
  split
  · split
    · split
      · exact foldl_usesStep_eq _ _ _ hsym hcolon
      · rfl
    · rfl
  · rfl

theorem foldl_namedImportStep_eq (r fid : String) (l : List (List Char)) (core : IndexCore)
    (hsym : ∀ kv ∈ core.graph.symbols, SymOK kv) :
    l.foldl (namedImportStep r fid) core = core := by
  induction l with
  | nil => rfl
  | cons a t ih => rw [List.foldl_cons, namedImportStep_eq r fid core a hsym, ih]

theorem namedImportsWiring_eq (r fid : String) (ni : Option (List Char)) (core : IndexCore)
    (hsym : ∀ kv ∈ core.graph.symbols, SymOK kv) :
    namedImportsWiring r fid ni core = core := by
  unfold namedImportsWiring
  split
  · exact foldl_namedImportStep_eq _ _ _ _ hsym
  · rfl

theorem GraphInv_defaultImportSymbol (r : String) (di : Option (List Char))
    (core : IndexCore) (hdi : OptWordChars di) (hinv : GraphInv core.graph) :
    GraphInv (defaultImportSymbol r di core).graph := by
  unfold defaultImportSymbol
  split
  · dsimp only
    split
    · exact hinv
    · refine GraphInv_aset_symbol _ _ _
        (strStartsWith_append_extend _ _ _ (strStartsWith_append_left _ _)) ?_ hinv
      exact word_not_colon hdi
  · exact hinv

theorem GraphInv_externalImportStep (fid ip : String) (core : IndexCore)
    (hfid : strStartsWith fid "file:" = true) (hinv : GraphInv core.graph) :
    GraphInv (externalImportStep fid ip core).graph := by
  unfold externalImportStep
  dsimp only
  refine GraphInv_addImportEdgeCore _ _ _ hfid (strStartsWith_append_left _ _) ?_
  split
  · exact hinv
  · exact hinv

theorem GraphInv_resolvedImportStep (fid r : String) (ni di : Option (List Char))
    (core : IndexCore) (hfid : strStartsWith fid "file:" = true)
    (hdi : OptWordChars di) (hinv : GraphInv core.graph) :
    GraphInv (resolvedImportStep fid r ni di core).graph := by
  unfold resolvedImportStep
  dsimp only
  have h1 : GraphInv (addImportEdgeCore core fid ("file:" ++ r)).graph :=
    GraphInv_addImportEdgeCore core fid _ hfid (strStartsWith_append_left _ _) hinv
  rw [namedImportsWiring_eq r fid ni _ h1.1]
  have h2 := GraphInv_defaultImportSymbol r di _ hdi h1
  split
  · exact h2
  · rw [queueFileForIndexing_graph]
    exact h2

theorem GraphInv_importMatchStep (files : FileMap) (p : String) (core : IndexCore)
    (m : (Option (List Char) × Option (List Char) × List Char) × Nat)
    (hm : OptWordChars m.1.2.1) (hinv : GraphInv core.graph) :
    GraphInv (importMatchStep files p core m).graph := by
  unfold importMatchStep
  dsimp only
  split
  · exact GraphInv_externalImportStep _ _ _ (strStartsWith_append_left _ _) hinv
  · exact GraphInv_resolvedImportStep _ _ _ _ _ (strStartsWith_append_left _ _) hm hinv

theorem GraphInv_analyzeImports (p c : String) (files : FileMap) (core : IndexCore)
    (hinv : GraphInv core.graph) : GraphInv (analyzeImports p c files core).graph := by
  unfold analyzeImports
  refine foldl_preserve_mem (fun cr : IndexCore => GraphInv cr.graph)
    (fun m : (Option (List Char) × Option (List Char) × List Char) × Nat =>
      OptWordChars m.1.2.1)
    (importMatchStep files p) (GraphInv_importMatchStep files p) _
    (jsScanAll_payload
      (fun pay : Option (List Char) × Option (List Char) × List Char => OptWordChars pay.2.1)
      matchImportClause (fun prev l a len h => by
        obtain ⟨ni, di, path⟩ := a
        exact matchImportClause_default h) c.data) _ hinv

theorem GraphInv_analyzeFileContent (p c : String) (files : FileMap) (core : IndexCore)
    (hinv : GraphInv core.graph) : GraphInv (analyzeFileContent p c files core).graph := by
  unfold analyzeFileContent
  dsimp only
  apply GraphInv_analyzeImports
  rw [detectDiagnostics_graph]
  exact GraphInv_detectSymbols p c _ hinv

theorem GraphInv_indexFile (core : IndexCore) (files : FileMap) (p : String)
    (hinv : GraphInv core.graph) : GraphInv (indexFile core files p).graph := by
  unfold indexFile
  split
  · exact GraphInv_analyzeFileContent _ _ _ _ hinv
  · exact hinv

theorem GraphInv_removeFileFromIndex (core : IndexCore) (p : String)
    (hinv : GraphInv core.graph) : GraphInv (removeFileFromIndex core p).graph := by
  obtain ⟨hsym, hedge, hpw⟩ := hinv
  unfold removeFileFromIndex
  dsimp only
  split
  · exact ⟨hsym, hedge, hpw⟩
  · refine ⟨?_, ?_, ?_⟩
    · intro kv hkv
      exact hsym kv (foldl_adel_subset _ _ _ hkv)
    · intro e he
      exact hedge e (List.mem_of_mem_filter he)
    · exact List.Pairwise.sublist (List.filter_sublist _) hpw

theorem GraphInv_handleFilesChanged (files : FileMap) (core : IndexCore)
    (hinv : GraphInv core.graph) : GraphInv (handleFilesChanged files core).graph := by
  unfold handleFilesChanged
  dsimp only
  refine foldl_preserve (fun cr : IndexCore => GraphInv cr.graph) (removedKeyStep files)
    ?_ _ _
    (foldl_preserve (fun cr : IndexCore => GraphInv cr.graph) changedFileStep ?_ _ _ hinv)
  · intro cr key hcr
    unfold removedKeyStep
    dsimp only
    split
    · exact GraphInv_removeFileFromIndex cr key hcr
    · exact hcr
  · intro cr pd hcr
    unfold changedFileStep
    rcases pd with ⟨path, d⟩
    cases d with
    | file ct =>
      dsimp only
      split
      · split
        · rw [queueFileForIndexing_graph]
          exact hcr
        · exact hcr
      · exact hcr
    | folder => exact hcr

/-! ## Execution machine of the service

States pair the service state with the external file map and the local
`version` constant captured by an in-flight `_processIndexQueue` frame
(`none` when no frame sits in the while loop). Steps are the service
entry points, the drain-entry guard (which early-returns while
`_isIndexing` is set or the queue is empty), one while-loop iteration
(whose condition requires the captured version to equal the current one),
and the loop exit; JavaScript runs the pieces between awaits atomically,
which is exactly the granularity of these steps. -/

structure MachineState where
  svc : IndexServiceState
  files : FileMap
  frame : Option Nat
deriving DecidableEq, Repr

/-- One atomic step of the service. -/
inductive MStep : MachineState → MachineState → Prop where
  | queueFile (m : MachineState) (p : String) (c : Option String) :
      MStep m ⟨⟨queueFileForIndexing m.svc.core p c, m.svc.isIndexing, m.svc.indexVersion⟩,
        m.files, m.frame⟩
  | filesChanged (m : MachineState) :
      MStep m ⟨⟨handleFilesChanged m.files m.svc.core, m.svc.isIndexing, m.svc.indexVersion⟩,
        m.files, m.frame⟩
  | reindex (m : MachineState) :
      MStep m ⟨⟨reindexAll m.files m.svc.core, m.svc.isIndexing, m.svc.indexVersion⟩,
        m.files, m.frame⟩
  | setFiles (m : MachineState) (f : FileMap) :
      MStep m ⟨m.svc, f, m.frame⟩
  | enterDrain (m : MachineState) (h1 : m.svc.isIndexing = false)
      (h2 : m.svc.core.indexingQueue ≠ []) (h3 : m.frame = none) :
      MStep m ⟨⟨m.svc.core, true, m.svc.indexVersion + 1⟩, m.files,
        some (m.svc.indexVersion + 1)⟩
  | drainStep (m : MachineState) (v : Nat) (p : String) (rest : List String)
      (h1 : m.frame = some v) (h2 : v = m.svc.indexVersion)
      (h3 : m.svc.core.indexingQueue = p :: rest) :
      MStep m ⟨⟨indexFile { m.svc.core with indexingQueue := rest } m.files p,
        m.svc.isIndexing, m.svc.indexVersion⟩, m.files, m.frame⟩
  | drainExit (m : MachineState) (v : Nat) (h1 : m.frame = some v)
      (h2 : m.svc.core.indexingQueue = [] ∨ v ≠ m.svc.indexVersion) :
      MStep m ⟨⟨m.svc.core, false, m.svc.indexVersion⟩, m.files, none⟩

/-- States reachable from service construction (empty core, not indexing,
version 0) under any external file map. -/
inductive MReachable : MachineState → Prop where
  | init (files : FileMap) : MReachable ⟨⟨initialCore, false, 0⟩, files, none⟩
  | step (m m' : MachineState) (h : MReachable m) (hs : MStep m m') : MReachable m'

theorem frameVersion_reachable (m : MachineState) (h : MReachable m) :
    ∀ v : Nat, m.frame = some v → v = m.svc.indexVersion := by
  induction h with
  | init files =>
    intro v hv
    exact Option.noConfusion hv
  | step m m' hr hs ih =>
    cases hs with
    | queueFile p c => exact ih
    | filesChanged => exact ih
    | reindex => exact ih
    | setFiles f => exact ih
    | enterDrain h1 h2 h3 =>
      intro v hv
      injection hv with h
      exact h.symm
    | drainStep v p rest h1 h2 h3 => exact ih
    | drainExit v h1 h2 =>
      intro w hw
      exact Option.noConfusion hw

theorem GraphInv_reachable (m : MachineState) (h : MReachable m) :
    GraphInv m.svc.core.graph := by
  induction h with
  | init files => exact GraphInv_empty
  | step m m' hr hs ih =>
    cases hs with
    | queueFile p c =>
      show GraphInv (queueFileForIndexing m.svc.core p c).graph
      rw [queueFileForIndexing_graph]
      exact ih
    | filesChanged => exact GraphInv_handleFilesChanged _ _ ih
    | reindex =>
      show GraphInv (reindexAll m.files m.svc.core).graph
      rw [reindexAll_graph]
      exact GraphInv_empty
    | setFiles f => exact ih
    | enterDrain h1 h2 h3 => exact ih
    | drainStep v p rest h1 h2 h3 => exact GraphInv_indexFile _ _ _ ih
    | drainExit v h1 h2 => exact ih

/-- C1 (code bug): on every reachable state of the service machine, the
version captured by an in-flight _processIndexQueue frame equals the
current _indexVersion. Only a fresh _processIndexQueue entry bumps the
counter, and that entry early-returns while _isIndexing is set; reindexAll
clears the graph, caches and queue but leaves the counter untouched. So
the version-mismatch exit of the drain loop never fires, and starting a
new drain (in particular via reindexAll) cannot invalidate an in-flight
drain as the specification describes. -/
theorem C1_version_mismatch_unreachable (m : MachineState) (h : MReachable m)
    (v : Nat) (hf : m.frame = some v) : v = m.svc.indexVersion :=
  frameVersion_reachable m h v hf

/-- A reachable state with an in-flight drain frame: one file queued, then
the drain entered. -/
def c1Demo : MachineState :=
  ⟨⟨queueFileForIndexing initialCore "a.ts" (some "const x = 1;"), true, 1⟩,
    [("a.ts", Dirent.file "const x = 1;")], some 1⟩

/-- Witness for C1 at the concrete in-flight state. -/
theorem C1_version_mismatch_unreachable_witness :
    c1Demo.frame = some 1 ∧ (1 : Nat) = c1Demo.svc.indexVersion := by
  refine ⟨rfl, ?_⟩
  exact C1_version_mismatch_unreachable c1Demo
    (MReachable.step _ _
      (MReachable.step _ _ (MReachable.init [("a.ts", Dirent.file "const x = 1;")])
        (MStep.queueFile _ "a.ts" (some "const x = 1;")))
      (MStep.enterDrain _ rfl (by decide) rfl))
    1 rfl

/-- Content importing the same module twice. -/
def c3Content : String :=
  "import \x7b b \x7d from \x27./b\x27;\nimport \x7b c \x7d from \x27./b\x27;"

/-- File map whose single file imports ./b twice. -/
def c3Files : FileMap := [("a.ts", Dirent.file c3Content)]

/-- The machine state after queueing and indexing the double-import file. -/
def c3Demo : MachineState :=
  ⟨⟨indexFile { queueFileForIndexing initialCore "a.ts" (some c3Content) with
      indexingQueue := [] } c3Files "a.ts", true, 1⟩, c3Files, some 1⟩

/-- C3: on every reachable state of the service machine the dependency
list holds at most one edge per (source, target) pair, and indexing a
file that imports the same module twice yields exactly one import edge of
weight 2. -/
theorem C3_edge_uniqueness (m : MachineState) (h : MReachable m) :
    m.svc.core.graph.dependencies.Pairwise DistinctST
    ∧ (indexWorkspace c3Files).graph.dependencies
      = [⟨"file:a.ts", "file:/./b.jsx", "import", 2⟩] :=
  ⟨(GraphInv_reachable m h).2.2, by decide⟩

/-- Witness for C3 at the concrete post-indexing machine state. -/
theorem C3_edge_uniqueness_witness :
    c3Demo.svc.core.graph.dependencies.Pairwise DistinctST
    ∧ (indexWorkspace c3Files).graph.dependencies
      = [⟨"file:a.ts", "file:/./b.jsx", "import", 2⟩] :=
  C3_edge_uniqueness c3Demo
    (MReachable.step _ _
      (MReachable.step _ _
        (MReachable.step _ _ (MReachable.init c3Files)
          (MStep.queueFile _ "a.ts" (some c3Content)))
        (MStep.enterDrain _ rfl (by decide) rfl))
      (MStep.drainStep _ 1 "a.ts" [] rfl rfl (by decide)))

/-! ## Concrete scenarios of the service pipeline -/

/-- The two-file example scenario of the spec: a.ts importing b from ./b
with an `any` annotation, b.ts exporting a const. -/
def c4Files : FileMap :=
  [("a.ts", Dirent.file "import \x7b b \x7d from \x27./b\x27; const x: any = 1;"),
   ("b.ts", Dirent.file "export const b = 1;")]

/-- C4 counterexample: indexing the example scenario produces no dependency
edge whose target is file:b.ts (the specifier ./b resolves, without
normalization, to /./b.jsx), and no diagnostic for a.ts carries code 2020
(the provider that emits code 2020 is never invoked by the indexing
pipeline). -/
theorem C4_example_scenario_counterexample :
    ((indexWorkspace c4Files).graph.dependencies.filter
      (fun e => e.target == "file:b.ts")) = ([] : List DependencyEdge)
    ∧ ((getDiagnostics (indexWorkspace c4Files).diagnostics (some "a.ts")).filter
      (fun d => d.code == some "2020")) = ([] : List DiagnosticItem) := by
  decide

/-- C4 amended: indexing the example scenario yields exactly one dependency
edge, file:a.ts to file:/./b.jsx of kind import and weight 1, and exactly
two diagnostics for a.ts, both of severity warning with source
workspace-index and no code: an unused-import warning for b at line 1
column 10 and an undefined-variable warning mentioning any at line 1 column
35. -/
theorem C4_example_scenario_amended :
    (indexWorkspace c4Files).graph.dependencies
      = [⟨"file:a.ts", "file:/./b.jsx", "import", 1⟩]
    ∧ getDiagnostics (indexWorkspace c4Files).diagnostics (some "a.ts")
      = [⟨"unused-import-a.ts-b", "a.ts", 1, 10,
          "Importação não utilizada: b", "warning", some "workspace-index", none⟩,
         ⟨"undefined-var-a.ts-any-0", "a.ts", 1, 35,
          "Variável possivelmente não definida: any", "warning", some "workspace-index", none⟩] := by
  decide

/-- The state after fully indexing a workspace holding one empty file. -/
def c2St : IndexCore := indexWorkspace [("a.ts", Dirent.file "")]

/-- C2 counterexample: after a.ts has been indexed once with empty content,
calling queueFileForIndexing again with the identical content is not a
no-op — no content hash was ever recorded for the path (empty content
bypasses the hash block), so the path is enqueued again and the file will
be re-indexed. -/
theorem C2_unchanged_content_noop_counterexample :
    c2St.fileHashes = ([] : List (String × String))
    ∧ c2St.indexingQueue = ([] : List String)
    ∧ ahas c2St.graph.files "file:a.ts" = true
    ∧ queueFileForIndexing c2St "a.ts" (some "") ≠ c2St
    ∧ (queueFileForIndexing c2St "a.ts" (some "")).indexingQueue = ["a.ts"] := by
  decide

/-- File map with a class in b.ts extended by a class in a.ts. -/
def c5Files : FileMap :=
  [("b.ts", Dirent.file "export class B \x7b \x7d"),
   ("a.ts", Dirent.file "import \x7b b \x7d from \x27./b\x27; class A extends B \x7b \x7d")]

/-- The state after fully indexing the two-class workspace. -/
def c5St : IndexCore := indexWorkspace c5Files

/-- C5 (code bug): when a.ts disappears from the external file map, the
removal loop of _handleFilesChanged iterates the prefixed keys of
graph.files and hands them to _removeFileFromIndex, which prefixes again
and looks up file:file:a.ts — so nothing is ever removed and the call is
the identity on a state that still holds the a.ts file node, its symbol,
its outgoing edges and its diagnostics. Called directly with the plain
path, _removeFileFromIndex does delete the file node, the owned symbol,
every edge whose source or target is the file id, and the diagnostics:
the claimed clean-up exists but the file-disappearance path never reaches
it. -/
theorem C5_removal_loop_never_fires :
    handleFilesChanged [("b.ts", Dirent.file "export class B \x7b \x7d")] c5St = c5St
    ∧ ahas c5St.graph.files "file:a.ts" = true
    ∧ ahas c5St.graph.symbols "symbol:a.ts:A" = true
    ∧ c5St.graph.dependencies.filter (fun e => e.source == "file:a.ts")
        ≠ ([] : List DependencyEdge)
    ∧ getDiagnostics c5St.diagnostics (some "a.ts") ≠ ([] : List DiagnosticItem)
    ∧ (removeFileFromIndex c5St "a.ts").graph.files.map Prod.fst = ["file:b.ts"]
    ∧ (removeFileFromIndex c5St "a.ts").graph.symbols.map Prod.fst = ["symbol:b.ts:B"]
    ∧ (removeFileFromIndex c5St "a.ts").graph.dependencies.filter
        (fun e => e.source == "file:a.ts" || e.target == "file:a.ts")
        = ([] : List DependencyEdge)
    ∧ getDiagnostics (removeFileFromIndex c5St "a.ts").diagnostics (some "a.ts")
        = ([] : List DiagnosticItem) := by
  decide

end CodeZen
